import Mathlib

/-!
# bdr_perdb.c : per-database worker, commit hook and apply-worker launch

A shallow embedding of `src/bdr_perdb.c`.

* Shared memory (`BdrWorkerCtl`) is a record holding the generation counter, the
  supervisor latch and the slot array; a process acts on a `World`, which pairs the
  shared memory with the chronological list of externally visible actions the
  process performed (lock calls, latch calls, slot accesses, spawn requests, ...).
* C strings are the list of their bytes before the terminating NUL.
* Pointers to latches are numbers, `NULL` being `0`; pointers to slots are slot
  indexes.
* `Assert`s are not part of the control flow (they are compiled out of production
  builds); where a theorem relies on what an `Assert` states, it is a hypothesis.
* Each process is modelled sequentially: other processes do not run in between.
-/

namespace BdrPerdb

/-! ## Data model -/

/-- Content of a C string: the bytes before the terminating NUL. -/
abbrev CString := List Nat

/-- PostgreSQL constant `NAMEDATALEN` (pg_config_manual.h). -/
def NAMEDATALEN : Nat := 64

/-- The null pointer. -/
def NULL : Nat := 0

/-- PostgreSQL constant `InvalidOid`. -/
def InvalidOid : Nat := 0

/-- PostgreSQL constant `InvalidXLogRecPtr`. -/
def InvalidXLogRecPtr : Nat := 0

/-- PostgreSQL constant `SPI_OK_SELECT` (executor/spi.h). -/
def SPI_OK_SELECT : Int := 5

/-- PostgreSQL constant `SPI_ERROR_NOATTRIBUTE` (executor/spi.h). -/
def SPI_ERROR_NOATTRIBUTE : Int := -9

/-- PostgreSQL latch wait flag `WL_LATCH_SET` (storage/latch.h). -/
def WL_LATCH_SET : Nat := 1

/-- PostgreSQL latch wait flag `WL_POSTMASTER_DEATH` (storage/latch.h). -/
def WL_POSTMASTER_DEATH : Nat := 16

/-- Modelled from the spec: the enum `BdrWorkerType` is declared in bdr.h, which is
not among the sources. `bdr_perdb.c` uses the tags `BDR_WORKER_APPLY` and
`BDR_WORKER_PERDB`; `BDR_WORKER_EMPTY_SLOT` is the tag of a free entry and
`BDR_WORKER_OTHER` stands for every remaining kind of worker. -/
inductive BdrWorkerType where
  | BDR_WORKER_EMPTY_SLOT
  | BDR_WORKER_APPLY
  | BDR_WORKER_PERDB
  | BDR_WORKER_OTHER
  deriving DecidableEq, Repr, Inhabited

/-- Modelled from the spec: `BdrApplyWorker` (bdr.h), with the fields that
`bdr_perdb.c` reads and writes. `conn_local_name` is a `NameData`; it is kept as the
C string it holds. -/
structure BdrApplyWorker where
  conn_local_name : CString
  replay_stop_lsn : Nat
  forward_changesets : Bool
  perdb_worker_idx : Nat
  deriving DecidableEq, Repr, Inhabited

/-- Modelled from the spec: `BdrPerdbWorker` (bdr.h), with the fields that
`bdr_perdb.c` reads and writes. `proclatch` is a pointer, `NULL` when the worker
is registered but not running. -/
structure BdrPerdbWorker where
  dbname : CString
  nnodes : Nat
  seq_slot : Nat
  proclatch : Nat
  database_oid : Nat
  deriving DecidableEq, Repr, Inhabited

/-- Modelled from the spec: `BdrWorker` (bdr.h), one entry of the slot array. The C
type is a tag followed by a union `worker_data`; the two members used by
`bdr_perdb.c` are kept side by side, so a write through one member never shows
through the other (the code reads a member only under the matching tag).
`generation` is the stamp the spec has the allocator put on a slot. -/
structure BdrWorker where
  worker_type : BdrWorkerType
  generation : Nat
  apply_worker : BdrApplyWorker
  perdb_worker : BdrPerdbWorker
  deriving DecidableEq, Repr, Inhabited

/-- Modelled from the spec: the shared control segment `BdrWorkerCtl` (bdr.h).
`slots` has `bdr_max_workers` entries; the lock itself is tracked through the
lock events of the trace. `worker_generation` is a `uint16`. -/
structure BdrWorkerControl where
  worker_generation : Nat
  supervisor_latch : Nat
  slots : List BdrWorker
  deriving DecidableEq, Repr, Inhabited

/-- The GUC `bdr_max_workers`: the number of entries of the slot array. -/
def bdr_max_workers (ctl : BdrWorkerControl) : Nat := ctl.slots.length

/-- PostgreSQL lock modes used on `BdrWorkerCtl->lock`. -/
inductive LWLockMode where
  | LW_EXCLUSIVE
  | LW_SHARED
  deriving DecidableEq, Repr, Inhabited

/-- The `BackgroundWorker` request built by `bdr_launch_apply_workers`.
`bgw_name` keeps the connection name that is formatted into the display label
(the label format macro is not among the sources). -/
structure BackgroundWorker where
  bgw_name : CString
  bgw_function_name : String
  bgw_restart_time : Nat
  bgw_notify_pid : Nat
  bgw_main_arg : Nat
  deriving DecidableEq, Repr, Inhabited

/-- Externally visible actions of a process, in the order of the source lines
that perform them. -/
inductive Event where
  | LWLockAcquire (mode : LWLockMode)
  | LWLockRelease
  | SetLatch (latch : Nat)
  | WaitLatch (latch : Nat) (timeout_ms : Nat)
  | ResetLatch (latch : Nat)
  | SlotScan
  | SlotRead (idx : Nat)
  | SlotWrite (idx : Nat)
  | RegisterXactCallback
  | RegisterDynamicBackgroundWorker (bgw : BackgroundWorker) (ok : Bool)
  | bdr_locks_set_nnodes (nnodes : Nat)
  | bdr_sequencer_set_nnodes (nnodes : Nat)
  | bdr_sequencer_init (seq_slot : Nat) (nnodes : Nat)
  | call (fn : String)
  | elog_DEBUG (args : List CString)
  | ereport_ERROR (msg : String)
  | proc_exit (code : Nat)
  deriving DecidableEq, Repr, Inhabited

/-- Shared memory together with the trace of actions of the running process. -/
structure World where
  BdrWorkerCtl : BdrWorkerControl
  trace : List Event
  deriving DecidableEq, Repr, Inhabited

/-- Append one action to the trace. -/
def World.log (w : World) (e : Event) : World :=
  { w with trace := w.trace ++ [e] }

/-- The slot array of the shared segment. -/
def World.slots (w : World) : List BdrWorker := w.BdrWorkerCtl.slots

/-- Store `f slot` into entry `idx` of the slot array (a write through a pointer
to that entry), recording the write. -/
def World.writeSlot (w : World) (idx : Nat) (f : BdrWorker → BdrWorker) : World :=
  { BdrWorkerCtl := { w.BdrWorkerCtl with slots := w.BdrWorkerCtl.slots.modify f idx },
    trace := w.trace ++ [Event.SlotWrite idx] }

/-! ## find_perdb_worker_slot, find_apply_worker_slot -/

/-- Result of a slot lookup: the returned offset, the slot pointer stored through
`worker_found` (`none` when nothing was stored), and the world afterwards. -/
structure FindResult where
  found : Int
  worker_found : Option Nat
  w : World
  deriving DecidableEq, Repr, Inhabited

/-- The `for` loop of `find_perdb_worker_slot`, from index `i` on: the first index
whose slot is a PERDB slot with `strcmp(NameStr(pw->dbname), dbname) == 0`. -/
def find_perdb_loop (dbname : CString) : List BdrWorker → Nat → Option Nat
  | [], _ => none
  | w :: ws, i =>
    if w.worker_type = BdrWorkerType.BDR_WORKER_PERDB then
      if w.perdb_worker.dbname = dbname then some i
      else find_perdb_loop dbname ws (i + 1)
    else find_perdb_loop dbname ws (i + 1)

/-- Source `find_perdb_worker_slot(dbname, worker_found)`; `out` tells whether
`worker_found` is non-null. -/
def find_perdb_worker_slot (dbname : CString) (out : Bool) (w : World) : FindResult :=
  match find_perdb_loop dbname w.slots 0 with
  | some i =>
    { found := (i : Int), worker_found := if out then some i else none,
      w := w.log Event.SlotScan }
  | none => { found := -1, worker_found := none, w := w.log Event.SlotScan }

/-- The `for` loop of `find_apply_worker_slot`, from index `i` on: the first index
whose slot is an APPLY slot owned by `perdb_worker_idx` whose name compares equal
to `worker_name`. -/
def find_apply_loop (perdb_worker_idx : Nat) (worker_name : CString) :
    List BdrWorker → Nat → Option Nat
  | [], _ => none
  | w :: ws, i =>
    if w.worker_type = BdrWorkerType.BDR_WORKER_APPLY then
      if w.apply_worker.perdb_worker_idx = perdb_worker_idx
          ∧ w.apply_worker.conn_local_name = worker_name then some i
      else find_apply_loop perdb_worker_idx worker_name ws (i + 1)
    else find_apply_loop perdb_worker_idx worker_name ws (i + 1)

/-- Source `find_apply_worker_slot(worker_name, worker_found)`, for the process
whose global `perdb_worker_idx` has the given value. -/
def find_apply_worker_slot (perdb_worker_idx : Nat) (worker_name : CString) (out : Bool)
    (w : World) : FindResult :=
  match find_apply_loop perdb_worker_idx worker_name w.slots 0 with
  | some i =>
    { found := (i : Int), worker_found := if out then some i else none,
      w := w.log Event.SlotScan }
  | none => { found := -1, worker_found := none, w := w.log Event.SlotScan }

/-! ## Commit hook: bdr_perdb_xact_callback, bdr_start_perdb_worker -/

/-- PostgreSQL transaction events delivered to transaction callbacks
(access/xact.h). -/
inductive XactEvent where
  | XACT_EVENT_COMMIT
  | XACT_EVENT_ABORT
  | XACT_EVENT_PREPARE
  | XACT_EVENT_PRE_COMMIT
  | XACT_EVENT_PRE_PREPARE
  deriving DecidableEq, Repr, Inhabited

/-- State of a normal backend: the file-scope flag `xacthook_connection_added`,
the number of entries of the backend's transaction-callback list that hold
`bdr_perdb_xact_callback`, the session's `MyProcPort->database_name`, and the
world. -/
structure Backend where
  xacthook_connection_added : Bool
  registered : Nat
  database_name : CString
  w : World
  deriving DecidableEq, Repr, Inhabited

/-- Source `bdr_perdb_xact_callback(event, arg)`. -/
def bdr_perdb_xact_callback (event : XactEvent) (s : Backend) : Backend :=
  match event with
  | XactEvent.XACT_EVENT_COMMIT =>
    if s.xacthook_connection_added then
      let w1 := s.w.log (Event.LWLockAcquire LWLockMode.LW_EXCLUSIVE)
      let r := find_perdb_worker_slot s.database_name true w1
      let w2 :=
        if r.found ≥ 0 then
          match r.worker_found with
          | some i =>
            let latch := (r.w.slots.getD i default).perdb_worker.proclatch
            if latch ≠ NULL then (r.w.log (Event.SlotRead i)).log (Event.SetLatch latch)
            else r.w.log (Event.SlotRead i)
          | none => r.w
        else r.w.log (Event.SetLatch r.w.BdrWorkerCtl.supervisor_latch)
      { s with xacthook_connection_added := false, w := w2.log Event.LWLockRelease }
    else s
  | _ => s

/-- Source `bdr_start_perdb_worker()`. `RegisterXactCallback` adds one entry to the
backend's callback list. -/
def bdr_start_perdb_worker (s : Backend) : Backend :=
  if !s.xacthook_connection_added then
    { s with registered := s.registered + 1, xacthook_connection_added := true,
             w := s.w.log Event.RegisterXactCallback }
  else s

/-- `k` successive calls of `bdr_start_perdb_worker`. -/
def start_perdb_worker_times : Nat → Backend → Backend
  | 0, s => s
  | k + 1, s => start_perdb_worker_times k (bdr_start_perdb_worker s)

/-- Call the callback once per entry, for `n` entries. -/
def call_callbacks (event : XactEvent) : Nat → Backend → Backend
  | 0, s => s
  | n + 1, s => call_callbacks event n (bdr_perdb_xact_callback event s)

/-- PostgreSQL delivers a transaction event by calling every entry of the
callback list with it (`CallXactCallbacks`, access/transam/xact.c). -/
def CallXactCallbacks (event : XactEvent) (s : Backend) : Backend :=
  call_callbacks event s.registered s

/-- The arguments of the `SetLatch` calls of a trace, in order. -/
def setLatchCalls (t : List Event) : List Nat :=
  t.filterMap (fun e => match e with
    | Event.SetLatch l => some l
    | _ => none)

/-! ## Spawn token -/

/-- Conversion of an integer to `uint32`. -/
def to_uint32 (x : Int) : Nat := (x % 2 ^ 32).toNat

/-- Conversion of a non-negative value to `int32` (two's complement). -/
def to_int32 (x : Nat) : Int :=
  if x % 2 ^ 32 < 2 ^ 31 then ((x % 2 ^ 32 : Nat) : Int) else ((x % 2 ^ 32 : Nat) : Int) - 2 ^ 32

/-- Conversion to `uint16`. -/
def to_uint16 (x : Nat) : Nat := x % 2 ^ 16

/-- PostgreSQL `Int32GetDatum`: the low 4 bytes of the value. -/
def Int32GetDatum (x : Int) : Nat := to_uint32 x

/-- PostgreSQL `DatumGetInt32`: the low 4 bytes of the datum, as an `int32`. -/
def DatumGetInt32 (d : Nat) : Int := to_int32 d

/-- Source line 308: `worker_arg = (((uint32)worker_generation) << 16) | (uint32)slot`,
in `uint32` arithmetic. -/
def make_worker_arg (worker_generation slot : Nat) : Nat :=
  (((worker_generation % 2 ^ 32) <<< 16) % 2 ^ 32) ||| (slot % 2 ^ 32)

/-- Source line 309: `bgw.bgw_main_arg = Int32GetDatum(worker_arg)`; the `uint32`
argument is converted to the `int32` parameter. -/
def make_main_arg (worker_generation slot : Nat) : Nat :=
  Int32GetDatum (to_int32 (make_worker_arg worker_generation slot))

/-- Source line 389: `worker_arg = DatumGetInt32(main_arg)`, stored in a `uint32`. -/
def main_worker_arg (main_arg : Nat) : Nat := to_uint32 (DatumGetInt32 main_arg)

/-- Source line 391: `worker_generation = (uint16)(worker_arg >> 16)`. -/
def arg_generation (worker_arg : Nat) : Nat := to_uint16 (worker_arg >>> 16)

/-- Source line 392: `perdb_worker_idx = (uint16)(worker_arg & 0x0000FFFF)`. -/
def arg_idx (worker_arg : Nat) : Nat := to_uint16 (worker_arg &&& 0x0000FFFF)

/-! ## bdr_launch_apply_workers -/

/-- What one call of `bdr_launch_apply_workers` observes of its environment: the
result code of `SPI_execute_with_args`, the result of `SPI_fnumber`, the
`conn_local_name` value of every returned row (`SPI_processed` is their number),
and the answer of `RegisterDynamicBackgroundWorker` to the request issued for row
`i` (a handle, or `none` for failure). -/
structure LaunchEnv where
  ret : Int
  attno_conn_local_name : Int
  rows : List CString
  register : Nat → BackgroundWorker → Option Nat

/-- How a piece of code ends: normally with a value, or with `ereport(ERROR)`. -/
inductive Outcome (α : Type) where
  | ok (a : α)
  | error (msg : String)
  deriving DecidableEq, Repr

/-- Modelled from the spec: `bdr_worker_shmem_alloc(worker_type, &slot)` is defined
in bdr.c, which is not among the sources. Following section 4.1, it finds a free
entry (which one is left to `pick`), fails when there is none, marks the entry
used and stamps the current generation; the caller holds the lock and populates
the entry. The result is the index of the entry. -/
def bdr_worker_shmem_alloc (pick : List BdrWorker → Option Nat)
    (worker_type : BdrWorkerType) (w : World) : Option (Nat × World) :=
  match pick w.slots with
  | none => none
  | some i =>
    some (i, (w.log Event.SlotScan).writeSlot i (fun s =>
      { s with worker_type := worker_type,
               generation := w.BdrWorkerCtl.worker_generation }))

/-- Lines 311-317: populate the apply worker state of a freshly allocated slot.
`strncpy(name, conn_local_name, NAMEDATALEN)` followed by
`name[NAMEDATALEN-1] = 0` leaves the first `NAMEDATALEN-1` bytes of the
source (all of it when it is shorter). -/
def populate_apply (perdb_worker_idx : Nat) (conn_local_name : CString)
    (s : BdrWorker) : BdrWorker :=
  { s with apply_worker :=
      { conn_local_name := conn_local_name.take (NAMEDATALEN - 1),
        replay_stop_lsn := InvalidXLogRecPtr,
        forward_changesets := false,
        perdb_worker_idx := perdb_worker_idx } }

/-- Lines 231-238, 299-309: the spawn request for a connection and a slot. -/
def make_bgw (worker_generation slot : Nat) (conn_local_name : CString) :
    BackgroundWorker :=
  { bgw_name := conn_local_name,
    bgw_function_name := "bdr_apply_main",
    bgw_restart_time := 5,
    bgw_notify_pid := 0,
    bgw_main_arg := make_main_arg worker_generation slot }

/-- The `for` loop of `bdr_launch_apply_workers` (lines 267-339), from row `i` on;
`apply_workers` is the list of handles collected so far (`lcons` adds in front). -/
def launch_loop (pick : List BdrWorker → Option Nat) (perdb_worker_idx : Nat)
    (dbname : CString) (register : Nat → BackgroundWorker → Option Nat) :
    Nat → List CString → World → List Nat → World × Outcome (List Nat)
  | _, [], w, apply_workers => (w, Outcome.ok apply_workers)
  | i, conn_local_name :: rest, w, apply_workers =>
    let w1 := w.log (Event.LWLockAcquire LWLockMode.LW_EXCLUSIVE)
    let r := find_apply_worker_slot perdb_worker_idx conn_local_name false w1
    if r.found ≠ -1 then
      let w2 := (r.w.log (Event.elog_DEBUG [conn_local_name, dbname])).log Event.LWLockRelease
      launch_loop pick perdb_worker_idx dbname register (i + 1) rest w2 apply_workers
    else
      match bdr_worker_shmem_alloc pick BdrWorkerType.BDR_WORKER_APPLY r.w with
      | none =>
        (r.w.log (Event.ereport_ERROR "No space in shmem for new worker"),
          Outcome.error "No space in shmem for new worker")
      | some (slot, w2) =>
        let bgw := make_bgw w2.BdrWorkerCtl.worker_generation slot conn_local_name
        let w3 := w2.writeSlot slot (populate_apply perdb_worker_idx conn_local_name)
        let w4 := w3.log Event.LWLockRelease
        match register i bgw with
        | none =>
          ((w4.log (Event.RegisterDynamicBackgroundWorker bgw false)).log
              (Event.ereport_ERROR "bdr: Failed to register background worker"),
            Outcome.error "bdr: Failed to register background worker")
        | some bgw_handle =>
          launch_loop pick perdb_worker_idx dbname register (i + 1) rest
            (w4.log (Event.RegisterDynamicBackgroundWorker bgw true))
            (bgw_handle :: apply_workers)

/-- Lines 240-254 of `bdr_launch_apply_workers`: open the transaction and run the
directory query. -/
def launch_prologue (w : World) : World :=
  ((w.log (Event.call "StartTransactionCommand")).log
    (Event.call "SPI_connect")).log (Event.call "SPI_execute_with_args")

/-- Lines 341-355 of `bdr_launch_apply_workers`: close the query and the
transaction, store the node count in the slot `bdr_worker_slot` points to, and
pass it to the lock manager and the sequencer. -/
def launch_epilogue (bdr_worker_slot nnodes : Nat) (w : World) : World :=
  let w3 := (w.log (Event.call "SPI_finish")).log (Event.call "CommitTransactionCommand")
  let w4 := w3.writeSlot bdr_worker_slot (fun s =>
    { s with perdb_worker := { s.perdb_worker with nnodes := nnodes } })
  (w4.log (Event.bdr_locks_set_nnodes nnodes)).log (Event.bdr_sequencer_set_nnodes nnodes)

/-- Source `bdr_launch_apply_workers(dbname)`, run by the process whose globals
`perdb_worker_idx` and `bdr_worker_slot` (a pointer into the slot array, here the
index it points to) have the given values. -/
def bdr_launch_apply_workers (pick : List BdrWorker → Option Nat)
    (perdb_worker_idx bdr_worker_slot : Nat) (dbname : CString) (env : LaunchEnv)
    (w : World) : World × Outcome (List Nat) :=
  let w1 := launch_prologue w
  if env.ret ≠ SPI_OK_SELECT then
    (w1.log (Event.ereport_ERROR "SPI error while querying bdr.bdr_connections"),
      Outcome.error "SPI error while querying bdr.bdr_connections")
  else if env.attno_conn_local_name = SPI_ERROR_NOATTRIBUTE then
    (w1.log (Event.ereport_ERROR
        "SPI error while reading conn_local_name from bdr.bdr_connections"),
      Outcome.error "SPI error while reading conn_local_name from bdr.bdr_connections")
  else
    let nnodes := env.rows.length
    match launch_loop pick perdb_worker_idx dbname env.register 0 env.rows w1 [] with
    | (w2, Outcome.error msg) => (w2, Outcome.error msg)
    | (w2, Outcome.ok apply_workers) =>
      (launch_epilogue bdr_worker_slot nnodes w2, Outcome.ok apply_workers)

/-- The spawn requests of a trace, in order, each with the answer it got. -/
def spawnRequests (t : List Event) : List (BackgroundWorker × Bool) :=
  t.filterMap (fun e => match e with
    | Event.RegisterDynamicBackgroundWorker bgw ok => some (bgw, ok)
    | _ => none)

/-- The arguments of the `bdr_locks_set_nnodes` calls of a trace, in order. -/
def locksSetNnodesCalls (t : List Event) : List Nat :=
  t.filterMap (fun e => match e with
    | Event.bdr_locks_set_nnodes n => some n
    | _ => none)

/-- The arguments of the `bdr_sequencer_set_nnodes` calls of a trace, in order. -/
def sequencerSetNnodesCalls (t : List Event) : List Nat :=
  t.filterMap (fun e => match e with
    | Event.bdr_sequencer_set_nnodes n => some n
    | _ => none)

/-- The world in which a pass of `bdr_launch_apply_workers` started in `w` reaches
row `i` of the directory: the loop has run over the rows before it. -/
def world_before_row (pick : List BdrWorker → Option Nat) (perdb_worker_idx : Nat)
    (dbname : CString) (env : LaunchEnv) (w : World) (i : Nat) : World :=
  (launch_loop pick perdb_worker_idx dbname env.register 0 (env.rows.take i)
    (launch_prologue w) []).1

/-- A slot is an APPLY slot of the given owner and local name: the predicate the
lookup of `find_apply_worker_slot` tests. -/
def isApplyFor (perdb_worker_idx : Nat) (name : CString) (s : BdrWorker) : Prop :=
  s.worker_type = BdrWorkerType.BDR_WORKER_APPLY
    ∧ s.apply_worker.perdb_worker_idx = perdb_worker_idx
    ∧ s.apply_worker.conn_local_name = name

instance (perdb_worker_idx : Nat) (name : CString) (s : BdrWorker) :
    Decidable (isApplyFor perdb_worker_idx name s) := by
  unfold isApplyFor; infer_instance

/-- The allocator hands out free entries only: whenever `pick` answers, the index
is inside the slot array and the entry there is free. -/
def PicksFree (pick : List BdrWorker → Option Nat) : Prop :=
  ∀ slots i, pick slots = some i →
    ∃ s, slots[i]? = some s ∧ s.worker_type = BdrWorkerType.BDR_WORKER_EMPTY_SLOT

/-- An allocator: the first free entry of the array, scanning from index 0. -/
def first_free (slots : List BdrWorker) : Option Nat :=
  let i := slots.findIdx (fun s => s.worker_type == BdrWorkerType.BDR_WORKER_EMPTY_SLOT)
  if i < slots.length then some i else none

/-! ## bdr_perdb_worker_main -/

/-- What one iteration of the main loop observes: the signal flags `got_SIGTERM`
(at the loop test) and `got_SIGHUP`, the answers of the two sequencer hooks that
can cancel the wait, the result `rc` of `WaitLatch` (used when the iteration
waits) and the environment of the launch pass (used when the iteration runs
one). -/
structure LoopEnv where
  got_SIGTERM : Bool
  got_SIGHUP : Bool
  start_elections : Bool
  vote : Bool
  rc : Nat
  launch : LaunchEnv

/-- What a run of `bdr_perdb_worker_main` observes: whether the build defines
`BUILDING_BDR`, the address `&MyProc->procLatch`, `MyDatabaseId`, the environment
of the initial launch pass and of the successive loop iterations. -/
structure MainEnv where
  BUILDING_BDR : Bool
  MyProcLatch : Nat
  MyDatabaseId : Nat
  initial : LaunchEnv
  iterations : List LoopEnv

/-- How a run of the worker ends: `proc_exit(code)`, an `ereport(ERROR)`, or still
in the main loop when the described iterations are over. -/
inductive Exit where
  | exited (code : Nat)
  | error (msg : String)
  | running
  deriving DecidableEq, Repr, Inhabited

/-- Result of a run of the worker: the world, the process globals
`perdb_worker_idx` and `bdr_worker_slot` (`none` while unset), and how it ended. -/
structure MainResult where
  w : World
  perdb_worker_idx : Nat
  bdr_worker_slot : Option Nat
  exit : Exit
  deriving DecidableEq, Repr, Inhabited

/-- The `dbname` field of the slot `bdr_perdb_worker` points to. -/
def slot_dbname (w : World) (idx : Nat) : CString :=
  (w.slots.getD idx default).perdb_worker.dbname

/-- The `while (!got_SIGTERM)` loop of `bdr_perdb_worker_main` (lines 467-526).
The result is `none` when the loop is left through its test, otherwise the way
the process ended inside the loop. -/
def perdb_main_loop (pick : List BdrWorker → Option Nat) (building_bdr : Bool)
    (procLatch : Nat) (perdb_worker_idx : Nat) :
    List LoopEnv → World → World × Option Exit
  | [], w => (w, some Exit.running)
  | it :: rest, w =>
    if it.got_SIGTERM then (w, none)
    else
      let w1 := if it.got_SIGHUP then w.log (Event.call "ProcessConfigFile") else w
      let w2 :=
        if building_bdr then
          (((w1.log (Event.call "bdr_sequencer_start_elections")).log
            (Event.call "bdr_sequencer_vote")).log
            (Event.call "bdr_sequencer_tally")).log
            (Event.call "bdr_sequencer_fill_sequences")
        else w1
      let wait : Bool :=
        if building_bdr then !(it.start_elections || it.vote) else true
      let w3 := w2.log (Event.call "pgstat_report_activity")
      if wait then
        let w4 := (w3.log (Event.WaitLatch procLatch 180000)).log (Event.ResetLatch procLatch)
        if it.rc &&& WL_POSTMASTER_DEATH ≠ 0 then
          (w4.log (Event.proc_exit 1), some (Exit.exited 1))
        else if it.rc &&& WL_LATCH_SET ≠ 0 then
          match bdr_launch_apply_workers pick perdb_worker_idx perdb_worker_idx
              (slot_dbname w4 perdb_worker_idx) it.launch
              (w4.log (Event.SlotRead perdb_worker_idx)) with
          | (w5, Outcome.error msg) => (w5, some (Exit.error msg))
          | (w5, Outcome.ok _) =>
            perdb_main_loop pick building_bdr procLatch perdb_worker_idx rest w5
        else perdb_main_loop pick building_bdr procLatch perdb_worker_idx rest w4
      else perdb_main_loop pick building_bdr procLatch perdb_worker_idx rest w3

/-- Source `bdr_perdb_worker_main(main_arg)`. -/
def bdr_perdb_worker_main (pick : List BdrWorker → Option Nat) (env : MainEnv)
    (main_arg : Nat) (w : World) : MainResult :=
  let worker_arg := main_worker_arg main_arg
  let worker_generation := arg_generation worker_arg
  let perdb_worker_idx := arg_idx worker_arg
  if worker_generation ≠ w.BdrWorkerCtl.worker_generation then
    { w := (w.log (Event.elog_DEBUG [])).log (Event.proc_exit 0),
      perdb_worker_idx := perdb_worker_idx, bdr_worker_slot := none,
      exit := Exit.exited 0 }
  else
    let w1 := (w.log (Event.SlotRead perdb_worker_idx)).log (Event.call "bdr_worker_init")
    let w2 := w1.writeSlot perdb_worker_idx (fun s =>
      { s with perdb_worker := { s.perdb_worker with nnodes := 0 } })
    let w3 := ((((((w2.log (Event.elog_DEBUG [])).log
      (Event.call "SetConfigOption")).log
      (Event.call "ResourceOwnerCreate")).log
      (Event.call "bdr_executor_always_allow_writes")).log
      (Event.call "bdr_locks_startup")).log
      (Event.call "bdr_init_replica")).log
      (Event.elog_DEBUG [slot_dbname w2 perdb_worker_idx])
    match bdr_launch_apply_workers pick perdb_worker_idx perdb_worker_idx
        (slot_dbname w3 perdb_worker_idx) env.initial
        (w3.log (Event.SlotRead perdb_worker_idx)) with
    | (w4, Outcome.error msg) =>
      { w := w4, perdb_worker_idx := perdb_worker_idx,
        bdr_worker_slot := some perdb_worker_idx, exit := Exit.error msg }
    | (w4, Outcome.ok _) =>
      let w5 := w4.log (Event.call "pfree")
      let w6 :=
        if env.BUILDING_BDR then
          (w5.log (Event.SlotRead perdb_worker_idx)).log
            (Event.bdr_sequencer_init
              (w5.slots.getD perdb_worker_idx default).perdb_worker.seq_slot
              (w5.slots.getD perdb_worker_idx default).perdb_worker.nnodes)
        else w5
      let w7 := w6.log (Event.LWLockAcquire LWLockMode.LW_EXCLUSIVE)
      let w8 := (w7.writeSlot perdb_worker_idx (fun s =>
        { s with perdb_worker := { s.perdb_worker with proclatch := env.MyProcLatch } })
        ).writeSlot perdb_worker_idx (fun s =>
        { s with perdb_worker := { s.perdb_worker with database_oid := env.MyDatabaseId } })
      let w9 := w8.log Event.LWLockRelease
      match perdb_main_loop pick env.BUILDING_BDR env.MyProcLatch perdb_worker_idx
          env.iterations w9 with
      | (w10, some e) =>
        { w := w10, perdb_worker_idx := perdb_worker_idx,
          bdr_worker_slot := some perdb_worker_idx, exit := e }
      | (w10, none) =>
        let w11 := w10.writeSlot perdb_worker_idx (fun s =>
          { s with perdb_worker := { s.perdb_worker with database_oid := InvalidOid } })
        { w := w11.log (Event.proc_exit 0), perdb_worker_idx := perdb_worker_idx,
          bdr_worker_slot := some perdb_worker_idx, exit := Exit.exited 0 }

/-! ## Specification predicates -/

/-- A slot is a PERDB slot for the named database: the predicate the lookup of
`find_perdb_worker_slot` tests. -/
def isPerdbFor (dbname : CString) (s : BdrWorker) : Prop :=
  s.worker_type = BdrWorkerType.BDR_WORKER_PERDB ∧ s.perdb_worker.dbname = dbname

instance (dbname : CString) (s : BdrWorker) : Decidable (isPerdbFor dbname s) := by
  unfold isPerdbFor; infer_instance

/-- Index `i` holds the first slot of the array that satisfies `P`. -/
def FirstAt (P : BdrWorker → Prop) (slots : List BdrWorker) (i : Nat) : Prop :=
  (∃ s, slots[i]? = some s ∧ P s) ∧ ∀ j, j < i → ∀ s, slots[j]? = some s → ¬ P s

/-! ## Auxiliary notions and concrete states used in the theorems -/

/-- A PERDB slot for database `dbname` whose worker runs with latch `latch`. -/
def perdb_slot (dbname : CString) (latch : Nat) : BdrWorker :=
  { worker_type := BdrWorkerType.BDR_WORKER_PERDB, generation := 0,
    apply_worker := default,
    perdb_worker := { dbname := dbname, nnodes := 0, seq_slot := 0, proclatch := latch,
                      database_oid := 0 } }

/-- A free slot. -/
def empty_slot : BdrWorker := default

/-- A registry of four slots: the PERDB slot of database `[100]` (latch 7) and three
free entries; generation 3, supervisor latch 9. -/
def demo_ctl : BdrWorkerControl :=
  { worker_generation := 3, supervisor_latch := 9,
    slots := [perdb_slot [100] 7, empty_slot, empty_slot, empty_slot] }

/-- A world over `demo_ctl` with an empty trace. -/
def demo_world : World := { BdrWorkerCtl := demo_ctl, trace := [] }

/-- A backend connected to database `[100]` with the flag set. -/
def demo_backend_flagged : Backend :=
  { xacthook_connection_added := true, registered := 1, database_name := [100],
    w := demo_world }

/-- A backend connected to database `[100]` with the flag clear and two callback
entries left from earlier transactions. -/
def demo_backend_idle : Backend :=
  { xacthook_connection_added := false, registered := 2, database_name := [100],
    w := demo_world }

/-- A launch environment whose directory holds the given names and whose spawner
always succeeds, handing out the row number as handle. -/
def demo_launch_env (rows : List CString) : LaunchEnv :=
  { ret := SPI_OK_SELECT, attno_conn_local_name := 1, rows := rows,
    register := fun i _ => some i }

/-- An environment of the worker: sequencer build, latch 7, database 5, directory
`[[65], [66]]`, no loop iteration described. -/
def demo_main_env : MainEnv :=
  { BUILDING_BDR := true, MyProcLatch := 7, MyDatabaseId := 5,
    initial := demo_launch_env [[65], [66]], iterations := [] }

/-- The content lines 304-317 give a free entry `s0` allocated for row `r`: tagged
APPLY, stamped with the generation, and populated. -/
def fresh_apply_slot (worker_generation perdb_worker_idx : Nat) (r : CString)
    (s0 : BdrWorker) : BdrWorker :=
  populate_apply perdb_worker_idx r
    { s0 with worker_type := BdrWorkerType.BDR_WORKER_APPLY, generation := worker_generation }

/-- The world after the loop body skipped row `r` (lines 284-295). -/
def world_after_skip (dbname r : CString) (w : World) : World :=
  (((w.log (Event.LWLockAcquire LWLockMode.LW_EXCLUSIVE)).log Event.SlotScan).log
    (Event.elog_DEBUG [r, dbname])).log Event.LWLockRelease

/-- The world after the loop body allocated entry `slot` for row `r`, populated it
and released the lock (lines 284-319). -/
def world_after_alloc (perdb_worker_idx : Nat) (r : CString) (slot : Nat) (w : World) :
    World :=
  (((((w.log (Event.LWLockAcquire LWLockMode.LW_EXCLUSIVE)).log Event.SlotScan).log
    Event.SlotScan).writeSlot slot (fun s =>
      { s with worker_type := BdrWorkerType.BDR_WORKER_APPLY,
               generation := w.BdrWorkerCtl.worker_generation })).writeSlot slot
    (populate_apply perdb_worker_idx r)).log Event.LWLockRelease

/-- The kinds of action the body of the launch loop performs. -/
def isLoopBodyEvent : Event → Bool
  | Event.LWLockAcquire _ => true
  | Event.LWLockRelease => true
  | Event.SlotScan => true
  | Event.SlotWrite _ => true
  | Event.elog_DEBUG _ => true
  | Event.RegisterDynamicBackgroundWorker _ _ => true
  | Event.ereport_ERROR _ => true
  | _ => false

/-- The first pass of the worker of slot 0 of the demo registry over the directory
`[[65], [66]]`. -/
def demo_pass1 : World × Outcome (List Nat) :=
  bdr_launch_apply_workers first_free 0 0 [100] (demo_launch_env [[65], [66]]) demo_world

/-- The second pass of the same worker, over the directory `[[65], [66], [67]]`,
in the world the first pass left. -/
def demo_pass2 : World × Outcome (List Nat) :=
  bdr_launch_apply_workers first_free 0 0 [100] (demo_launch_env [[65], [66], [67]])
    demo_pass1.1

/-- A connection name of `NAMEDATALEN` bytes (64 times the byte 97). -/
def long_name : CString := List.replicate 64 97

/-- The name `long_name` is cut to when stored: 63 times the byte 97. -/
def cut_name : CString := List.replicate 63 97

/-- A pass of the worker of slot 0 of the demo registry over the one-row
directory `[long_name]`. -/
def long_pass1 : World × Outcome (List Nat) :=
  bdr_launch_apply_workers first_free 0 0 [100] (demo_launch_env [long_name]) demo_world

/-- A second pass over the same directory, in the world the first one left. -/
def long_pass2 : World × Outcome (List Nat) :=
  bdr_launch_apply_workers first_free 0 0 [100] (demo_launch_env [long_name]) long_pass1.1

/-- A pass of the worker of slot 0 of the demo registry over the directory
`[cut_name, long_name]`, two distinct names. -/
def clash_pass : World × Outcome (List Nat) :=
  bdr_launch_apply_workers first_free 0 0 [100] (demo_launch_env [cut_name, long_name])
    demo_world

/-- No two distinct entries of the slot array are APPLY slots with the same owner
and the same local name. -/
def UniqueApply (slots : List BdrWorker) : Prop :=
  ∀ (i j : Nat) (si sj : BdrWorker), slots[i]? = some si → slots[j]? = some sj →
    si.worker_type = BdrWorkerType.BDR_WORKER_APPLY →
    sj.worker_type = BdrWorkerType.BDR_WORKER_APPLY →
    si.apply_worker.perdb_worker_idx = sj.apply_worker.perdb_worker_idx →
    si.apply_worker.conn_local_name = sj.apply_worker.conn_local_name → i = j

/-- Number of APPLY slots of the slot array. -/
def applySlotCount (slots : List BdrWorker) : Nat :=
  slots.countP (fun s => s.worker_type == BdrWorkerType.BDR_WORKER_APPLY)

/-! ## Further notions for the statements about the worker and its locks -/

/-- Conversion of an integer to `uint16`. -/
def int_to_uint16 (x : Int) : Nat := (x % 2 ^ 16).toNat

/-- Line 47: `uint16 perdb_worker_idx = -1`, the value of the global before the
worker binds to a slot. -/
def perdb_worker_idx_initial : Nat := int_to_uint16 (-1)

/-- Line 222: the condition of `Assert(perdb_worker_idx != -1)`. The `uint16`
operand is promoted to `int`, which keeps its value, and compared with the `int`
constant `-1`. -/
def assert_perdb_worker_idx (perdb_worker_idx : Nat) : Bool :=
  decide (((perdb_worker_idx : Nat) : Int) ≠ -1)

/-- A backend connected to database `[100]` in the demo registry, flag clear, no
callback entry yet. -/
def demo_backend_fresh : Backend :=
  { xacthook_connection_added := false, registered := 0, database_name := [100],
    w := demo_world }

/-- The demo backend after a transaction that called `bdr_start_perdb_worker`
once and was rolled back. -/
def demo_backend_after_abort : Backend :=
  CallXactCallbacks XactEvent.XACT_EVENT_ABORT (bdr_start_perdb_worker demo_backend_fresh)

/-- The same backend after a later transaction that called nothing and
committed. -/
def demo_backend_after_later_commit : Backend :=
  CallXactCallbacks XactEvent.XACT_EVENT_COMMIT demo_backend_after_abort

/-- The actions that read, write or scan registry slots. -/
def isSlotAccess : Event → Bool
  | Event.SlotScan => true
  | Event.SlotRead _ => true
  | Event.SlotWrite _ => true
  | _ => false

/-- Whether the process holds `BdrWorkerCtl->lock` after an action, given whether
it held it before. -/
def lockStep (held : Bool) : Event → Bool
  | Event.LWLockAcquire _ => true
  | Event.LWLockRelease => false
  | _ => held

/-- Whether the process holds the lock after the actions of a trace. -/
def lockAfter (held : Bool) (t : List Event) : Bool := t.foldl lockStep held

/-- The slot accesses of a trace that are performed while the process does not
hold the lock. -/
def unlockedAccesses : Bool → List Event → List Event
  | _, [] => []
  | held, e :: t =>
    (if isSlotAccess e && !held then [e] else []) ++ unlockedAccesses (lockStep held e) t

/-- Whether the process holds the lock in a world whose trace starts with the
lock not held. -/
def World.held (w : World) : Bool := lockAfter false w.trace

/-- The slot accesses made without the lock in a world whose trace starts with
the lock not held. -/
def World.unlocked (w : World) : List Event := unlockedAccesses false w.trace

/-- Number of launch passes started in a trace (each pass starts with
`StartTransactionCommand`, line 240). -/
def passesStarted (t : List Event) : Nat :=
  t.countP (fun e => e == Event.call "StartTransactionCommand")

/-- PostgreSQL latch wait flag `WL_TIMEOUT` (storage/latch.h). -/
def WL_TIMEOUT : Nat := 8

/-- Lines 469-505: the value of `wait` when the iteration reaches `if (wait)`. -/
def iteration_waits (building_bdr : Bool) (it : LoopEnv) : Bool :=
  if building_bdr then !(it.start_elections || it.vote) else true

/-- The iteration waits, and the wait result has `WL_LATCH_SET` without
`WL_POSTMASTER_DEATH`. -/
def iteration_relaunches (building_bdr : Bool) (it : LoopEnv) : Bool :=
  iteration_waits building_bdr it
    && decide (it.rc &&& WL_POSTMASTER_DEATH = 0) && decide (it.rc &&& WL_LATCH_SET ≠ 0)

/-- A launch environment whose directory holds the given names and whose spawner
refuses the request of row `k` and accepts every other one. -/
def demo_fail_env (rows : List CString) (k : Nat) : LaunchEnv :=
  { ret := SPI_OK_SELECT, attno_conn_local_name := 1, rows := rows,
    register := fun i _ => if i = k then none else some i }

/-- A pass of the worker of slot 0 of the demo registry over `[[65], [66]]` whose
spawn request for row 1 (name `[66]`) is refused. -/
def failed_pass : World × Outcome (List Nat) :=
  bdr_launch_apply_workers first_free 0 0 [100] (demo_fail_env [[65], [66]] 1) demo_world

/-- The next pass over the same directory, in the world the failed pass left, with
a spawner that accepts every request. -/
def retry_pass : World × Outcome (List Nat) :=
  bdr_launch_apply_workers first_free 0 0 [100] (demo_launch_env [[65], [66]]) failed_pass.1

/-- The world when an iteration of the main loop reaches `if (wait)` (lines
469-493): the configuration reload, the sequencer hooks of a `BUILDING_BDR`
build and the activity report have run. -/
def iteration_prewait (building_bdr : Bool) (it : LoopEnv) (w : World) : World :=
  let w1 := if it.got_SIGHUP then w.log (Event.call "ProcessConfigFile") else w
  let w2 :=
    if building_bdr then
      (((w1.log (Event.call "bdr_sequencer_start_elections")).log
        (Event.call "bdr_sequencer_vote")).log
        (Event.call "bdr_sequencer_tally")).log
        (Event.call "bdr_sequencer_fill_sequences")
    else w1
  w2.log (Event.call "pgstat_report_activity")

/-- The world after the iteration waited on its latch and reset it (lines
507-511). -/
def iteration_waited (building_bdr : Bool) (procLatch : Nat) (it : LoopEnv) (w : World) :
    World :=
  ((iteration_prewait building_bdr it w).log (Event.WaitLatch procLatch 180000)).log
    (Event.ResetLatch procLatch)

/-- One loop iteration of the worker of slot 0 of the demo registry that is woken
by the timeout only. -/
def demo_timeout_iteration : LoopEnv :=
  { got_SIGTERM := false, got_SIGHUP := false, start_elections := false, vote := false,
    rc := WL_TIMEOUT, launch := demo_launch_env [[65], [66]] }

/-- The world in which `bdr_perdb_worker_main` calls the initial launch pass
(lines 401-434): the worker has bound to its slot, reset `nnodes`, run its
start-up calls and read the database name. -/
def main_startup (idx : Nat) (w : World) : World :=
  let w1 := (w.log (Event.SlotRead idx)).log (Event.call "bdr_worker_init")
  let w2 := w1.writeSlot idx (fun s =>
    { s with perdb_worker := { s.perdb_worker with nnodes := 0 } })
  (((((((w2.log (Event.elog_DEBUG [])).log
    (Event.call "SetConfigOption")).log
    (Event.call "ResourceOwnerCreate")).log
    (Event.call "bdr_executor_always_allow_writes")).log
    (Event.call "bdr_locks_startup")).log
    (Event.call "bdr_init_replica")).log
    (Event.elog_DEBUG [slot_dbname w2 idx])).log (Event.SlotRead idx)

/-- The world in which the main loop is entered (lines 440-465), from the world
the initial pass left: the handles are freed, the sequencer initialised in a
`BUILDING_BDR` build, and `proclatch` and `database_oid` published under the
lock. -/
def main_publish (env : MainEnv) (idx : Nat) (w4 : World) : World :=
  let w5 := w4.log (Event.call "pfree")
  let w6 :=
    if env.BUILDING_BDR then
      (w5.log (Event.SlotRead idx)).log
        (Event.bdr_sequencer_init
          (w5.slots.getD idx default).perdb_worker.seq_slot
          (w5.slots.getD idx default).perdb_worker.nnodes)
    else w5
  let w7 := w6.log (Event.LWLockAcquire LWLockMode.LW_EXCLUSIVE)
  let w8 := (w7.writeSlot idx (fun s =>
    { s with perdb_worker := { s.perdb_worker with proclatch := env.MyProcLatch } })
    ).writeSlot idx (fun s =>
    { s with perdb_worker := { s.perdb_worker with database_oid := env.MyDatabaseId } })
  w8.log Event.LWLockRelease

/-- The world in which the worker exits after its loop was left through its test
(lines 528-529). -/
def main_shutdown (idx : Nat) (w10 : World) : World :=
  (w10.writeSlot idx (fun s =>
    { s with perdb_worker := { s.perdb_worker with database_oid := InvalidOid } })).log
    (Event.proc_exit 0)

/-- The action is a read or a write of the slot of index `idx`. -/
def ownSlotAccess (idx : Nat) (e : Event) : Prop :=
  e = Event.SlotRead idx ∨ e = Event.SlotWrite idx

/-- The entry `idx` of the slot array is a PERDB slot whose `proclatch` is `latch`
and whose `database_oid` is `oid`. -/
def OwnSlot (w : World) (idx latch oid : Nat) : Prop :=
  ∃ s, w.slots[idx]? = some s ∧ s.worker_type = BdrWorkerType.BDR_WORKER_PERDB
    ∧ s.perdb_worker.proclatch = latch ∧ s.perdb_worker.database_oid = oid

/-- One loop iteration that finds the shutdown flag set. -/
def demo_sigterm_iteration : LoopEnv :=
  { got_SIGTERM := true, got_SIGHUP := false, start_elections := false, vote := false,
    rc := 0, launch := demo_launch_env [] }

/-- An environment of the worker whose loop finds the shutdown flag set at its
first test. -/
def demo_shutdown_env : MainEnv :=
  { BUILDING_BDR := true, MyProcLatch := 7, MyDatabaseId := 5,
    initial := demo_launch_env [[65], [66]], iterations := [demo_sigterm_iteration] }

/-- The run of the worker of slot 0 of the demo registry (current generation 3)
that is shut down at the first loop test. -/
def demo_shutdown_run : MainResult :=
  bdr_perdb_worker_main first_free demo_shutdown_env (make_main_arg 3 0) demo_world

/-- A registry like the demo registry in which the per-database worker of
database `[100]` is registered but has not published its latch yet
(`proclatch = NULL`). -/
def unstarted_world : World :=
  { BdrWorkerCtl :=
      { worker_generation := 3, supervisor_latch := 9,
        slots := [perdb_slot [100] NULL, empty_slot, empty_slot, empty_slot] },
    trace := [] }

/-- An environment of the worker: its initial directory holds `[65]` only, and
after start-up the loop is woken twice by the timeout only. -/
def race_env : MainEnv :=
  { BUILDING_BDR := true, MyProcLatch := 7, MyDatabaseId := 5,
    initial := demo_launch_env [[65]],
    iterations := [demo_timeout_iteration, demo_timeout_iteration] }

/-- The world after the worker of slot 0 ran its start-up steps and its initial
launch pass (lines 401-434) in `unstarted_world`. -/
def race_after_initial_pass : World :=
  (bdr_launch_apply_workers first_free 0 0 [100] race_env.initial
    (main_startup 0 unstarted_world)).1

/-- The backend of a session on database `[100]` that added a connection and
commits at that moment, before the worker published its latch. -/
def race_committing_backend : Backend :=
  { xacthook_connection_added := true, registered := 1, database_name := [100],
    w := race_after_initial_pass }

/-- The world after that commit ran `bdr_perdb_xact_callback`. -/
def race_after_commit : World :=
  (bdr_perdb_xact_callback XactEvent.XACT_EVENT_COMMIT race_committing_backend).w

/-- The worker goes on from there: it publishes its latch (lines 440-465) and runs
the two loop iterations. -/
def race_after_loop : World × Option Exit :=
  perdb_main_loop first_free true 7 0 race_env.iterations
    (main_publish race_env 0 race_after_commit)

/-- A registry of six slots: the PERDB slot of database `[100]` (latch 7) and five
free entries; generation 3, supervisor latch 9. -/
def wide_world : World :=
  { BdrWorkerCtl :=
      { worker_generation := 3, supervisor_latch := 9,
        slots := [perdb_slot [100] 7, empty_slot, empty_slot, empty_slot, empty_slot,
                  empty_slot] },
    trace := [] }

/-- A pass of the worker of slot 0 of `wide_world` over the directory
`[long_name, [66]]`. -/
def grow_pass1 : World × Outcome (List Nat) :=
  bdr_launch_apply_workers first_free 0 0 [100] (demo_launch_env [long_name, [66]])
    wide_world

/-- The next pass, over the directory `[long_name, [66], [67]]`, in the world the
first one left. -/
def grow_pass2 : World × Outcome (List Nat) :=
  bdr_launch_apply_workers first_free 0 0 [100] (demo_launch_env [long_name, [66], [67]])
    grow_pass1.1

/-! ## Theorems -/

/-- The PERDB lookup loop started at offset `k` answers `k + j` for the first
position `j` of the list that holds a matching slot. -/
theorem find_perdb_loop_some (dbname : CString) (l : List BdrWorker) (k i : Nat) :
    find_perdb_loop dbname l k = some i ↔
      ∃ j, i = k + j ∧ FirstAt (isPerdbFor dbname) l j := by
  induction l generalizing k with
  | nil => simp [find_perdb_loop, FirstAt]
  | cons w ws ih =>
    by_cases hw : isPerdbFor dbname w
    · have h1 : find_perdb_loop dbname (w :: ws) k = some k := by
        simp [find_perdb_loop, hw.1, hw.2]
      rw [h1]
      constructor
      · intro h
        injection h with h
        exact ⟨0, by omega, ⟨w, by simp, hw⟩, by intro j hj; omega⟩
      · rintro ⟨j, hj, _, hmin⟩
        rcases Nat.eq_zero_or_pos j with h0 | hpos
        · subst h0; simp [hj]
        · exact absurd hw (hmin 0 hpos w (by simp))
    · have h1 : find_perdb_loop dbname (w :: ws) k = find_perdb_loop dbname ws (k + 1) := by
        unfold isPerdbFor at hw
        by_cases ht : w.worker_type = BdrWorkerType.BDR_WORKER_PERDB
        · have hn : ¬ w.perdb_worker.dbname = dbname := fun h => hw ⟨ht, h⟩
          simp [find_perdb_loop, ht, hn]
        · simp [find_perdb_loop, ht]
      rw [h1, ih]
      constructor
      · rintro ⟨j, hj, ⟨s, hs, hP⟩, hmin⟩
        refine ⟨j + 1, by omega, ⟨s, by simpa using hs, hP⟩, ?_⟩
        intro j2 hj2 s2 hs2
        cases j2 with
        | zero =>
          simp at hs2
          subst hs2
          exact hw
        | succ j3 => exact hmin j3 (by omega) s2 (by simpa using hs2)
      · rintro ⟨j, hj, ⟨s, hs, hP⟩, hmin⟩
        cases j with
        | zero =>
          simp at hs
          subst hs
          exact absurd hP hw
        | succ j3 =>
          refine ⟨j3, by omega, ⟨s, by simpa using hs, hP⟩, ?_⟩
          intro j2 hj2 s2 hs2
          exact hmin (j2 + 1) (by omega) s2 (by simpa using hs2)

/-- The PERDB lookup loop finds nothing exactly when no slot matches. -/
theorem find_perdb_loop_none (dbname : CString) (l : List BdrWorker) (k : Nat) :
    find_perdb_loop dbname l k = none ↔ ∀ s ∈ l, ¬ isPerdbFor dbname s := by
  induction l generalizing k with
  | nil => simp [find_perdb_loop]
  | cons w ws ih =>
    by_cases hw : isPerdbFor dbname w
    · have h1 : find_perdb_loop dbname (w :: ws) k = some k := by
        simp [find_perdb_loop, hw.1, hw.2]
      rw [h1]
      simp
      exact fun h => absurd hw h
    · have h1 : find_perdb_loop dbname (w :: ws) k = find_perdb_loop dbname ws (k + 1) := by
        unfold isPerdbFor at hw
        by_cases ht : w.worker_type = BdrWorkerType.BDR_WORKER_PERDB
        · have hn : ¬ w.perdb_worker.dbname = dbname := fun h => hw ⟨ht, h⟩
          simp [find_perdb_loop, ht, hn]
        · simp [find_perdb_loop, ht]
      rw [h1, ih]
      simp [hw]

/-- C8: for every registry state and database name, `find_perdb_worker_slot`
leaves the shared segment unchanged; it returns the index `i` exactly when `i` is
the smallest index whose slot is a PERDB slot with that database name, such an
index is below `bdr_max_workers` and the slot pointer is stored through
`worker_found` when that is non-null; it returns -1 exactly when no such slot
exists, and then stores nothing; and it returns nothing else. -/
theorem find_perdb_worker_slot_first_match (dbname : CString) (out : Bool) (w : World) :
    (find_perdb_worker_slot dbname out w).w.BdrWorkerCtl = w.BdrWorkerCtl
    ∧ (∀ i : Nat, (find_perdb_worker_slot dbname out w).found = (i : Int) ↔
        FirstAt (isPerdbFor dbname) w.slots i)
    ∧ (∀ i : Nat, (find_perdb_worker_slot dbname out w).found = (i : Int) →
        i < bdr_max_workers w.BdrWorkerCtl
        ∧ (find_perdb_worker_slot dbname out w).worker_found
            = if out then some i else none)
    ∧ ((find_perdb_worker_slot dbname out w).found = -1 ↔
        ∀ s ∈ w.slots, ¬ isPerdbFor dbname s)
    ∧ ((find_perdb_worker_slot dbname out w).found = -1 →
        (find_perdb_worker_slot dbname out w).worker_found = none)
    ∧ ((find_perdb_worker_slot dbname out w).found = -1
        ∨ ∃ i : Nat, (find_perdb_worker_slot dbname out w).found = (i : Int)) := by
  cases hf : find_perdb_loop dbname w.slots 0 with
  | none =>
    have hnone := (find_perdb_loop_none dbname w.slots 0).1 hf
    have hr : find_perdb_worker_slot dbname out w
        = { found := -1, worker_found := none, w := w.log Event.SlotScan } := by
      simp [find_perdb_worker_slot, hf]
    rw [hr]
    refine ⟨rfl, ?_, ?_, ?_, ?_, Or.inl rfl⟩
    · intro i
      constructor
      · intro h
        simp at h
      · rintro ⟨⟨s, hs, hP⟩, _⟩
        exact absurd hP (hnone s (List.getElem?_mem hs))
    · intro i h
      simp at h
    · simp
      exact hnone
    · simp
  | some k =>
    have hsome := (find_perdb_loop_some dbname w.slots 0 k).1 hf
    obtain ⟨j, hj, hfirst⟩ := hsome
    have hjk : j = k := by omega
    subst hjk
    have hr : find_perdb_worker_slot dbname out w
        = { found := (j : Int), worker_found := if out then some j else none,
            w := w.log Event.SlotScan } := by
      simp [find_perdb_worker_slot, hf]
    rw [hr]
    refine ⟨rfl, ?_, ?_, ?_, ?_, Or.inr ⟨j, rfl⟩⟩
    · intro i
      constructor
      · intro h
        simp at h
        subst h
        exact hfirst
      · intro hi
        have h2 : find_perdb_loop dbname w.slots 0 = some i :=
          (find_perdb_loop_some dbname w.slots 0 i).2 ⟨i, by omega, hi⟩
        rw [hf] at h2
        injection h2 with h2
        simp [h2]
    · intro i h
      simp at h
      subst h
      obtain ⟨⟨s, hs, _⟩, _⟩ := hfirst
      have hlt : j < w.slots.length := by
        by_contra hge
        rw [List.getElem?_eq_none (by omega)] at hs
        exact Option.noConfusion hs
      exact ⟨hlt, rfl⟩
    · constructor
      · intro h
        simp at h
      · intro hall
        obtain ⟨⟨s, hs, hP⟩, _⟩ := hfirst
        exact absurd hP (hall s (List.getElem?_mem hs))
    · intro h
      simp at h

/-- Witness of C8: in the demo registry slot 0 is the first PERDB slot of database
`[100]`, and the lookup returns 0 and stores the pointer to slot 0. -/
theorem find_perdb_worker_slot_first_match_witness :
    FirstAt (isPerdbFor [100]) demo_world.slots 0
    ∧ (find_perdb_worker_slot [100] true demo_world).found = ((0 : Nat) : Int)
    ∧ (0 < bdr_max_workers demo_world.BdrWorkerCtl
        ∧ (find_perdb_worker_slot [100] true demo_world).worker_found
            = if true then some 0 else none) :=
  have hfirst : FirstAt (isPerdbFor [100]) demo_world.slots 0 :=
    ⟨⟨perdb_slot [100] 7, rfl, by decide⟩, by intro j hj; omega⟩
  have hfound := ((find_perdb_worker_slot_first_match [100] true demo_world).2.1 0).2 hfirst
  ⟨hfirst, hfound,
    (find_perdb_worker_slot_first_match [100] true demo_world).2.2.1 0 hfound⟩

/-! ### Commit hook -/

@[simp] theorem setLatchCalls_nil : setLatchCalls [] = [] := rfl

@[simp] theorem setLatchCalls_append (t u : List Event) :
    setLatchCalls (t ++ u) = setLatchCalls t ++ setLatchCalls u := by
  simp [setLatchCalls, List.filterMap_append]

@[simp] theorem log_trace (w : World) (e : Event) : (w.log e).trace = w.trace ++ [e] := rfl

@[simp] theorem log_ctl (w : World) (e : Event) : (w.log e).BdrWorkerCtl = w.BdrWorkerCtl := rfl

@[simp] theorem log_slots (w : World) (e : Event) : (w.log e).slots = w.slots := rfl

/-- With the flag clear the callback does nothing, whatever the event. -/
theorem callback_flag_clear (event : XactEvent) (s : Backend)
    (h : s.xacthook_connection_added = false) : bdr_perdb_xact_callback event s = s := by
  cases event <;> simp [bdr_perdb_xact_callback, h]

/-- Any event other than commit leaves the backend as it is. -/
theorem callback_not_commit (event : XactEvent) (s : Backend)
    (h : event ≠ XactEvent.XACT_EVENT_COMMIT) : bdr_perdb_xact_callback event s = s := by
  cases event <;> simp_all [bdr_perdb_xact_callback]

/-- The commit branch when the lookup finds slot `i`. -/
theorem callback_commit_found (s : Backend) (i : Nat)
    (hflag : s.xacthook_connection_added = true)
    (hf : find_perdb_loop s.database_name s.w.slots 0 = some i) :
    bdr_perdb_xact_callback XactEvent.XACT_EVENT_COMMIT s =
      { s with
        xacthook_connection_added := false,
        w := (if (s.w.slots.getD i default).perdb_worker.proclatch ≠ NULL then
            (((s.w.log (Event.LWLockAcquire LWLockMode.LW_EXCLUSIVE)).log Event.SlotScan).log
              (Event.SlotRead i)).log
              (Event.SetLatch (s.w.slots.getD i default).perdb_worker.proclatch)
          else
            ((s.w.log (Event.LWLockAcquire LWLockMode.LW_EXCLUSIVE)).log Event.SlotScan).log
              (Event.SlotRead i)).log Event.LWLockRelease } := by
  simp [bdr_perdb_xact_callback, hflag, find_perdb_worker_slot, hf]

/-- The commit branch when the lookup finds no slot. -/
theorem callback_commit_missing (s : Backend)
    (hflag : s.xacthook_connection_added = true)
    (hf : find_perdb_loop s.database_name s.w.slots 0 = none) :
    bdr_perdb_xact_callback XactEvent.XACT_EVENT_COMMIT s =
      { s with
        xacthook_connection_added := false,
        w := ((((s.w.log (Event.LWLockAcquire LWLockMode.LW_EXCLUSIVE)).log Event.SlotScan).log
            (Event.SetLatch s.w.BdrWorkerCtl.supervisor_latch))).log Event.LWLockRelease } := by
  simp [bdr_perdb_xact_callback, hflag, find_perdb_worker_slot, hf]

/-- C2: when the callback handles `XACT_EVENT_COMMIT` with the flag set, for every
registry state and session database name the shared segment (hence every slot) is
left unchanged, and the `SetLatch` calls performed are: (i) exactly one, on the
slot's `proclatch`, when the PERDB slot of that database (the lowest-index one,
should several exist) has a non-null `proclatch`; (ii) none when that slot's
`proclatch` is null; (iii) exactly one, on `BdrWorkerCtl->supervisor_latch`, when
no PERDB slot has that database name. -/
theorem xact_callback_commit_signals (s : Backend)
    (hflag : s.xacthook_connection_added = true) :
    (bdr_perdb_xact_callback XactEvent.XACT_EVENT_COMMIT s).w.BdrWorkerCtl
        = s.w.BdrWorkerCtl
    ∧ (∀ i sl, s.w.slots[i]? = some sl →
        FirstAt (isPerdbFor s.database_name) s.w.slots i →
        sl.perdb_worker.proclatch ≠ NULL →
        setLatchCalls (bdr_perdb_xact_callback XactEvent.XACT_EVENT_COMMIT s).w.trace
          = setLatchCalls s.w.trace ++ [sl.perdb_worker.proclatch])
    ∧ (∀ i sl, s.w.slots[i]? = some sl →
        FirstAt (isPerdbFor s.database_name) s.w.slots i →
        sl.perdb_worker.proclatch = NULL →
        setLatchCalls (bdr_perdb_xact_callback XactEvent.XACT_EVENT_COMMIT s).w.trace
          = setLatchCalls s.w.trace)
    ∧ ((∀ sl ∈ s.w.slots, ¬ isPerdbFor s.database_name sl) →
        setLatchCalls (bdr_perdb_xact_callback XactEvent.XACT_EVENT_COMMIT s).w.trace
          = setLatchCalls s.w.trace ++ [s.w.BdrWorkerCtl.supervisor_latch]) := by
  have key : ∀ i sl, s.w.slots[i]? = some sl →
      FirstAt (isPerdbFor s.database_name) s.w.slots i →
      find_perdb_loop s.database_name s.w.slots 0 = some i
        ∧ s.w.slots.getD i default = sl := by
    intro i sl hsl hfirst
    refine ⟨(find_perdb_loop_some _ _ 0 i).2 ⟨i, by omega, hfirst⟩, ?_⟩
    simp [List.getD, hsl]
  refine ⟨?_, ?_, ?_, ?_⟩
  · cases hf : find_perdb_loop s.database_name s.w.slots 0 with
    | none => rw [callback_commit_missing s hflag hf]; rfl
    | some i =>
      rw [callback_commit_found s i hflag hf]
      simp only [log_ctl]
      split <;> rfl
  · intro i sl hsl hfirst hlatch
    obtain ⟨hf, hget⟩ := key i sl hsl hfirst
    rw [callback_commit_found s i hflag hf, hget]
    simp [hlatch, setLatchCalls]
  · intro i sl hsl hfirst hlatch
    obtain ⟨hf, hget⟩ := key i sl hsl hfirst
    rw [callback_commit_found s i hflag hf, hget]
    simp [hlatch, setLatchCalls]
  · intro hnone
    have hf := (find_perdb_loop_none s.database_name s.w.slots 0).2 hnone
    rw [callback_commit_missing s hflag hf]
    simp [setLatchCalls]

/-- Witness of C2: in the demo registry the PERDB slot of the session database has
latch 7, and the commit callback signals exactly that latch. -/
theorem xact_callback_commit_signals_witness :
    demo_backend_flagged.xacthook_connection_added = true
    ∧ setLatchCalls
        (bdr_perdb_xact_callback XactEvent.XACT_EVENT_COMMIT demo_backend_flagged).w.trace
        = [7] :=
  ⟨rfl, (xact_callback_commit_signals demo_backend_flagged rfl).2.1 0 (perdb_slot [100] 7) rfl
    ⟨⟨perdb_slot [100] 7, rfl, by decide⟩, by intro j hj; omega⟩ (by decide)⟩

/-- With the flag clear, delivering an event to any number of callback entries
changes nothing. -/
theorem call_callbacks_flag_clear (event : XactEvent) (n : Nat) (s : Backend)
    (h : s.xacthook_connection_added = false) : call_callbacks event n s = s := by
  induction n with
  | zero => rfl
  | succ n ih => simp [call_callbacks, callback_flag_clear event s h, ih]

/-- An event other than commit changes nothing, however many entries are called. -/
theorem call_callbacks_not_commit (event : XactEvent) (n : Nat) (s : Backend)
    (h : event ≠ XactEvent.XACT_EVENT_COMMIT) : call_callbacks event n s = s := by
  induction n with
  | zero => rfl
  | succ n ih => simp [call_callbacks, callback_not_commit event s h, ih]

/-- One commit callback with the flag set clears the flag and performs at most one
`SetLatch`. -/
theorem callback_commit_once (s : Backend) (hflag : s.xacthook_connection_added = true) :
    (bdr_perdb_xact_callback XactEvent.XACT_EVENT_COMMIT s).xacthook_connection_added = false
    ∧ (setLatchCalls (bdr_perdb_xact_callback XactEvent.XACT_EVENT_COMMIT s).w.trace).length
        ≤ (setLatchCalls s.w.trace).length + 1 := by
  cases hf : find_perdb_loop s.database_name s.w.slots 0 with
  | none =>
    rw [callback_commit_missing s hflag hf]
    simp [setLatchCalls]
  | some i =>
    rw [callback_commit_found s i hflag hf]
    refine ⟨rfl, ?_⟩
    simp only [log_trace]
    split <;> simp [setLatchCalls]

/-- Calls of `bdr_start_perdb_worker` perform no `SetLatch`. -/
theorem start_times_setLatch (k : Nat) (s : Backend) :
    setLatchCalls (start_perdb_worker_times k s).w.trace = setLatchCalls s.w.trace := by
  induction k generalizing s with
  | zero => rfl
  | succ k ih =>
    simp only [start_perdb_worker_times]
    rw [ih]
    unfold bdr_start_perdb_worker
    split <;> simp [setLatchCalls]

/-- Zero calls of `bdr_start_perdb_worker` leave the backend as it is. -/
theorem start_zero_times (s : Backend) : start_perdb_worker_times 0 s = s := rfl

/-- Delivering commit to `n` callback entries performs at most one `SetLatch`. -/
theorem call_callbacks_commit_le (n : Nat) (s : Backend) :
    (setLatchCalls (call_callbacks XactEvent.XACT_EVENT_COMMIT n s).w.trace).length
      ≤ (setLatchCalls s.w.trace).length + 1 := by
  cases n with
  | zero => simp [call_callbacks]
  | succ n =>
    simp only [call_callbacks]
    by_cases hflag : s.xacthook_connection_added = true
    · obtain ⟨h1, h2⟩ := callback_commit_once s hflag
      rw [call_callbacks_flag_clear _ n _ h1]
      exact h2
    · have hclear : s.xacthook_connection_added = false := by simpa using hflag
      rw [callback_flag_clear _ s hclear, call_callbacks_flag_clear _ n s hclear]
      omega

/-- C1: starting from `xacthook_connection_added = false`, for every number `k` of
calls of `bdr_start_perdb_worker` in one transaction and every number of callback
entries already registered, delivering `XACT_EVENT_COMMIT` to the registered
callbacks performs at most one `SetLatch` call in total (none when `k = 0`), and
delivering any other event (abort in particular) performs none. -/
theorem commit_wake_at_most_once (s : Backend) (k : Nat) (event : XactEvent)
    (h0 : s.xacthook_connection_added = false) :
    (event = XactEvent.XACT_EVENT_COMMIT →
      (setLatchCalls (CallXactCallbacks event (start_perdb_worker_times k s)).w.trace).length
        ≤ (setLatchCalls s.w.trace).length + 1)
    ∧ (event = XactEvent.XACT_EVENT_COMMIT → k = 0 →
      setLatchCalls (CallXactCallbacks event (start_perdb_worker_times k s)).w.trace
        = setLatchCalls s.w.trace)
    ∧ (event ≠ XactEvent.XACT_EVENT_COMMIT →
      setLatchCalls (CallXactCallbacks event (start_perdb_worker_times k s)).w.trace
        = setLatchCalls s.w.trace) := by
  refine ⟨?_, ?_, ?_⟩
  · intro he
    subst he
    have h := call_callbacks_commit_le (start_perdb_worker_times k s).registered
      (start_perdb_worker_times k s)
    rw [start_times_setLatch] at h
    exact h
  · intro he hk
    subst he hk
    simp only [CallXactCallbacks, start_zero_times]
    rw [call_callbacks_flag_clear _ _ s h0]
  · intro he
    simp only [CallXactCallbacks]
    rw [call_callbacks_not_commit _ _ _ he, start_times_setLatch]

/-- Witness of C1: three calls in one transaction of a backend that already holds
two callback entries; the commit performs one `SetLatch`, on latch 7. -/
theorem commit_wake_at_most_once_witness :
    demo_backend_idle.xacthook_connection_added = false
    ∧ (setLatchCalls (CallXactCallbacks XactEvent.XACT_EVENT_COMMIT
        (start_perdb_worker_times 3 demo_backend_idle)).w.trace).length ≤ 0 + 1
    ∧ setLatchCalls (CallXactCallbacks XactEvent.XACT_EVENT_COMMIT
        (start_perdb_worker_times 3 demo_backend_idle)).w.trace = [7] :=
  ⟨rfl, (commit_wake_at_most_once demo_backend_idle 3 XactEvent.XACT_EVENT_COMMIT rfl).1 rfl,
    by decide⟩

/-! ### Spawn token -/

/-- For a 16-bit generation and a 16-bit slot index the packed argument is
`generation * 2^16 + slot`. -/
theorem make_worker_arg_eq (g s : Nat) (hg : g < 2 ^ 16) (hs : s < 2 ^ 16) :
    make_worker_arg g s = 2 ^ 16 * g + s := by
  unfold make_worker_arg
  have h1 : g % 2 ^ 32 = g := Nat.mod_eq_of_lt (by omega)
  have h2 : s % 2 ^ 32 = s := Nat.mod_eq_of_lt (by omega)
  have h3 : (g <<< 16) % 2 ^ 32 = 2 ^ 16 * g := by
    rw [Nat.shiftLeft_eq, Nat.mul_comm]
    exact Nat.mod_eq_of_lt (by omega)
  rw [h1, h2, h3]
  exact (Nat.mul_add_lt_is_or hs g).symm

/-- Passing a `uint32` through `int32` and back gives the same value. -/
theorem to_uint32_to_int32 (x : Nat) (hx : x < 2 ^ 32) : to_uint32 (to_int32 x) = x := by
  unfold to_uint32 to_int32
  have h1 : x % 2 ^ 32 = x := Nat.mod_eq_of_lt hx
  rw [h1]
  split <;> omega

/-- The datum round trip of lines 309 and 389 returns the packed argument. -/
theorem main_worker_arg_make (g s : Nat) (hg : g < 2 ^ 16) (hs : s < 2 ^ 16) :
    main_worker_arg (make_main_arg g s) = 2 ^ 16 * g + s := by
  have hx : 2 ^ 16 * g + s < 2 ^ 32 := by omega
  unfold main_worker_arg make_main_arg Int32GetDatum DatumGetInt32
  rw [make_worker_arg_eq g s hg hs, to_uint32_to_int32 _ hx, to_uint32_to_int32 _ hx]

/-- C7: for every generation `g < 2^16` and slot index `s <= 65535`, the token
built at lines 308-309 and carried through `Int32GetDatum` / `DatumGetInt32` is
unpacked by lines 389-392 to exactly `(g, s)`; and two pairs within these bounds
that give the same token are equal. -/
theorem spawn_token_round_trip (g s : Nat) (hg : g < 2 ^ 16) (hs : s ≤ 65535) :
    arg_generation (main_worker_arg (make_main_arg g s)) = g
    ∧ arg_idx (main_worker_arg (make_main_arg g s)) = s
    ∧ ∀ g2 s2 : Nat, g2 < 2 ^ 16 → s2 ≤ 65535 →
        make_main_arg g s = make_main_arg g2 s2 → g = g2 ∧ s = s2 := by
  have hs1 : s < 2 ^ 16 := by omega
  have hdec : ∀ a b : Nat, a < 2 ^ 16 → b < 2 ^ 16 →
      arg_generation (main_worker_arg (make_main_arg a b)) = a
      ∧ arg_idx (main_worker_arg (make_main_arg a b)) = b := by
    intro a b ha hb
    rw [main_worker_arg_make a b ha hb]
    unfold arg_generation arg_idx to_uint16
    constructor
    · rw [Nat.shiftRight_eq_div_pow]
      omega
    · have h : (0x0000FFFF : Nat) = 2 ^ 16 - 1 := by norm_num
      rw [h, Nat.and_pow_two_sub_one_eq_mod]
      omega
  refine ⟨(hdec g s hg hs1).1, (hdec g s hg hs1).2, ?_⟩
  intro g2 s2 hg2 hs2 heq
  have hs3 : s2 < 2 ^ 16 := by omega
  have ha := hdec g s hg hs1
  have hb := hdec g2 s2 hg2 hs3
  rw [heq] at ha
  exact ⟨ha.1.symm.trans hb.1, ha.2.symm.trans hb.2⟩

/-- Witness of C7: generation 3 and slot 2 give the token 196610, which unpacks to
`(3, 2)`; generation 40000 sets the sign bit of the `int32` and still unpacks. -/
theorem spawn_token_round_trip_witness :
    40000 < 2 ^ 16 ∧ 65535 ≤ 65535
    ∧ make_main_arg 3 2 = 196610
    ∧ arg_generation (main_worker_arg (make_main_arg 40000 65535)) = 40000
    ∧ arg_idx (main_worker_arg (make_main_arg 40000 65535)) = 65535 :=
  ⟨by norm_num, by norm_num, by decide,
    (spawn_token_round_trip 40000 65535 (by norm_num) (by norm_num)).1,
    (spawn_token_round_trip 40000 65535 (by norm_num) (by norm_num)).2.1⟩

/-! ### Generation fencing -/

/-- The generation field of a token built from a 16-bit generation `g` differs
from the 16-bit successor of `g`. -/
theorem stale_generation_succ (g s : Nat) (hg : g < 2 ^ 16) (hs : s ≤ 65535) :
    arg_generation (main_worker_arg (make_main_arg g s)) ≠ to_uint16 (g + 1) := by
  have hs1 : s < 2 ^ 16 := by omega
  rw [main_worker_arg_make g s hg hs1]
  unfold arg_generation to_uint16
  rw [Nat.shiftRight_eq_div_pow]
  omega

/-- C6: for every spawn token whose generation field differs from the live
`BdrWorkerCtl->worker_generation`, `bdr_perdb_worker_main` ends with
`proc_exit(0)`, leaves the shared segment (every slot included) unchanged, and
performs nothing but the debug message and the exit: no lock call, no slot
access, no launch pass, no spawn request. In particular this is so for the token
built from generation `g` when the live generation is the `uint16` successor of
`g`. -/
theorem stale_generation_exits (pick : List BdrWorker → Option Nat) (env : MainEnv)
    (w : World) :
    (∀ main_arg : Nat,
      arg_generation (main_worker_arg main_arg) ≠ w.BdrWorkerCtl.worker_generation →
      (bdr_perdb_worker_main pick env main_arg w).exit = Exit.exited 0
      ∧ (bdr_perdb_worker_main pick env main_arg w).w.BdrWorkerCtl = w.BdrWorkerCtl
      ∧ (bdr_perdb_worker_main pick env main_arg w).w.trace
          = w.trace ++ [Event.elog_DEBUG [], Event.proc_exit 0]
      ∧ (bdr_perdb_worker_main pick env main_arg w).bdr_worker_slot = none)
    ∧ (∀ g s : Nat, g < 2 ^ 16 → s ≤ 65535 →
      w.BdrWorkerCtl.worker_generation = to_uint16 (g + 1) →
      (bdr_perdb_worker_main pick env (make_main_arg g s) w).exit = Exit.exited 0
      ∧ (bdr_perdb_worker_main pick env (make_main_arg g s) w).w.BdrWorkerCtl
          = w.BdrWorkerCtl
      ∧ (bdr_perdb_worker_main pick env (make_main_arg g s) w).w.trace
          = w.trace ++ [Event.elog_DEBUG [], Event.proc_exit 0]) := by
  have key : ∀ main_arg : Nat,
      arg_generation (main_worker_arg main_arg) ≠ w.BdrWorkerCtl.worker_generation →
      (bdr_perdb_worker_main pick env main_arg w).exit = Exit.exited 0
      ∧ (bdr_perdb_worker_main pick env main_arg w).w.BdrWorkerCtl = w.BdrWorkerCtl
      ∧ (bdr_perdb_worker_main pick env main_arg w).w.trace
          = w.trace ++ [Event.elog_DEBUG [], Event.proc_exit 0]
      ∧ (bdr_perdb_worker_main pick env main_arg w).bdr_worker_slot = none := by
    intro main_arg hstale
    unfold bdr_perdb_worker_main
    simp [hstale]
  refine ⟨key, ?_⟩
  intro g s hg hs hlive
  have h := key (make_main_arg g s) (by rw [hlive]; exact stale_generation_succ g s hg hs)
  exact ⟨h.1, h.2.1, h.2.2.1⟩

/-- Witness of C6: the token of generation 2 and slot 0 against the demo registry,
whose live generation is 3. -/
theorem stale_generation_exits_witness :
    arg_generation (main_worker_arg (make_main_arg 2 0)) ≠ demo_world.BdrWorkerCtl.worker_generation
    ∧ (bdr_perdb_worker_main first_free demo_main_env (make_main_arg 2 0) demo_world).exit
        = Exit.exited 0
    ∧ (bdr_perdb_worker_main first_free demo_main_env (make_main_arg 2 0) demo_world).w.BdrWorkerCtl
        = demo_ctl :=
  ⟨by decide,
    ((stale_generation_exits first_free demo_main_env demo_world).1 (make_main_arg 2 0)
      (by decide)).1,
    ((stale_generation_exits first_free demo_main_env demo_world).1 (make_main_arg 2 0)
      (by decide)).2.1⟩

/-! ### Apply-worker lookup -/

/-- One step of the APPLY lookup loop on a slot that matches. -/
theorem find_apply_loop_hit (idx : Nat) (name : CString) (w : BdrWorker)
    (ws : List BdrWorker) (k : Nat) (hw : isApplyFor idx name w) :
    find_apply_loop idx name (w :: ws) k = some k := by
  simp [find_apply_loop, hw.1, hw.2.1, hw.2.2]

/-- One step of the APPLY lookup loop on a slot that does not match. -/
theorem find_apply_loop_skip (idx : Nat) (name : CString) (w : BdrWorker)
    (ws : List BdrWorker) (k : Nat) (hw : ¬ isApplyFor idx name w) :
    find_apply_loop idx name (w :: ws) k = find_apply_loop idx name ws (k + 1) := by
  unfold isApplyFor at hw
  by_cases ht : w.worker_type = BdrWorkerType.BDR_WORKER_APPLY
  · have hn : ¬ (w.apply_worker.perdb_worker_idx = idx
        ∧ w.apply_worker.conn_local_name = name) := fun h => hw ⟨ht, h⟩
    simp [find_apply_loop, ht, hn]
  · simp [find_apply_loop, ht]

/-- The APPLY lookup loop started at offset `k` answers `k + j` for the first
position `j` of the list that holds a matching slot. -/
theorem find_apply_loop_some (idx : Nat) (name : CString) (l : List BdrWorker) (k i : Nat) :
    find_apply_loop idx name l k = some i ↔
      ∃ j, i = k + j ∧ FirstAt (isApplyFor idx name) l j := by
  induction l generalizing k with
  | nil => simp [find_apply_loop, FirstAt]
  | cons w ws ih =>
    by_cases hw : isApplyFor idx name w
    · rw [find_apply_loop_hit idx name w ws k hw]
      constructor
      · intro h
        injection h with h
        exact ⟨0, by omega, ⟨w, by simp, hw⟩, by intro j hj; omega⟩
      · rintro ⟨j, hj, _, hmin⟩
        rcases Nat.eq_zero_or_pos j with h0 | hpos
        · subst h0; simp [hj]
        · exact absurd hw (hmin 0 hpos w (by simp))
    · rw [find_apply_loop_skip idx name w ws k hw, ih]
      constructor
      · rintro ⟨j, hj, ⟨s, hs, hP⟩, hmin⟩
        refine ⟨j + 1, by omega, ⟨s, by simpa using hs, hP⟩, ?_⟩
        intro j2 hj2 s2 hs2
        cases j2 with
        | zero =>
          simp at hs2
          subst hs2
          exact hw
        | succ j3 => exact hmin j3 (by omega) s2 (by simpa using hs2)
      · rintro ⟨j, hj, ⟨s, hs, hP⟩, hmin⟩
        cases j with
        | zero =>
          simp at hs
          subst hs
          exact absurd hP hw
        | succ j3 =>
          refine ⟨j3, by omega, ⟨s, by simpa using hs, hP⟩, ?_⟩
          intro j2 hj2 s2 hs2
          exact hmin (j2 + 1) (by omega) s2 (by simpa using hs2)

/-- The APPLY lookup loop finds nothing exactly when no slot matches. -/
theorem find_apply_loop_none (idx : Nat) (name : CString) (l : List BdrWorker) (k : Nat) :
    find_apply_loop idx name l k = none ↔ ∀ s ∈ l, ¬ isApplyFor idx name s := by
  induction l generalizing k with
  | nil => simp [find_apply_loop]
  | cons w ws ih =>
    by_cases hw : isApplyFor idx name w
    · rw [find_apply_loop_hit idx name w ws k hw]
      simp
      exact fun h => absurd hw h
    · rw [find_apply_loop_skip idx name w ws k hw, ih]
      simp [hw]

/-- The APPLY lookup loop finds a slot exactly when some slot matches. -/
theorem find_apply_loop_isSome (idx : Nat) (name : CString) (l : List BdrWorker) (k : Nat) :
    (∃ i, find_apply_loop idx name l k = some i) ↔ ∃ s ∈ l, isApplyFor idx name s := by
  constructor
  · rintro ⟨i, hi⟩
    by_contra hno
    have hnone := (find_apply_loop_none idx name l k).2 (by
      intro s hs hP
      exact hno ⟨s, hs, hP⟩)
    rw [hnone] at hi
    exact Option.noConfusion hi
  · rintro ⟨s, hs, hP⟩
    cases hf : find_apply_loop idx name l k with
    | none => exact absurd hP ((find_apply_loop_none idx name l k).1 hf s hs)
    | some i => exact ⟨i, rfl⟩

/-! ### The launch loop -/

@[simp] theorem writeSlot_trace (w : World) (i : Nat) (f : BdrWorker → BdrWorker) :
    (w.writeSlot i f).trace = w.trace ++ [Event.SlotWrite i] := rfl

@[simp] theorem writeSlot_slots (w : World) (i : Nat) (f : BdrWorker → BdrWorker) :
    (w.writeSlot i f).slots = w.slots.modify f i := rfl

@[simp] theorem writeSlot_generation (w : World) (i : Nat) (f : BdrWorker → BdrWorker) :
    (w.writeSlot i f).BdrWorkerCtl.worker_generation = w.BdrWorkerCtl.worker_generation := rfl

/-- The loop step for a row whose lookup finds a slot: the row is skipped. -/
theorem launch_loop_skip (pick : List BdrWorker → Option Nat) (idx : Nat) (dbname : CString)
    (register : Nat → BackgroundWorker → Option Nat) (i : Nat) (r : CString)
    (rest : List CString) (w : World) (hs : List Nat) (j : Nat)
    (hf : find_apply_loop idx r w.slots 0 = some j) :
    launch_loop pick idx dbname register i (r :: rest) w hs =
      launch_loop pick idx dbname register (i + 1) rest (world_after_skip dbname r w) hs := by
  have h1 : (j : Int) ≠ -1 := by omega
  simp [launch_loop, find_apply_worker_slot, hf, h1, world_after_skip]

/-- The loop step for a row without slot when the allocator fails. -/
theorem launch_loop_full (pick : List BdrWorker → Option Nat) (idx : Nat) (dbname : CString)
    (register : Nat → BackgroundWorker → Option Nat) (i : Nat) (r : CString)
    (rest : List CString) (w : World) (hs : List Nat)
    (hf : find_apply_loop idx r w.slots 0 = none) (hp : pick w.slots = none) :
    launch_loop pick idx dbname register i (r :: rest) w hs =
      ((((w.log (Event.LWLockAcquire LWLockMode.LW_EXCLUSIVE)).log Event.SlotScan).log
          (Event.ereport_ERROR "No space in shmem for new worker")),
        Outcome.error "No space in shmem for new worker") := by
  simp [launch_loop, find_apply_worker_slot, hf, bdr_worker_shmem_alloc, hp]

/-- The loop step for a row without slot when the allocator hands out `slot`: the
slot is populated, the lock released and the spawn request issued; the loop goes
on when the request succeeds and ends with an error when it fails. -/
theorem launch_loop_alloc (pick : List BdrWorker → Option Nat) (idx : Nat) (dbname : CString)
    (register : Nat → BackgroundWorker → Option Nat) (i : Nat) (r : CString)
    (rest : List CString) (w : World) (hs : List Nat) (slot : Nat)
    (hf : find_apply_loop idx r w.slots 0 = none) (hp : pick w.slots = some slot) :
    launch_loop pick idx dbname register i (r :: rest) w hs =
      match register i (make_bgw w.BdrWorkerCtl.worker_generation slot r) with
      | none =>
        (((world_after_alloc idx r slot w).log
            (Event.RegisterDynamicBackgroundWorker
              (make_bgw w.BdrWorkerCtl.worker_generation slot r) false)).log
            (Event.ereport_ERROR "bdr: Failed to register background worker"),
          Outcome.error "bdr: Failed to register background worker")
      | some h =>
        launch_loop pick idx dbname register (i + 1) rest
          ((world_after_alloc idx r slot w).log
            (Event.RegisterDynamicBackgroundWorker
              (make_bgw w.BdrWorkerCtl.worker_generation slot r) true))
          (h :: hs) := by
  simp only [launch_loop, find_apply_worker_slot, log_slots, hf, bdr_worker_shmem_alloc, hp,
    world_after_alloc]
  rfl

/-- Running the loop over `a ++ b` is running it over `a` and, when that ends
normally, over `b` from the row index and world reached. -/
theorem launch_loop_append (pick : List BdrWorker → Option Nat) (idx : Nat) (dbname : CString)
    (register : Nat → BackgroundWorker → Option Nat) (a b : List CString) (i : Nat)
    (w : World) (hs : List Nat) :
    launch_loop pick idx dbname register i (a ++ b) w hs =
      match launch_loop pick idx dbname register i a w hs with
      | (w1, Outcome.ok hs1) => launch_loop pick idx dbname register (i + a.length) b w1 hs1
      | (w1, Outcome.error msg) => (w1, Outcome.error msg) := by
  induction a generalizing i w hs with
  | nil => simp [launch_loop]
  | cons r rest ih =>
    cases hf : find_apply_loop idx r w.slots 0 with
    | some j =>
      rw [List.cons_append, launch_loop_skip pick idx dbname register i r _ w hs j hf,
        launch_loop_skip pick idx dbname register i r _ w hs j hf, ih]
      simp only [List.length_cons]
      rw [show i + 1 + rest.length = i + (rest.length + 1) by omega]
    | none =>
      cases hp : pick w.slots with
      | none =>
        rw [List.cons_append, launch_loop_full pick idx dbname register i r _ w hs hf hp,
          launch_loop_full pick idx dbname register i r _ w hs hf hp]
      | some slot =>
        rw [List.cons_append, launch_loop_alloc pick idx dbname register i r _ w hs slot hf hp,
          launch_loop_alloc pick idx dbname register i r _ w hs slot hf hp]
        cases hreg : register i (make_bgw w.BdrWorkerCtl.worker_generation slot r) with
        | none => rfl
        | some h =>
          simp only []
          rw [ih]
          simp only [List.length_cons]
          rw [show i + 1 + rest.length = i + (rest.length + 1) by omega]

/-- The loop never changes the generation counter nor the supervisor latch. -/
theorem launch_loop_generation (pick : List BdrWorker → Option Nat) (idx : Nat)
    (dbname : CString) (register : Nat → BackgroundWorker → Option Nat) (rows : List CString)
    (i : Nat) (w : World) (hs : List Nat) :
    (launch_loop pick idx dbname register i rows w hs).1.BdrWorkerCtl.worker_generation
        = w.BdrWorkerCtl.worker_generation
    ∧ (launch_loop pick idx dbname register i rows w hs).1.BdrWorkerCtl.supervisor_latch
        = w.BdrWorkerCtl.supervisor_latch := by
  induction rows generalizing i w hs with
  | nil => simp [launch_loop]
  | cons r rest ih =>
    cases hf : find_apply_loop idx r w.slots 0 with
    | some j =>
      rw [launch_loop_skip pick idx dbname register i r _ w hs j hf]
      exact ih _ _ _
    | none =>
      cases hp : pick w.slots with
      | none =>
        rw [launch_loop_full pick idx dbname register i r _ w hs hf hp]
        exact ⟨rfl, rfl⟩
      | some slot =>
        rw [launch_loop_alloc pick idx dbname register i r _ w hs slot hf hp]
        cases hreg : register i (make_bgw w.BdrWorkerCtl.worker_generation slot r) with
        | none => exact ⟨rfl, rfl⟩
        | some h => exact ih _ _ _

/-- The slot array after the two writes of an allocation step. -/
theorem alloc_slots_getElem (gen idx : Nat) (r : CString) (slot : Nat)
    (slots : List BdrWorker) (s0 : BdrWorker) (h0 : slots[slot]? = some s0) (j : Nat) :
    ((slots.modify (fun s => { s with worker_type := BdrWorkerType.BDR_WORKER_APPLY,
                                      generation := gen }) slot).modify
        (populate_apply idx r) slot)[j]?
      = if j = slot then some (fresh_apply_slot gen idx r s0) else slots[j]? := by
  by_cases hj : j = slot
  · subst hj
    simp [List.getElem?_modify, h0, fresh_apply_slot]
  · have hj2 : ¬ slot = j := fun h => hj h.symm
    simp [List.getElem?_modify, hj, hj2]

@[simp] theorem world_after_skip_ctl (dbname r : CString) (w : World) :
    (world_after_skip dbname r w).BdrWorkerCtl = w.BdrWorkerCtl := rfl

@[simp] theorem world_after_skip_slots (dbname r : CString) (w : World) :
    (world_after_skip dbname r w).slots = w.slots := rfl

@[simp] theorem world_after_skip_trace (dbname r : CString) (w : World) :
    (world_after_skip dbname r w).trace
      = w.trace ++ [Event.LWLockAcquire LWLockMode.LW_EXCLUSIVE, Event.SlotScan,
          Event.elog_DEBUG [r, dbname], Event.LWLockRelease] := by
  simp [world_after_skip]

@[simp] theorem world_after_alloc_generation (idx : Nat) (r : CString) (slot : Nat)
    (w : World) :
    (world_after_alloc idx r slot w).BdrWorkerCtl.worker_generation
      = w.BdrWorkerCtl.worker_generation := rfl

@[simp] theorem world_after_alloc_trace (idx : Nat) (r : CString) (slot : Nat) (w : World) :
    (world_after_alloc idx r slot w).trace
      = w.trace ++ [Event.LWLockAcquire LWLockMode.LW_EXCLUSIVE, Event.SlotScan,
          Event.SlotScan, Event.SlotWrite slot, Event.SlotWrite slot, Event.LWLockRelease] := by
  simp [world_after_alloc]

/-- The slots after an allocation step: the allocated entry holds the fresh APPLY
slot, every other entry is as before. -/
theorem world_after_alloc_getElem (idx : Nat) (r : CString) (slot : Nat) (w : World)
    (s0 : BdrWorker) (h0 : w.slots[slot]? = some s0) (j : Nat) :
    (world_after_alloc idx r slot w).slots[j]?
      = if j = slot then some (fresh_apply_slot w.BdrWorkerCtl.worker_generation idx r s0)
        else w.slots[j]? := by
  have h := alloc_slots_getElem w.BdrWorkerCtl.worker_generation idx r slot w.slots s0 h0 j
  exact h

/-- A fresh APPLY slot is an APPLY slot of the allocating worker, named by the row
cut to `NAMEDATALEN - 1` bytes. -/
theorem fresh_apply_slot_isApplyFor (gen idx : Nat) (r : CString) (s0 : BdrWorker) :
    isApplyFor idx (r.take (NAMEDATALEN - 1)) (fresh_apply_slot gen idx r s0) :=
  ⟨rfl, rfl, rfl⟩

/-- Every slot after the loop, however the loop ends, is either the slot that was
there before or a previously free entry allocated and populated for one of the
rows. -/
theorem launch_loop_slots (pick : List BdrWorker → Option Nat) (hpick : PicksFree pick)
    (idx : Nat) (dbname : CString) (register : Nat → BackgroundWorker → Option Nat)
    (rows : List CString) (i : Nat) (w : World) (hs : List Nat) (j : Nat) :
    (launch_loop pick idx dbname register i rows w hs).1.slots[j]? = w.slots[j]?
    ∨ ∃ s0 r, r ∈ rows ∧ w.slots[j]? = some s0
        ∧ s0.worker_type = BdrWorkerType.BDR_WORKER_EMPTY_SLOT
        ∧ (launch_loop pick idx dbname register i rows w hs).1.slots[j]?
            = some (fresh_apply_slot w.BdrWorkerCtl.worker_generation idx r s0) := by
  induction rows generalizing i w hs with
  | nil => left; simp [launch_loop]
  | cons r rest ih =>
    cases hf : find_apply_loop idx r w.slots 0 with
    | some k =>
      rw [launch_loop_skip pick idx dbname register i r _ w hs k hf]
      rcases ih (i + 1) (world_after_skip dbname r w) hs with h | ⟨s0, r2, hr2, h1, h2, h3⟩
      · left; simpa using h
      · right
        exact ⟨s0, r2, List.mem_cons_of_mem _ hr2, by simpa using h1, h2, by simpa using h3⟩
    | none =>
      cases hp : pick w.slots with
      | none =>
        rw [launch_loop_full pick idx dbname register i r _ w hs hf hp]
        left; rfl
      | some slot =>
        obtain ⟨s0, hs0, hempty⟩ := hpick w.slots slot hp
        have hget := world_after_alloc_getElem idx r slot w s0 hs0 j
        rw [launch_loop_alloc pick idx dbname register i r _ w hs slot hf hp]
        cases hreg : register i (make_bgw w.BdrWorkerCtl.worker_generation slot r) with
        | none =>
          simp only [log_slots]
          by_cases hj : j = slot
          · right
            refine ⟨s0, r, List.mem_cons_self _ _, by rw [hj]; exact hs0, hempty, ?_⟩
            rw [hget, if_pos hj]
          · left
            rw [hget, if_neg hj]
        | some h =>
          simp only []
          rcases ih (i + 1) ((world_after_alloc idx r slot w).log
              (Event.RegisterDynamicBackgroundWorker
                (make_bgw w.BdrWorkerCtl.worker_generation slot r) true)) (h :: hs)
            with h1 | ⟨s1, r2, hr2, h1, h2, h3⟩
          · simp only [log_slots] at h1
            by_cases hj : j = slot
            · right
              refine ⟨s0, r, List.mem_cons_self _ _, by rw [hj]; exact hs0, hempty, ?_⟩
              rw [h1, hget, if_pos hj]
            · left
              rw [h1, hget, if_neg hj]
          · simp only [log_slots, log_ctl, world_after_alloc_generation] at h1 h3
            by_cases hj : j = slot
            · rw [hget, if_pos hj] at h1
              injection h1 with h1
              rw [← h1] at h2
              exact absurd h2 (by simp [fresh_apply_slot, populate_apply])
            · right
              rw [hget, if_neg hj] at h1
              exact ⟨s1, r2, List.mem_cons_of_mem _ hr2, h1, h2, h3⟩

/-- Frame of the loop: a slot that is not free before the loop is unchanged after
it, however the loop ends. -/
theorem launch_loop_frame (pick : List BdrWorker → Option Nat) (hpick : PicksFree pick)
    (idx : Nat) (dbname : CString) (register : Nat → BackgroundWorker → Option Nat)
    (rows : List CString) (i : Nat) (w : World) (hs : List Nat) (j : Nat) (s : BdrWorker)
    (hj : w.slots[j]? = some s)
    (hused : s.worker_type ≠ BdrWorkerType.BDR_WORKER_EMPTY_SLOT) :
    (launch_loop pick idx dbname register i rows w hs).1.slots[j]? = some s := by
  rcases launch_loop_slots pick hpick idx dbname register rows i w hs j
    with h | ⟨s0, r, _, h1, h2, _⟩
  · rw [h, hj]
  · rw [hj] at h1
    injection h1 with h1
    rw [← h1] at h2
    exact absurd h2 hused

/-! ### Traces of a launch pass -/

@[simp] theorem spawnRequests_append (t u : List Event) :
    spawnRequests (t ++ u) = spawnRequests t ++ spawnRequests u := by
  simp [spawnRequests, List.filterMap_append]

@[simp] theorem locksSetNnodesCalls_append (t u : List Event) :
    locksSetNnodesCalls (t ++ u) = locksSetNnodesCalls t ++ locksSetNnodesCalls u := by
  simp [locksSetNnodesCalls, List.filterMap_append]

@[simp] theorem sequencerSetNnodesCalls_append (t u : List Event) :
    sequencerSetNnodesCalls (t ++ u)
      = sequencerSetNnodesCalls t ++ sequencerSetNnodesCalls u := by
  simp [sequencerSetNnodesCalls, List.filterMap_append]

/-- The trace of the loop extends the trace it starts with by loop-body actions
only. -/
theorem launch_loop_trace (pick : List BdrWorker → Option Nat) (idx : Nat) (dbname : CString)
    (register : Nat → BackgroundWorker → Option Nat) (rows : List CString) (i : Nat)
    (w : World) (hs : List Nat) :
    ∃ t, (launch_loop pick idx dbname register i rows w hs).1.trace = w.trace ++ t
      ∧ ∀ e ∈ t, isLoopBodyEvent e = true := by
  induction rows generalizing i w hs with
  | nil => exact ⟨[], by simp [launch_loop], by simp⟩
  | cons r rest ih =>
    cases hf : find_apply_loop idx r w.slots 0 with
    | some k =>
      rw [launch_loop_skip pick idx dbname register i r _ w hs k hf]
      obtain ⟨t, ht, hall⟩ := ih (i + 1) (world_after_skip dbname r w) hs
      refine ⟨[Event.LWLockAcquire LWLockMode.LW_EXCLUSIVE, Event.SlotScan,
          Event.elog_DEBUG [r, dbname], Event.LWLockRelease] ++ t,
        by rw [ht, world_after_skip_trace, List.append_assoc], ?_⟩
      intro e he
      rcases List.mem_append.1 he with h | h
      · simp only [List.mem_cons, List.mem_singleton, List.not_mem_nil, or_false] at h
        rcases h with h | h | h | h <;> subst h <;> rfl
      · exact hall e h
    | none =>
      cases hp : pick w.slots with
      | none =>
        rw [launch_loop_full pick idx dbname register i r _ w hs hf hp]
        refine ⟨[Event.LWLockAcquire LWLockMode.LW_EXCLUSIVE, Event.SlotScan,
          Event.ereport_ERROR "No space in shmem for new worker"], by simp, ?_⟩
        intro e he
        simp only [List.mem_cons, List.mem_singleton, List.not_mem_nil, or_false] at he
        rcases he with h | h | h <;> subst h <;> rfl
      | some slot =>
        rw [launch_loop_alloc pick idx dbname register i r _ w hs slot hf hp]
        cases hreg : register i (make_bgw w.BdrWorkerCtl.worker_generation slot r) with
        | none =>
          refine ⟨[Event.LWLockAcquire LWLockMode.LW_EXCLUSIVE, Event.SlotScan,
              Event.SlotScan, Event.SlotWrite slot, Event.SlotWrite slot, Event.LWLockRelease,
              Event.RegisterDynamicBackgroundWorker
                (make_bgw w.BdrWorkerCtl.worker_generation slot r) false,
              Event.ereport_ERROR "bdr: Failed to register background worker"],
            by simp only [log_trace, world_after_alloc_trace, List.append_assoc]; rfl, ?_⟩
          intro e he
          simp only [List.mem_cons, List.mem_singleton, List.not_mem_nil, or_false] at he
          rcases he with h | h | h | h | h | h | h | h <;> subst h <;> rfl
        | some h =>
          simp only []
          obtain ⟨t, ht, hall⟩ := ih (i + 1) ((world_after_alloc idx r slot w).log
              (Event.RegisterDynamicBackgroundWorker
                (make_bgw w.BdrWorkerCtl.worker_generation slot r) true)) (h :: hs)
          refine ⟨[Event.LWLockAcquire LWLockMode.LW_EXCLUSIVE, Event.SlotScan,
              Event.SlotScan, Event.SlotWrite slot, Event.SlotWrite slot, Event.LWLockRelease,
              Event.RegisterDynamicBackgroundWorker
                (make_bgw w.BdrWorkerCtl.worker_generation slot r) true] ++ t, by
            rw [ht, log_trace, world_after_alloc_trace, List.append_assoc,
              List.append_assoc]; rfl, ?_⟩
          intro e he
          rcases List.mem_append.1 he with h1 | h1
          · simp only [List.mem_cons, List.mem_singleton, List.not_mem_nil, or_false] at h1
            rcases h1 with h1 | h1 | h1 | h1 | h1 | h1 | h1 <;> subst h1 <;> rfl
          · exact hall e h1

/-- Loop-body actions hold no `bdr_locks_set_nnodes` nor `bdr_sequencer_set_nnodes`
call. -/
theorem loop_events_no_nnodes (t : List Event) (h : ∀ e ∈ t, isLoopBodyEvent e = true) :
    locksSetNnodesCalls t = [] ∧ sequencerSetNnodesCalls t = [] := by
  induction t with
  | nil => exact ⟨rfl, rfl⟩
  | cons e t ih =>
    have he := h e (List.mem_cons_self _ _)
    have ht := ih (fun x hx => h x (List.mem_cons_of_mem _ hx))
    unfold locksSetNnodesCalls sequencerSetNnodesCalls at ht ⊢
    cases e <;> first
      | (constructor
         · rw [List.filterMap_cons]; exact ht.1
         · rw [List.filterMap_cons]; exact ht.2)
      | (simp [isLoopBodyEvent] at he)

/-- The loop keeps the number of slots. -/
theorem launch_loop_length (pick : List BdrWorker → Option Nat) (idx : Nat) (dbname : CString)
    (register : Nat → BackgroundWorker → Option Nat) (rows : List CString) (i : Nat)
    (w : World) (hs : List Nat) :
    (launch_loop pick idx dbname register i rows w hs).1.slots.length = w.slots.length := by
  induction rows generalizing i w hs with
  | nil => simp [launch_loop]
  | cons r rest ih =>
    cases hf : find_apply_loop idx r w.slots 0 with
    | some k =>
      rw [launch_loop_skip pick idx dbname register i r _ w hs k hf, ih]
      rfl
    | none =>
      cases hp : pick w.slots with
      | none =>
        rw [launch_loop_full pick idx dbname register i r _ w hs hf hp]
        rfl
      | some slot =>
        rw [launch_loop_alloc pick idx dbname register i r _ w hs slot hf hp]
        cases hreg : register i (make_bgw w.BdrWorkerCtl.worker_generation slot r) with
        | none => simp [world_after_alloc]
        | some h =>
          simp only []
          rw [ih]
          simp [world_after_alloc]

/-- A pass that ends normally ran its loop to the end and then the epilogue. -/
theorem launch_ok_inv (pick : List BdrWorker → Option Nat) (idx bws : Nat) (dbname : CString)
    (env : LaunchEnv) (w w2 : World) (hs : List Nat)
    (hrun : bdr_launch_apply_workers pick idx bws dbname env w = (w2, Outcome.ok hs)) :
    ∃ w1, launch_loop pick idx dbname env.register 0 env.rows (launch_prologue w) []
        = (w1, Outcome.ok hs)
      ∧ w2 = launch_epilogue bws env.rows.length w1 := by
  unfold bdr_launch_apply_workers at hrun
  simp only [] at hrun
  split at hrun
  · simp at hrun
  · split at hrun
    · simp at hrun
    · split at hrun
      · simp at hrun
      · rename_i w1 hs1 heq
        simp only [Prod.mk.injEq, Outcome.ok.injEq] at hrun
        exact ⟨w1, by rw [heq, hrun.2], hrun.1.symm⟩

@[simp] theorem launch_prologue_slots (w : World) : (launch_prologue w).slots = w.slots := rfl

@[simp] theorem launch_prologue_ctl (w : World) :
    (launch_prologue w).BdrWorkerCtl = w.BdrWorkerCtl := rfl

@[simp] theorem launch_prologue_trace (w : World) :
    (launch_prologue w).trace
      = w.trace ++ [Event.call "StartTransactionCommand", Event.call "SPI_connect",
          Event.call "SPI_execute_with_args"] := by
  simp [launch_prologue]

@[simp] theorem launch_epilogue_trace (bws n : Nat) (w : World) :
    (launch_epilogue bws n w).trace
      = w.trace ++ [Event.call "SPI_finish", Event.call "CommitTransactionCommand",
          Event.SlotWrite bws, Event.bdr_locks_set_nnodes n,
          Event.bdr_sequencer_set_nnodes n] := by
  simp [launch_epilogue]

@[simp] theorem launch_epilogue_slots (bws n : Nat) (w : World) :
    (launch_epilogue bws n w).slots
      = w.slots.modify (fun s =>
          { s with perdb_worker := { s.perdb_worker with nnodes := n } }) bws := rfl

/-- C5: for every pass of `bdr_launch_apply_workers` that ends normally on a
directory result of `N` rows (skipped rows included), run by a worker whose
`bdr_worker_slot` points to a PERDB slot, that slot holds `nnodes = N` after the
pass (and, the allocator handing out free entries only, is otherwise as before),
and the pass calls `bdr_locks_set_nnodes` exactly once and
`bdr_sequencer_set_nnodes` exactly once, both with `N`. -/
theorem launch_sets_nnodes (pick : List BdrWorker → Option Nat) (idx bws : Nat)
    (dbname : CString) (env : LaunchEnv) (w w2 : World) (hs : List Nat) (s : BdrWorker)
    (hown : w.slots[bws]? = some s ∧ s.worker_type = BdrWorkerType.BDR_WORKER_PERDB)
    (hrun : bdr_launch_apply_workers pick idx bws dbname env w = (w2, Outcome.ok hs)) :
    (∃ s2, w2.slots[bws]? = some s2 ∧ s2.perdb_worker.nnodes = env.rows.length)
    ∧ (PicksFree pick → w2.slots[bws]?
        = some { s with perdb_worker := { s.perdb_worker with nnodes := env.rows.length } })
    ∧ locksSetNnodesCalls w2.trace = locksSetNnodesCalls w.trace ++ [env.rows.length]
    ∧ sequencerSetNnodesCalls w2.trace
        = sequencerSetNnodesCalls w.trace ++ [env.rows.length] := by
  obtain ⟨w1, hloop, hw2⟩ := launch_ok_inv pick idx bws dbname env w w2 hs hrun
  have hw1 : w1 = (launch_loop pick idx dbname env.register 0 env.rows
      (launch_prologue w) []).1 := by rw [hloop]
  obtain ⟨t, ht, hall⟩ := launch_loop_trace pick idx dbname env.register env.rows 0
    (launch_prologue w) []
  rw [← hw1] at ht
  obtain ⟨hlocks, hseq⟩ := loop_events_no_nnodes t hall
  have hlen : w1.slots.length = w.slots.length := by
    rw [hw1, launch_loop_length]; rfl
  have hlt : bws < w.slots.length := by
    by_contra hge
    rw [List.getElem?_eq_none (by omega)] at hown
    exact Option.noConfusion hown.1
  subst hw2
  refine ⟨?_, ?_, ?_, ?_⟩
  · have hlt1 : bws < w1.slots.length := by omega
    refine ⟨{ w1.slots[bws] with
        perdb_worker := { (w1.slots[bws]).perdb_worker with nnodes := env.rows.length } },
      ?_, rfl⟩
    simp [List.getElem?_modify, List.getElem?_eq_getElem hlt1]
  · intro hpick
    have hframe := launch_loop_frame pick hpick idx dbname env.register env.rows 0
      (launch_prologue w) [] bws s hown.1 (by rw [hown.2]; decide)
    rw [← hw1] at hframe
    simp [List.getElem?_modify, hframe]
  · rw [launch_epilogue_trace, ht, launch_prologue_trace]
    simp only [locksSetNnodesCalls_append, hlocks]
    simp [locksSetNnodesCalls]
  · rw [launch_epilogue_trace, ht, launch_prologue_trace]
    simp only [sequencerSetNnodesCalls_append, hseq]
    simp [sequencerSetNnodesCalls]

/-- Witness of C5: the first pass over the two-row directory in the demo registry
stores `nnodes = 2` in slot 0 and calls both subsystems once with 2. -/
theorem launch_sets_nnodes_witness :
    (demo_world.slots[0]? = some (perdb_slot [100] 7)
      ∧ (perdb_slot [100] 7).worker_type = BdrWorkerType.BDR_WORKER_PERDB)
    ∧ bdr_launch_apply_workers first_free 0 0 [100] (demo_launch_env [[65], [66]]) demo_world
        = (demo_pass1.1, Outcome.ok [1, 0])
    ∧ (∃ s2, demo_pass1.1.slots[0]? = some s2 ∧ s2.perdb_worker.nnodes = 2)
    ∧ locksSetNnodesCalls demo_pass1.1.trace = [2]
    ∧ sequencerSetNnodesCalls demo_pass1.1.trace = [2] :=
  have h := launch_sets_nnodes first_free 0 0 [100] (demo_launch_env [[65], [66]]) demo_world
    demo_pass1.1 [1, 0] (perdb_slot [100] 7) ⟨rfl, rfl⟩ rfl
  ⟨⟨rfl, rfl⟩, rfl, h.1, h.2.2.1, h.2.2.2⟩

/-! ### Registered rows and the frame of a pass -/

/-- A loop over `a ++ b` that ends normally ended normally over `a` and then over
`b`. -/
theorem launch_loop_append_ok (pick : List BdrWorker → Option Nat) (idx : Nat)
    (dbname : CString) (register : Nat → BackgroundWorker → Option Nat) (a b : List CString)
    (i : Nat) (w w2 : World) (hs hs2 : List Nat)
    (hrun : launch_loop pick idx dbname register i (a ++ b) w hs = (w2, Outcome.ok hs2)) :
    ∃ w1 hs1, launch_loop pick idx dbname register i a w hs = (w1, Outcome.ok hs1)
      ∧ launch_loop pick idx dbname register (i + a.length) b w1 hs1
          = (w2, Outcome.ok hs2) := by
  rw [launch_loop_append] at hrun
  cases hpre : launch_loop pick idx dbname register i a w hs with
  | mk w1 o =>
    cases o with
    | ok hs1 =>
      rw [hpre] at hrun
      exact ⟨w1, hs1, rfl, hrun⟩
    | error msg =>
      rw [hpre] at hrun
      simp at hrun

/-- After a loop that ended normally every row has an APPLY slot of the worker
under its name or under its name cut to `NAMEDATALEN - 1` bytes. -/
theorem launch_loop_registered (pick : List BdrWorker → Option Nat) (hpick : PicksFree pick)
    (idx : Nat) (dbname : CString) (register : Nat → BackgroundWorker → Option Nat)
    (rows : List CString) (i : Nat) (w w2 : World) (hs hs2 : List Nat)
    (hrun : launch_loop pick idx dbname register i rows w hs = (w2, Outcome.ok hs2)) :
    ∀ r ∈ rows, ∃ s ∈ w2.slots,
      isApplyFor idx r s ∨ isApplyFor idx (r.take (NAMEDATALEN - 1)) s := by
  induction rows generalizing i w hs with
  | nil => intro r hr; simp at hr
  | cons r rest ih =>
    have hused : ∀ n (s : BdrWorker), isApplyFor idx n s →
        s.worker_type ≠ BdrWorkerType.BDR_WORKER_EMPTY_SLOT := by
      intro n s hs1 he
      rw [hs1.1] at he
      exact BdrWorkerType.noConfusion he
    cases hf : find_apply_loop idx r w.slots 0 with
    | some k =>
      rw [launch_loop_skip pick idx dbname register i r _ w hs k hf] at hrun
      intro r2 hr2
      rcases List.mem_cons.1 hr2 with h | h
      · subst h
        obtain ⟨j, _, ⟨s, hsj, hP⟩, _⟩ := (find_apply_loop_some idx r2 w.slots 0 k).1 hf
        have hfr := launch_loop_frame pick hpick idx dbname register rest (i + 1)
          (world_after_skip dbname r2 w) hs j s hsj (hused _ s hP)
        rw [hrun] at hfr
        exact ⟨s, List.getElem?_mem hfr, Or.inl hP⟩
      · exact ih (i + 1) _ hs hrun r2 h
    | none =>
      cases hp : pick w.slots with
      | none =>
        rw [launch_loop_full pick idx dbname register i r _ w hs hf hp] at hrun
        simp at hrun
      | some slot =>
        obtain ⟨s0, hs0, _⟩ := hpick w.slots slot hp
        rw [launch_loop_alloc pick idx dbname register i r _ w hs slot hf hp] at hrun
        cases hreg : register i (make_bgw w.BdrWorkerCtl.worker_generation slot r) with
        | none =>
          rw [hreg] at hrun
          simp at hrun
        | some h =>
          rw [hreg] at hrun
          simp only [] at hrun
          intro r2 hr2
          rcases List.mem_cons.1 hr2 with h2 | h2
          · subst h2
            have hget := world_after_alloc_getElem idx r2 slot w s0 hs0 slot
            rw [if_pos rfl] at hget
            have hfr := launch_loop_frame pick hpick idx dbname register rest (i + 1)
              ((world_after_alloc idx r2 slot w).log
                (Event.RegisterDynamicBackgroundWorker
                  (make_bgw w.BdrWorkerCtl.worker_generation slot r2) true)) (h :: hs) slot
              _ hget (hused _ _ (fresh_apply_slot_isApplyFor _ idx r2 s0))
            rw [hrun] at hfr
            exact ⟨_, List.getElem?_mem hfr, Or.inr (fresh_apply_slot_isApplyFor _ idx r2 s0)⟩
          · exact ih (i + 1) _ (h :: hs) hrun r2 h2

/-- The loop creates no slot under a name that is not the cut of one of its rows:
if no slot matches `name` before and no row is cut to `name`, no slot matches
`name` after, however the loop ends. -/
theorem launch_loop_no_new_match (pick : List BdrWorker → Option Nat) (hpick : PicksFree pick)
    (idx : Nat) (dbname : CString) (register : Nat → BackgroundWorker → Option Nat)
    (rows : List CString) (i : Nat) (w : World) (hs : List Nat) (name : CString)
    (hrows : ∀ r ∈ rows, r.take (NAMEDATALEN - 1) ≠ name)
    (hno : ∀ s ∈ w.slots, ¬ isApplyFor idx name s) :
    ∀ s ∈ (launch_loop pick idx dbname register i rows w hs).1.slots,
      ¬ isApplyFor idx name s := by
  intro s hs1 hP
  obtain ⟨j, hj⟩ := List.mem_iff_getElem?.1 hs1
  rcases launch_loop_slots pick hpick idx dbname register rows i w hs j
    with h | ⟨s0, r, hr, _, _, h3⟩
  · rw [hj] at h
    exact hno s (List.getElem?_mem h.symm) hP
  · rw [hj] at h3
    injection h3 with h3
    rw [h3] at hP
    exact hrows r hr hP.2.2

/-- Reading entry `j` after a write through a pointer to entry `i`. -/
theorem modify_getElem_some (f : BdrWorker → BdrWorker) (l : List BdrWorker) (i j : Nat)
    (s0 : BdrWorker) (h : l[j]? = some s0) :
    (l.modify f i)[j]? = some (if i = j then f s0 else s0) := by
  rw [List.getElem?_modify, h]
  rfl

/-- The node-count write of the epilogue does not change which names have an
APPLY slot. -/
theorem launch_epilogue_match (bws n idx : Nat) (name : CString) (w : World) :
    (∃ s ∈ (launch_epilogue bws n w).slots, isApplyFor idx name s)
      ↔ ∃ s ∈ w.slots, isApplyFor idx name s := by
  rw [launch_epilogue_slots]
  constructor
  · rintro ⟨s, hs, hP⟩
    obtain ⟨j, hj⟩ := List.mem_iff_getElem?.1 hs
    cases hw : w.slots[j]? with
    | none =>
      rw [List.getElem?_modify, hw] at hj
      exact Option.noConfusion hj
    | some s0 =>
      rw [modify_getElem_some _ _ bws j s0 hw] at hj
      injection hj with hj
      refine ⟨s0, List.getElem?_mem hw, ?_⟩
      by_cases hb : bws = j
      · rw [if_pos hb] at hj
        rw [← hj] at hP
        exact hP
      · rw [if_neg hb] at hj
        rw [← hj] at hP
        exact hP
  · rintro ⟨s, hs, hP⟩
    obtain ⟨j, hj⟩ := List.mem_iff_getElem?.1 hs
    have hget := modify_getElem_some (fun s : BdrWorker =>
      { s with perdb_worker := { s.perdb_worker with nnodes := n } }) _ bws j s hj
    refine ⟨_, List.getElem?_mem hget, ?_⟩
    by_cases hb : bws = j
    · rw [if_pos hb]; exact hP
    · rw [if_neg hb]; exact hP

/-- Frame of a pass: with an allocator that hands out free entries only and a
`bdr_worker_slot` that points to a PERDB slot, a pass that ends normally leaves
every slot that was an APPLY slot before it unchanged, and the slot
`bdr_worker_slot` points to is still a PERDB slot. -/
theorem launch_frame (pick : List BdrWorker → Option Nat) (hpick : PicksFree pick)
    (idx bws : Nat) (dbname : CString) (env : LaunchEnv) (w w2 : World) (hs : List Nat)
    (sb : BdrWorker)
    (hown : w.slots[bws]? = some sb ∧ sb.worker_type = BdrWorkerType.BDR_WORKER_PERDB)
    (hrun : bdr_launch_apply_workers pick idx bws dbname env w = (w2, Outcome.ok hs)) :
    (∀ (j : Nat) (s : BdrWorker), w.slots[j]? = some s →
        s.worker_type = BdrWorkerType.BDR_WORKER_APPLY → w2.slots[j]? = some s)
    ∧ ∃ sb2, w2.slots[bws]? = some sb2
        ∧ sb2.worker_type = BdrWorkerType.BDR_WORKER_PERDB := by
  obtain ⟨w1, hloop, hw2⟩ := launch_ok_inv pick idx bws dbname env w w2 hs hrun
  have hw1 : w1 = (launch_loop pick idx dbname env.register 0 env.rows
      (launch_prologue w) []).1 := by rw [hloop]
  subst hw2
  constructor
  · intro j s hj htype
    have hfr := launch_loop_frame pick hpick idx dbname env.register env.rows 0
      (launch_prologue w) [] j s hj (by rw [htype]; decide)
    rw [← hw1] at hfr
    have hne : ¬ bws = j := by
      intro hb
      rw [hb, hj] at hown
      have h1 := hown.1
      injection h1 with h1
      rw [h1, hown.2] at htype
      exact BdrWorkerType.noConfusion htype
    rw [launch_epilogue_slots, modify_getElem_some _ _ bws j s hfr, if_neg hne]
  · have hfr := launch_loop_frame pick hpick idx dbname env.register env.rows 0
      (launch_prologue w) [] bws sb hown.1 (by rw [hown.2]; decide)
    rw [← hw1] at hfr
    refine ⟨{ sb with perdb_worker := { sb.perdb_worker with nnodes := env.rows.length } },
      ?_, hown.2⟩
    rw [launch_epilogue_slots, modify_getElem_some _ _ bws bws sb hfr, if_pos rfl]

/-- The first-free allocator hands out free entries only. -/
theorem first_free_picks_free : PicksFree first_free := by
  intro slots i hi
  unfold first_free at hi
  simp only [] at hi
  split at hi
  · rename_i hlt
    injection hi with hi
    subst hi
    refine ⟨slots[List.findIdx
      (fun s => s.worker_type == BdrWorkerType.BDR_WORKER_EMPTY_SLOT) slots],
      List.getElem?_eq_getElem hlt, ?_⟩
    have h := @List.findIdx_getElem _
      (fun s : BdrWorker => s.worker_type == BdrWorkerType.BDR_WORKER_EMPTY_SLOT) slots hlt
    simpa using h
  · exact Option.noConfusion hi

/-! ### Which rows get a spawn request -/

/-- The loop body on one row, for a loop that ends normally: the row is skipped
when some slot matches it; otherwise a slot is allocated and populated and a
spawn request for it is issued and succeeds. -/
theorem launch_loop_single (pick : List BdrWorker → Option Nat) (idx : Nat) (dbname : CString)
    (register : Nat → BackgroundWorker → Option Nat) (i : Nat) (r : CString)
    (w w2 : World) (hs hs2 : List Nat)
    (hrun : launch_loop pick idx dbname register i [r] w hs = (w2, Outcome.ok hs2)) :
    ((∃ s ∈ w.slots, isApplyFor idx r s) →
        w2 = world_after_skip dbname r w ∧ hs2 = hs)
    ∧ ((∀ s ∈ w.slots, ¬ isApplyFor idx r s) →
        ∃ slot h, pick w.slots = some slot
          ∧ register i (make_bgw w.BdrWorkerCtl.worker_generation slot r) = some h
          ∧ w2 = (world_after_alloc idx r slot w).log
              (Event.RegisterDynamicBackgroundWorker
                (make_bgw w.BdrWorkerCtl.worker_generation slot r) true)
          ∧ hs2 = h :: hs) := by
  constructor
  · intro hex
    obtain ⟨k, hk⟩ := (find_apply_loop_isSome idx r w.slots 0).2 hex
    rw [launch_loop_skip pick idx dbname register i r _ w hs k hk] at hrun
    simp only [launch_loop, Prod.mk.injEq, Outcome.ok.injEq] at hrun
    exact ⟨hrun.1.symm, hrun.2.symm⟩
  · intro hno
    have hf := (find_apply_loop_none idx r w.slots 0).2 hno
    cases hp : pick w.slots with
    | none =>
      rw [launch_loop_full pick idx dbname register i r _ w hs hf hp] at hrun
      simp at hrun
    | some slot =>
      rw [launch_loop_alloc pick idx dbname register i r _ w hs slot hf hp] at hrun
      cases hreg : register i (make_bgw w.BdrWorkerCtl.worker_generation slot r) with
      | none =>
        rw [hreg] at hrun
        simp at hrun
      | some h =>
        rw [hreg] at hrun
        simp only [launch_loop, Prod.mk.injEq, Outcome.ok.injEq] at hrun
        exact ⟨slot, h, rfl, hreg, hrun.1.symm, hrun.2.symm⟩

/-- In a loop that ends normally, the world reached before row `i + 1` is the
result of the loop body on row `i` in the world reached before row `i`. -/
theorem launch_loop_row_step (pick : List BdrWorker → Option Nat) (idx : Nat)
    (dbname : CString) (register : Nat → BackgroundWorker → Option Nat) (rows : List CString)
    (w w2 : World) (hs2 : List Nat) (i : Nat) (r : CString) (hr : rows[i]? = some r)
    (hrun : launch_loop pick idx dbname register 0 rows w [] = (w2, Outcome.ok hs2)) :
    ∃ hsi hsi1,
      launch_loop pick idx dbname register 0 (rows.take i) w []
        = ((launch_loop pick idx dbname register 0 (rows.take i) w []).1, Outcome.ok hsi)
      ∧ launch_loop pick idx dbname register i [r]
          (launch_loop pick idx dbname register 0 (rows.take i) w []).1 hsi
        = ((launch_loop pick idx dbname register 0 (rows.take (i + 1)) w []).1,
            Outcome.ok hsi1) := by
  have hlt : i < rows.length := by
    by_contra hge
    rw [List.getElem?_eq_none (by omega)] at hr
    exact Option.noConfusion hr
  have hsplit : rows = rows.take (i + 1) ++ rows.drop (i + 1) :=
    (List.take_append_drop (i + 1) rows).symm
  rw [hsplit] at hrun
  obtain ⟨wA, hsA, hA, _⟩ := launch_loop_append_ok pick idx dbname register _ _ 0 w w2 [] hs2 hrun
  have htake : rows.take (i + 1) = rows.take i ++ [r] := by
    rw [List.take_succ, hr]; rfl
  rw [htake] at hA ⊢
  obtain ⟨wB, hsB, hB, hstep⟩ :=
    launch_loop_append_ok pick idx dbname register _ _ 0 w wA [] hsA hA
  have hlen : (rows.take i).length = i := by
    rw [List.length_take]; omega
  rw [hlen, Nat.zero_add] at hstep
  refine ⟨hsB, hsA, by rw [hB], ?_⟩
  rw [hB, hA]
  exact hstep

/-- Skipping a row issues no spawn request. -/
theorem spawnRequests_skip (dbname r : CString) (w : World) :
    spawnRequests (world_after_skip dbname r w).trace = spawnRequests w.trace := by
  rw [world_after_skip_trace, spawnRequests_append]
  exact List.append_nil _

/-- An allocation step followed by its spawn request adds that one request. -/
theorem spawnRequests_alloc (idx : Nat) (r : CString) (slot : Nat) (w : World)
    (bgw : BackgroundWorker) (ok : Bool) :
    spawnRequests ((world_after_alloc idx r slot w).log
        (Event.RegisterDynamicBackgroundWorker bgw ok)).trace
      = spawnRequests w.trace ++ [(bgw, ok)] := by
  rw [log_trace, world_after_alloc_trace, spawnRequests_append, spawnRequests_append]
  rw [List.append_assoc]
  rfl

/-- In a loop that ends normally every spawn request got a handle: the list of
handles grows by the number of requests. -/
theorem launch_loop_handles (pick : List BdrWorker → Option Nat) (idx : Nat)
    (dbname : CString) (register : Nat → BackgroundWorker → Option Nat) (rows : List CString)
    (i : Nat) (w w2 : World) (hs hs2 : List Nat)
    (hrun : launch_loop pick idx dbname register i rows w hs = (w2, Outcome.ok hs2)) :
    (spawnRequests w2.trace).length + hs.length
      = (spawnRequests w.trace).length + hs2.length := by
  induction rows generalizing i w hs with
  | nil =>
    simp only [launch_loop, Prod.mk.injEq, Outcome.ok.injEq] at hrun
    rw [hrun.1, hrun.2]
  | cons r rest ih =>
    cases hf : find_apply_loop idx r w.slots 0 with
    | some k =>
      rw [launch_loop_skip pick idx dbname register i r _ w hs k hf] at hrun
      have h := ih (i + 1) _ hs hrun
      rw [spawnRequests_skip] at h
      exact h
    | none =>
      cases hp : pick w.slots with
      | none =>
        rw [launch_loop_full pick idx dbname register i r _ w hs hf hp] at hrun
        simp at hrun
      | some slot =>
        rw [launch_loop_alloc pick idx dbname register i r _ w hs slot hf hp] at hrun
        cases hreg : register i (make_bgw w.BdrWorkerCtl.worker_generation slot r) with
        | none =>
          rw [hreg] at hrun
          simp at hrun
        | some h =>
          rw [hreg] at hrun
          simp only [] at hrun
          have h2 := ih (i + 1) _ (h :: hs) hrun
          rw [spawnRequests_alloc] at h2
          simp only [List.length_append, List.length_cons, List.length_nil] at h2
          omega

/-- The world before row 0 is the world after the prologue. -/
theorem world_before_row_zero (pick : List BdrWorker → Option Nat) (idx : Nat)
    (dbname : CString) (env : LaunchEnv) (w : World) :
    world_before_row pick idx dbname env w 0 = launch_prologue w := by
  simp [world_before_row, launch_loop]

/-- The prologue issues no spawn request. -/
theorem spawnRequests_prologue (w : World) :
    spawnRequests (launch_prologue w).trace = spawnRequests w.trace := by
  rw [launch_prologue_trace, spawnRequests_append]
  exact List.append_nil _

/-- The epilogue issues no spawn request. -/
theorem spawnRequests_epilogue (bws n : Nat) (w : World) :
    spawnRequests (launch_epilogue bws n w).trace = spawnRequests w.trace := by
  rw [launch_epilogue_trace, spawnRequests_append]
  exact List.append_nil _

/-- Row by row, a pass that ends normally issues a spawn request for a row exactly
when no APPLY slot of the worker carries the row's name at the time the row is
reached, and that request succeeds. -/
theorem launch_row_exact (pick : List BdrWorker → Option Nat) (idx bws : Nat)
    (dbname : CString) (env : LaunchEnv) (w w2 : World) (hs : List Nat)
    (hrun : bdr_launch_apply_workers pick idx bws dbname env w = (w2, Outcome.ok hs))
    (i : Nat) (r : CString) (hr : env.rows[i]? = some r) :
    ((∃ s ∈ (world_before_row pick idx dbname env w i).slots, isApplyFor idx r s) →
        spawnRequests (world_before_row pick idx dbname env w (i + 1)).trace
          = spawnRequests (world_before_row pick idx dbname env w i).trace)
    ∧ ((∀ s ∈ (world_before_row pick idx dbname env w i).slots, ¬ isApplyFor idx r s) →
        ∃ slot h,
          env.register i (make_bgw w.BdrWorkerCtl.worker_generation slot r) = some h
          ∧ spawnRequests (world_before_row pick idx dbname env w (i + 1)).trace
              = spawnRequests (world_before_row pick idx dbname env w i).trace
                ++ [(make_bgw w.BdrWorkerCtl.worker_generation slot r, true)]) := by
  obtain ⟨w1, hloop, _⟩ := launch_ok_inv pick idx bws dbname env w w2 hs hrun
  obtain ⟨hsi, hsi1, _, hstep⟩ := launch_loop_row_step pick idx dbname env.register env.rows
    (launch_prologue w) w1 hs i r hr hloop
  have hsingle := launch_loop_single pick idx dbname env.register i r _ _ hsi hsi1 hstep
  have hgen : (world_before_row pick idx dbname env w i).BdrWorkerCtl.worker_generation
      = w.BdrWorkerCtl.worker_generation :=
    (launch_loop_generation pick idx dbname env.register (env.rows.take i) 0
      (launch_prologue w) []).1
  constructor
  · intro hex
    have h := (hsingle.1 hex).1
    unfold world_before_row
    rw [h, spawnRequests_skip]
  · intro hno
    obtain ⟨slot, h, _, hreg, hw, _⟩ := hsingle.2 hno
    unfold world_before_row at hgen
    rw [hgen] at hreg hw
    refine ⟨slot, h, hreg, ?_⟩
    unfold world_before_row
    rw [hw, spawnRequests_alloc]

/-- The spawn requests of a pass that ends normally are those of its loop, and the
pass returns one handle per request. -/
theorem launch_requests_total (pick : List BdrWorker → Option Nat) (idx bws : Nat)
    (dbname : CString) (env : LaunchEnv) (w w2 : World) (hs : List Nat)
    (hrun : bdr_launch_apply_workers pick idx bws dbname env w = (w2, Outcome.ok hs)) :
    spawnRequests (world_before_row pick idx dbname env w 0).trace = spawnRequests w.trace
    ∧ spawnRequests w2.trace
        = spawnRequests (world_before_row pick idx dbname env w env.rows.length).trace
    ∧ (spawnRequests w2.trace).length = (spawnRequests w.trace).length + hs.length := by
  obtain ⟨w1, hloop, hw2⟩ := launch_ok_inv pick idx bws dbname env w w2 hs hrun
  have hall : world_before_row pick idx dbname env w env.rows.length = w1 := by
    unfold world_before_row
    rw [List.take_length, hloop]
  refine ⟨?_, ?_, ?_⟩
  · rw [world_before_row_zero, spawnRequests_prologue]
  · rw [hall, hw2, spawnRequests_epilogue]
  · have h := launch_loop_handles pick idx dbname env.register env.rows 0 _ w1 [] hs hloop
    rw [spawnRequests_prologue] at h
    rw [hw2, spawnRequests_epilogue]
    simpa using h

/-- A name shorter than `NAMEDATALEN` bytes is stored whole. -/
theorem take_short_name (n : CString) (h : n.length < NAMEDATALEN) :
    n.take (NAMEDATALEN - 1) = n :=
  List.take_of_length_le (by omega)

/-- Incremental growth: after a pass over the rows `[A, B]`, a pass over
`[A, B, C]` issues exactly one spawn request, for `C`, returns its handle, and
leaves every APPLY slot (those of `A` and `B` among them) unchanged. `A` and `B`
fit a `NameData`, `C` differs from both and had no slot at the start. -/
theorem launch_third_row (pick : List BdrWorker → Option Nat) (hpick : PicksFree pick)
    (idx bws : Nat) (dbname : CString) (A B C : CString) (env1 env2 : LaunchEnv)
    (w0 w1 w2 : World) (hs1 hs2 : List Nat) (sb : BdrWorker)
    (hA : A.length < NAMEDATALEN) (hB : B.length < NAMEDATALEN) (hCA : C ≠ A) (hCB : C ≠ B)
    (hrows1 : env1.rows = [A, B]) (hrows2 : env2.rows = [A, B, C])
    (hown : w0.slots[bws]? = some sb ∧ sb.worker_type = BdrWorkerType.BDR_WORKER_PERDB)
    (hnoC : ∀ s ∈ w0.slots, ¬ isApplyFor idx C s)
    (hrun1 : bdr_launch_apply_workers pick idx bws dbname env1 w0 = (w1, Outcome.ok hs1))
    (hrun2 : bdr_launch_apply_workers pick idx bws dbname env2 w1 = (w2, Outcome.ok hs2)) :
    ∃ slot h,
      env2.register 2 (make_bgw w1.BdrWorkerCtl.worker_generation slot C) = some h
      ∧ spawnRequests w2.trace
          = spawnRequests w1.trace
            ++ [(make_bgw w1.BdrWorkerCtl.worker_generation slot C, true)]
      ∧ hs2 = [h]
      ∧ (∃ sA ∈ w1.slots, isApplyFor idx A sA)
      ∧ (∃ sB ∈ w1.slots, isApplyFor idx B sB)
      ∧ (∀ (j : Nat) (s : BdrWorker), w1.slots[j]? = some s →
          s.worker_type = BdrWorkerType.BDR_WORKER_APPLY → w2.slots[j]? = some s) := by
  obtain ⟨w1l, hloop1, hw1⟩ := launch_ok_inv pick idx bws dbname env1 w0 w1 hs1 hrun1
  rw [hrows1] at hloop1
  have hreg := launch_loop_registered pick hpick idx dbname env1.register [A, B] 0
    (launch_prologue w0) w1l [] hs1 hloop1
  have hAin : ∃ s ∈ w1.slots, isApplyFor idx A s := by
    rw [hw1]
    apply (launch_epilogue_match bws _ idx A w1l).2
    obtain ⟨s, hs, h | h⟩ := hreg A (by simp)
    · exact ⟨s, hs, h⟩
    · rw [take_short_name A hA] at h
      exact ⟨s, hs, h⟩
  have hBin : ∃ s ∈ w1.slots, isApplyFor idx B s := by
    rw [hw1]
    apply (launch_epilogue_match bws _ idx B w1l).2
    obtain ⟨s, hs, h | h⟩ := hreg B (by simp)
    · exact ⟨s, hs, h⟩
    · rw [take_short_name B hB] at h
      exact ⟨s, hs, h⟩
  have hCno : ∀ s ∈ w1.slots, ¬ isApplyFor idx C s := by
    intro s hs hP
    have hex : ∃ s ∈ (launch_epilogue bws env1.rows.length w1l).slots, isApplyFor idx C s := by
      rw [← hw1]
      exact ⟨s, hs, hP⟩
    obtain ⟨s1, hs1, hP1⟩ := (launch_epilogue_match bws _ idx C w1l).1 hex
    have hnew := launch_loop_no_new_match pick hpick idx dbname env1.register [A, B] 0
      (launch_prologue w0) [] C (by
        intro r hr
        simp only [List.mem_cons, List.mem_singleton, List.not_mem_nil, or_false] at hr
        rcases hr with h | h
        · rw [h, take_short_name A hA]; exact fun e => hCA e.symm
        · rw [h, take_short_name B hB]; exact fun e => hCB e.symm) hnoC
    rw [hloop1] at hnew
    exact hnew s1 hs1 hP1
  obtain ⟨hframe1, sb1, hsb1, hsb1t⟩ :=
    launch_frame pick hpick idx bws dbname env1 w0 w1 hs1 sb hown hrun1
  have hframe2 := (launch_frame pick hpick idx bws dbname env2 w1 w2 hs2 sb1
    ⟨hsb1, hsb1t⟩ hrun2).1
  obtain ⟨w2l, hloop2, hw2⟩ := launch_ok_inv pick idx bws dbname env2 w1 w2 hs2 hrun2
  rw [hrows2] at hloop2
  obtain ⟨kA, hkA⟩ := (find_apply_loop_isSome idx A (launch_prologue w1).slots 0).2 hAin
  rw [launch_loop_skip pick idx dbname env2.register 0 A _ _ [] kA hkA] at hloop2
  obtain ⟨kB, hkB⟩ := (find_apply_loop_isSome idx B
    (world_after_skip dbname A (launch_prologue w1)).slots 0).2 hBin
  rw [launch_loop_skip pick idx dbname env2.register (0 + 1) B _ _ [] kB hkB] at hloop2
  obtain ⟨slot, h, _, hregC, hw2l, hhs⟩ :=
    (launch_loop_single pick idx dbname env2.register (0 + 1 + 1) C _ w2l [] hs2 hloop2).2 hCno
  refine ⟨slot, h, hregC, ?_, hhs, hAin, hBin, hframe2⟩
  rw [hw2, spawnRequests_epilogue, hw2l, spawnRequests_alloc, spawnRequests_skip,
    spawnRequests_skip, spawnRequests_prologue]
  rfl

/-- Frame and exactness of a pass: with an allocator that hands out free entries
only, for every registry in which `bdr_worker_slot` points to a PERDB slot and
every directory result, a pass of `bdr_launch_apply_workers` that ends normally (i) leaves every slot that was
an APPLY slot before it unchanged; (ii) row by row, issues no spawn request for a
row that has a matching APPLY slot (same `perdb_worker_idx`, same local name)
when it is reached, and issues exactly one, which succeeds, for a row that has
none; issues no other request; and returns one handle per request. (iii) In
particular, after a pass over `[A, B]` a pass over `[A, B, C]` issues exactly one
spawn request, for `C`, and leaves the slots of `A` and `B` unchanged (`A`, `B`
shorter than `NAMEDATALEN` bytes, `C` a new name). -/
theorem launch_spawns_exactly_missing (pick : List BdrWorker → Option Nat)
    (hpick : PicksFree pick) (idx bws : Nat) (dbname : CString) :
    (∀ (env : LaunchEnv) (w w2 : World) (hs : List Nat) (sb : BdrWorker),
      w.slots[bws]? = some sb → sb.worker_type = BdrWorkerType.BDR_WORKER_PERDB →
      bdr_launch_apply_workers pick idx bws dbname env w = (w2, Outcome.ok hs) →
      (∀ (j : Nat) (s : BdrWorker), w.slots[j]? = some s →
          s.worker_type = BdrWorkerType.BDR_WORKER_APPLY → w2.slots[j]? = some s)
      ∧ (∀ (i : Nat) (r : CString), env.rows[i]? = some r →
          ((∃ s ∈ (world_before_row pick idx dbname env w i).slots, isApplyFor idx r s) →
            spawnRequests (world_before_row pick idx dbname env w (i + 1)).trace
              = spawnRequests (world_before_row pick idx dbname env w i).trace)
          ∧ ((∀ s ∈ (world_before_row pick idx dbname env w i).slots,
                ¬ isApplyFor idx r s) →
            ∃ slot h,
              env.register i (make_bgw w.BdrWorkerCtl.worker_generation slot r) = some h
              ∧ spawnRequests (world_before_row pick idx dbname env w (i + 1)).trace
                  = spawnRequests (world_before_row pick idx dbname env w i).trace
                    ++ [(make_bgw w.BdrWorkerCtl.worker_generation slot r, true)]))
      ∧ spawnRequests (world_before_row pick idx dbname env w 0).trace
          = spawnRequests w.trace
      ∧ spawnRequests w2.trace
          = spawnRequests (world_before_row pick idx dbname env w env.rows.length).trace
      ∧ (spawnRequests w2.trace).length = (spawnRequests w.trace).length + hs.length)
    ∧ (∀ (A B C : CString) (env1 env2 : LaunchEnv) (w0 w1 w2 : World)
        (hs1 hs2 : List Nat) (sb : BdrWorker),
      A.length < NAMEDATALEN → B.length < NAMEDATALEN → C ≠ A → C ≠ B →
      env1.rows = [A, B] → env2.rows = [A, B, C] →
      w0.slots[bws]? = some sb → sb.worker_type = BdrWorkerType.BDR_WORKER_PERDB →
      (∀ s ∈ w0.slots, ¬ isApplyFor idx C s) →
      bdr_launch_apply_workers pick idx bws dbname env1 w0 = (w1, Outcome.ok hs1) →
      bdr_launch_apply_workers pick idx bws dbname env2 w1 = (w2, Outcome.ok hs2) →
      ∃ slot h,
        env2.register 2 (make_bgw w1.BdrWorkerCtl.worker_generation slot C) = some h
        ∧ spawnRequests w2.trace
            = spawnRequests w1.trace
              ++ [(make_bgw w1.BdrWorkerCtl.worker_generation slot C, true)]
        ∧ hs2 = [h]
        ∧ (∃ sA ∈ w1.slots, isApplyFor idx A sA)
        ∧ (∃ sB ∈ w1.slots, isApplyFor idx B sB)
        ∧ (∀ (j : Nat) (s : BdrWorker), w1.slots[j]? = some s →
            s.worker_type = BdrWorkerType.BDR_WORKER_APPLY → w2.slots[j]? = some s)) := by
  constructor
  · intro env w w2 hs sb hsb hsbt hrun
    have htot := launch_requests_total pick idx bws dbname env w w2 hs hrun
    exact ⟨(launch_frame pick hpick idx bws dbname env w w2 hs sb ⟨hsb, hsbt⟩ hrun).1,
      fun i r hr => launch_row_exact pick idx bws dbname env w w2 hs hrun i r hr,
      htot.1, htot.2.1, htot.2.2⟩
  · intro A B C env1 env2 w0 w1 w2 hs1 hs2 sb hA hB hCA hCB hrows1 hrows2 hsb hsbt hnoC
      hrun1 hrun2
    exact launch_third_row pick hpick idx bws dbname A B C env1 env2 w0 w1 w2 hs1 hs2 sb
      hA hB hCA hCB hrows1 hrows2 ⟨hsb, hsbt⟩ hnoC hrun1 hrun2

/-- Instance of the frame and exactness of a pass: in the demo registry a pass
over `[[65], [66]]` followed by a pass over `[[65], [66], [67]]`; the second pass
issues one request, for `[67]`. -/
theorem launch_spawns_exactly_missing_witness :
    PicksFree first_free
    ∧ demo_world.slots[0]? = some (perdb_slot [100] 7)
    ∧ (∀ s ∈ demo_world.slots, ¬ isApplyFor 0 [67] s)
    ∧ bdr_launch_apply_workers first_free 0 0 [100] (demo_launch_env [[65], [66]]) demo_world
        = (demo_pass1.1, Outcome.ok [1, 0])
    ∧ bdr_launch_apply_workers first_free 0 0 [100] (demo_launch_env [[65], [66], [67]])
        demo_pass1.1 = (demo_pass2.1, Outcome.ok [2])
    ∧ ∃ slot h,
        (demo_launch_env [[65], [66], [67]]).register 2
          (make_bgw demo_pass1.1.BdrWorkerCtl.worker_generation slot [67]) = some h
        ∧ spawnRequests demo_pass2.1.trace
            = spawnRequests demo_pass1.1.trace
              ++ [(make_bgw demo_pass1.1.BdrWorkerCtl.worker_generation slot [67], true)]
        ∧ [2] = [h]
        ∧ (∃ sA ∈ demo_pass1.1.slots, isApplyFor 0 [65] sA)
        ∧ (∃ sB ∈ demo_pass1.1.slots, isApplyFor 0 [66] sB)
        ∧ (∀ (j : Nat) (s : BdrWorker), demo_pass1.1.slots[j]? = some s →
            s.worker_type = BdrWorkerType.BDR_WORKER_APPLY →
            demo_pass2.1.slots[j]? = some s) :=
  ⟨first_free_picks_free, rfl, by decide, rfl, rfl,
    (launch_spawns_exactly_missing first_free first_free_picks_free 0 0 [100]).2
      [65] [66] [67] (demo_launch_env [[65], [66]]) (demo_launch_env [[65], [66], [67]])
      demo_world demo_pass1.1 demo_pass2.1 [1, 0] [2] (perdb_slot [100] 7)
      (by decide) (by decide) (by decide) (by decide) rfl rfl rfl rfl (by decide) rfl rfl⟩

/-! ### Names of `NAMEDATALEN` bytes or more

The slot keeps a name cut to `NAMEDATALEN - 1` bytes (lines 313-314) while the
lookup compares the stored name with the whole name (line 110), so a row whose
name has `NAMEDATALEN` bytes or more never finds its own slot. -/

/-- C3, evaluated: with the one-row directory `[long_name]` (a 64-byte name), the
demo registry (no APPLY slot, three free entries) and a spawner that always
succeeds, the first pass issues one spawn request and allocates slot 1, and the
second pass over the same directory issues a second spawn request, returns a
handle and allocates slot 2: it is not idempotent. -/
theorem long_name_second_pass_spawns :
    long_pass1.2 = Outcome.ok [0]
    ∧ (spawnRequests long_pass1.1.trace).length = 1
    ∧ (long_pass1.1.slots.map (fun s => s.worker_type))
        = [BdrWorkerType.BDR_WORKER_PERDB, BdrWorkerType.BDR_WORKER_APPLY,
           BdrWorkerType.BDR_WORKER_EMPTY_SLOT, BdrWorkerType.BDR_WORKER_EMPTY_SLOT]
    ∧ long_pass2.2 = Outcome.ok [0]
    ∧ (spawnRequests long_pass2.1.trace).length = 2
    ∧ (long_pass2.1.slots.map (fun s => s.worker_type))
        = [BdrWorkerType.BDR_WORKER_PERDB, BdrWorkerType.BDR_WORKER_APPLY,
           BdrWorkerType.BDR_WORKER_APPLY, BdrWorkerType.BDR_WORKER_EMPTY_SLOT] := by
  refine ⟨?_, ?_, ?_, ?_, ?_, ?_⟩ <;> decide

/-- C9, evaluated: in the demo registry the loop body allocates slot 1 for the
64-byte name `long_name` and populates it; the lookup of `long_name` by the same
worker right after returns -1, not 1, because the slot holds the 63-byte cut. -/
theorem long_name_not_found_after_alloc :
    find_apply_loop 0 long_name demo_world.slots 0 = none
    ∧ first_free demo_world.slots = some 1
    ∧ ((world_after_alloc 0 long_name 1 demo_world).slots[1]?).map
        (fun s => (s.worker_type, s.apply_worker.perdb_worker_idx,
          s.apply_worker.conn_local_name))
        = some (BdrWorkerType.BDR_WORKER_APPLY, 0, cut_name)
    ∧ (find_apply_worker_slot 0 long_name false
        (world_after_alloc 0 long_name 1 demo_world)).found = -1 := by
  refine ⟨?_, ?_, ?_, ?_⟩ <;> decide

/-- C10, evaluated: the demo registry has no APPLY slot, so the uniqueness
invariant holds before the pass; after one pass over the two distinct names
`[cut_name, long_name]` slots 1 and 2 are both APPLY slots of worker 0 named
`cut_name`, so the invariant is broken. -/
theorem long_name_breaks_uniqueness :
    UniqueApply demo_world.slots
    ∧ clash_pass.2 = Outcome.ok [1, 0]
    ∧ ¬ UniqueApply clash_pass.1.slots := by
  refine ⟨?_, by decide, ?_⟩
  · intro i j si sj hi _ hti _ _ _
    have hmem := List.getElem?_mem hi
    have hall : ∀ s ∈ demo_world.slots,
        s.worker_type ≠ BdrWorkerType.BDR_WORKER_APPLY := by decide
    exact absurd hti (hall si hmem)
  · intro hU
    have h := hU 1 2 (fresh_apply_slot 3 0 cut_name empty_slot)
      (fresh_apply_slot 3 0 long_name empty_slot) (by decide) (by decide) rfl rfl rfl
      (by decide)
    omega

/-! ### Names shorter than `NAMEDATALEN` bytes

For rows whose names fit a `NameData` the stored name is the row's name, and the
lookup finds the slot a row was given. -/

/-- Find after allocate, for a name that fits: when no slot matched `n`, entry
`slot` exists and `n` has fewer than `NAMEDATALEN` bytes, the lookup of `n` right
after the loop body allocated and populated entry `slot` for `n` returns
`slot`. -/
theorem find_after_alloc_short (idx : Nat) (n : CString) (slot : Nat) (w : World)
    (s0 : BdrWorker) (out : Bool) (hshort : n.length < NAMEDATALEN)
    (hno : ∀ s ∈ w.slots, ¬ isApplyFor idx n s) (h0 : w.slots[slot]? = some s0) :
    (find_apply_worker_slot idx n out (world_after_alloc idx n slot w)).found
      = (slot : Int) := by
  have hfirst : FirstAt (isApplyFor idx n) (world_after_alloc idx n slot w).slots slot := by
    constructor
    · refine ⟨fresh_apply_slot w.BdrWorkerCtl.worker_generation idx n s0, ?_, ?_⟩
      · rw [world_after_alloc_getElem idx n slot w s0 h0 slot, if_pos rfl]
      · have h := fresh_apply_slot_isApplyFor w.BdrWorkerCtl.worker_generation idx n s0
        rw [take_short_name n hshort] at h
        exact h
    · intro j hj s hs hP
      rw [world_after_alloc_getElem idx n slot w s0 h0 j, if_neg (by omega)] at hs
      exact hno s (List.getElem?_mem hs) hP
  have hf := (find_apply_loop_some idx n (world_after_alloc idx n slot w).slots 0 slot).2
    ⟨slot, by omega, hfirst⟩
  simp [find_apply_worker_slot, hf]

/-- A loop over rows that all have a matching slot skips every row: it ends
normally with the handles it started with, changes no slot and issues no spawn
request. -/
theorem launch_loop_all_skip (pick : List BdrWorker → Option Nat) (idx : Nat)
    (dbname : CString) (register : Nat → BackgroundWorker → Option Nat) (rows : List CString)
    (i : Nat) (w : World) (hs : List Nat)
    (hall : ∀ r ∈ rows, ∃ s ∈ w.slots, isApplyFor idx r s) :
    (launch_loop pick idx dbname register i rows w hs).2 = Outcome.ok hs
    ∧ (launch_loop pick idx dbname register i rows w hs).1.BdrWorkerCtl = w.BdrWorkerCtl
    ∧ spawnRequests (launch_loop pick idx dbname register i rows w hs).1.trace
        = spawnRequests w.trace := by
  induction rows generalizing i w with
  | nil => simp [launch_loop]
  | cons r rest ih =>
    obtain ⟨k, hk⟩ := (find_apply_loop_isSome idx r w.slots 0).2 (hall r (List.mem_cons_self _ _))
    rw [launch_loop_skip pick idx dbname register i r _ w hs k hk]
    have h := ih (i + 1) (world_after_skip dbname r w)
      (fun r2 hr2 => hall r2 (List.mem_cons_of_mem _ hr2))
    rw [world_after_skip_ctl, spawnRequests_skip] at h
    exact h

/-- Writing the node count a slot already holds changes nothing. -/
theorem modify_nnodes_twice (n bws : Nat) (l : List BdrWorker) :
    (l.modify (fun s => { s with perdb_worker := { s.perdb_worker with nnodes := n } })
        bws).modify
      (fun s => { s with perdb_worker := { s.perdb_worker with nnodes := n } }) bws
    = l.modify (fun s => { s with perdb_worker := { s.perdb_worker with nnodes := n } })
        bws := by
  rw [List.modify_modify_eq]
  rfl

/-- Idempotence for names that fit: with an allocator that hands out free entries
only, after a pass that ended normally over rows all shorter than `NAMEDATALEN`
bytes, a second pass over the same rows ends normally, issues no spawn request,
returns no handle and leaves the shared segment as it was. -/
theorem launch_idempotent_short (pick : List BdrWorker → Option Nat) (hpick : PicksFree pick)
    (idx bws : Nat) (dbname : CString) (env env2 : LaunchEnv) (w w1 : World)
    (hs : List Nat) (hshort : ∀ r ∈ env.rows, r.length < NAMEDATALEN)
    (hrun : bdr_launch_apply_workers pick idx bws dbname env w = (w1, Outcome.ok hs))
    (hrows : env2.rows = env.rows) (hret : env2.ret = SPI_OK_SELECT)
    (hattno : env2.attno_conn_local_name ≠ SPI_ERROR_NOATTRIBUTE) :
    (bdr_launch_apply_workers pick idx bws dbname env2 w1).2 = Outcome.ok []
    ∧ (bdr_launch_apply_workers pick idx bws dbname env2 w1).1.BdrWorkerCtl = w1.BdrWorkerCtl
    ∧ spawnRequests (bdr_launch_apply_workers pick idx bws dbname env2 w1).1.trace
        = spawnRequests w1.trace := by
  obtain ⟨w1l, hloop1, hw1⟩ := launch_ok_inv pick idx bws dbname env w w1 hs hrun
  have hreg := launch_loop_registered pick hpick idx dbname env.register env.rows 0
    (launch_prologue w) w1l [] hs hloop1
  have hall : ∀ r ∈ env2.rows, ∃ s ∈ (launch_prologue w1).slots, isApplyFor idx r s := by
    intro r hr
    rw [hrows] at hr
    rw [launch_prologue_slots, hw1]
    apply (launch_epilogue_match bws _ idx r w1l).2
    obtain ⟨s, hs1, h | h⟩ := hreg r hr
    · exact ⟨s, hs1, h⟩
    · rw [take_short_name r (hshort r hr)] at h
      exact ⟨s, hs1, h⟩
  obtain ⟨hok, hctl, hreq⟩ := launch_loop_all_skip pick idx dbname env2.register env2.rows 0
    (launch_prologue w1) [] hall
  have hpair : launch_loop pick idx dbname env2.register 0 env2.rows (launch_prologue w1) []
      = ((launch_loop pick idx dbname env2.register 0 env2.rows (launch_prologue w1) []).1,
          Outcome.ok []) := by
    rw [← hok]
  have hlaunch : bdr_launch_apply_workers pick idx bws dbname env2 w1
      = (launch_epilogue bws env2.rows.length
          (launch_loop pick idx dbname env2.register 0 env2.rows (launch_prologue w1) []).1,
        Outcome.ok []) := by
    unfold bdr_launch_apply_workers
    simp only [hret, hattno, ne_eq, not_true_eq_false, if_false]
    rw [hpair]
  rw [hlaunch]
  refine ⟨rfl, ?_, ?_⟩
  · have hslots : (launch_epilogue bws env2.rows.length
        (launch_loop pick idx dbname env2.register 0 env2.rows (launch_prologue w1) []).1).slots
        = w1.slots := by
      rw [launch_epilogue_slots]
      show List.modify _ bws
        (launch_loop pick idx dbname env2.register 0 env2.rows
          (launch_prologue w1) []).1.BdrWorkerCtl.slots = _
      rw [hctl, launch_prologue_ctl, hrows]
      show List.modify _ bws w1.slots = _
      rw [hw1, launch_epilogue_slots, modify_nnodes_twice]
    have hgen : (launch_epilogue bws env2.rows.length
        (launch_loop pick idx dbname env2.register 0 env2.rows
          (launch_prologue w1) []).1).BdrWorkerCtl
        = { (launch_loop pick idx dbname env2.register 0 env2.rows
              (launch_prologue w1) []).1.BdrWorkerCtl with
            slots := (launch_epilogue bws env2.rows.length
              (launch_loop pick idx dbname env2.register 0 env2.rows
                (launch_prologue w1) []).1).slots } := rfl
    rw [hgen, hslots, hctl, launch_prologue_ctl]
    rfl
  · rw [spawnRequests_epilogue, hreq, spawnRequests_prologue]

/-- An allocation step keeps the uniqueness invariant when no slot of the worker
carries the name that is stored. -/
theorem alloc_unique (idx : Nat) (r : CString) (slot : Nat) (w : World) (s0 : BdrWorker)
    (hU : UniqueApply w.slots)
    (hno : ∀ s ∈ w.slots, ¬ isApplyFor idx (r.take (NAMEDATALEN - 1)) s)
    (h0 : w.slots[slot]? = some s0) :
    UniqueApply (world_after_alloc idx r slot w).slots := by
  intro i j si sj hi hj hti htj hidx hname
  rw [world_after_alloc_getElem idx r slot w s0 h0 i] at hi
  rw [world_after_alloc_getElem idx r slot w s0 h0 j] at hj
  by_cases his : i = slot
  · by_cases hjs : j = slot
    · omega
    · rw [if_pos his] at hi
      rw [if_neg hjs] at hj
      injection hi with hi
      rw [← hi] at hidx hname
      exact absurd ⟨htj, hidx.symm, hname.symm⟩ (hno sj (List.getElem?_mem hj))
  · by_cases hjs : j = slot
    · rw [if_neg his] at hi
      rw [if_pos hjs] at hj
      injection hj with hj
      rw [← hj] at hidx hname
      exact absurd ⟨hti, hidx, hname⟩ (hno si (List.getElem?_mem hi))
    · rw [if_neg his] at hi
      rw [if_neg hjs] at hj
      exact hU i j si sj hi hj hti htj hidx hname

/-- Uniqueness for names that fit: with an allocator that hands out free entries
only, the loop over rows all shorter than `NAMEDATALEN` bytes keeps the
uniqueness invariant, however it ends. -/
theorem launch_loop_unique_short (pick : List BdrWorker → Option Nat) (hpick : PicksFree pick)
    (idx : Nat) (dbname : CString) (register : Nat → BackgroundWorker → Option Nat)
    (rows : List CString) (i : Nat) (w : World) (hs : List Nat)
    (hshort : ∀ r ∈ rows, r.length < NAMEDATALEN) (hU : UniqueApply w.slots) :
    UniqueApply (launch_loop pick idx dbname register i rows w hs).1.slots := by
  induction rows generalizing i w hs with
  | nil => simpa [launch_loop] using hU
  | cons r rest ih =>
    have hrest : ∀ r2 ∈ rest, r2.length < NAMEDATALEN :=
      fun r2 hr2 => hshort r2 (List.mem_cons_of_mem _ hr2)
    cases hf : find_apply_loop idx r w.slots 0 with
    | some k =>
      rw [launch_loop_skip pick idx dbname register i r _ w hs k hf]
      exact ih (i + 1) _ hs hrest hU
    | none =>
      cases hp : pick w.slots with
      | none =>
        rw [launch_loop_full pick idx dbname register i r _ w hs hf hp]
        exact hU
      | some slot =>
        obtain ⟨s0, hs0, _⟩ := hpick w.slots slot hp
        have hno := (find_apply_loop_none idx r w.slots 0).1 hf
        rw [← take_short_name r (hshort r (List.mem_cons_self _ _))] at hno
        have hU1 := alloc_unique idx r slot w s0 hU hno hs0
        rw [launch_loop_alloc pick idx dbname register i r _ w hs slot hf hp]
        cases hreg : register i (make_bgw w.BdrWorkerCtl.worker_generation slot r) with
        | none => exact hU1
        | some h => exact ih (i + 1) _ (h :: hs) hrest hU1

/-- The node-count write of the epilogue keeps the uniqueness invariant. -/
theorem launch_epilogue_unique (bws n : Nat) (w : World) (hU : UniqueApply w.slots) :
    UniqueApply (launch_epilogue bws n w).slots := by
  intro i j si sj hi hj hti htj hidx hname
  rw [launch_epilogue_slots] at hi hj
  cases hwi : w.slots[i]? with
  | none =>
    rw [List.getElem?_modify, hwi] at hi
    exact Option.noConfusion hi
  | some ti =>
    cases hwj : w.slots[j]? with
    | none =>
      rw [List.getElem?_modify, hwj] at hj
      exact Option.noConfusion hj
    | some tj =>
      rw [modify_getElem_some _ _ bws i ti hwi] at hi
      rw [modify_getElem_some _ _ bws j tj hwj] at hj
      injection hi with hi
      injection hj with hj
      have hi2 : si.worker_type = ti.worker_type ∧ si.apply_worker = ti.apply_worker := by
        rw [← hi]; split <;> exact ⟨rfl, rfl⟩
      have hj2 : sj.worker_type = tj.worker_type ∧ sj.apply_worker = tj.apply_worker := by
        rw [← hj]; split <;> exact ⟨rfl, rfl⟩
      rw [hi2.1] at hti
      rw [hj2.1] at htj
      rw [hi2.2, hj2.2] at hidx hname
      exact hU i j ti tj hwi hwj hti htj hidx hname

/-- Uniqueness for names that fit: with an allocator that hands out free entries
only, a pass over rows all shorter than `NAMEDATALEN` bytes (any number of rows,
duplicates allowed) keeps the uniqueness invariant, however the pass ends. -/
theorem launch_unique_short (pick : List BdrWorker → Option Nat) (hpick : PicksFree pick)
    (idx bws : Nat) (dbname : CString) (env : LaunchEnv) (w : World)
    (hshort : ∀ r ∈ env.rows, r.length < NAMEDATALEN) (hU : UniqueApply w.slots) :
    UniqueApply (bdr_launch_apply_workers pick idx bws dbname env w).1.slots := by
  have hloopU := launch_loop_unique_short pick hpick idx dbname env.register env.rows 0
    (launch_prologue w) [] hshort hU
  unfold bdr_launch_apply_workers
  simp only []
  split
  · exact hU
  · split
    · exact hU
    · split
      · rename_i w2 msg heq
        rw [heq] at hloopU
        exact hloopU
      · rename_i w2 hs2 heq
        rw [heq] at hloopU
        exact launch_epilogue_unique bws _ w2 hloopU

/-- A write that turns a non-APPLY entry into an APPLY slot raises the number of
APPLY slots by one. -/
theorem applySlotCount_modify_new (f : BdrWorker → BdrWorker) (l : List BdrWorker) (i : Nat)
    (s0 : BdrWorker) (h0 : l[i]? = some s0)
    (hold : s0.worker_type ≠ BdrWorkerType.BDR_WORKER_APPLY)
    (hnew : (f s0).worker_type = BdrWorkerType.BDR_WORKER_APPLY) :
    applySlotCount (l.modify f i) = applySlotCount l + 1 := by
  induction l generalizing i with
  | nil => simp at h0
  | cons a t ih =>
    cases i with
    | zero =>
      simp only [List.getElem?_cons_zero, Option.some.injEq] at h0
      subst h0
      show List.countP _ (f a :: t) = List.countP _ (a :: t) + 1
      rw [List.countP_cons, List.countP_cons]
      simp [hold, hnew]
    | succ k =>
      have h0k : t[k]? = some s0 := by simpa using h0
      have hk := ih k h0k
      show List.countP _ (a :: t.modify f k) = List.countP _ (a :: t) + 1
      unfold applySlotCount at hk
      rw [List.countP_cons, List.countP_cons, hk]
      omega

/-- A write that keeps the tag of the entry keeps the number of APPLY slots. -/
theorem applySlotCount_modify_same (f : BdrWorker → BdrWorker) (l : List BdrWorker) (i : Nat)
    (hf : ∀ s, (f s).worker_type = s.worker_type) :
    applySlotCount (l.modify f i) = applySlotCount l := by
  induction l generalizing i with
  | nil => cases i <;> rfl
  | cons a t ih =>
    cases i with
    | zero =>
      show List.countP _ (f a :: t) = List.countP _ (a :: t)
      rw [List.countP_cons, List.countP_cons, hf a]
    | succ k =>
      have hk := ih k
      show List.countP _ (a :: t.modify f k) = List.countP _ (a :: t)
      unfold applySlotCount at hk
      rw [List.countP_cons, List.countP_cons, hk]

/-- An allocation step on a free entry raises the number of APPLY slots by one. -/
theorem applySlotCount_alloc (idx : Nat) (r : CString) (slot : Nat) (w : World)
    (s0 : BdrWorker) (h0 : w.slots[slot]? = some s0)
    (hfree : s0.worker_type = BdrWorkerType.BDR_WORKER_EMPTY_SLOT) :
    applySlotCount (world_after_alloc idx r slot w).slots = applySlotCount w.slots + 1 := by
  unfold world_after_alloc
  simp only [log_slots, writeSlot_slots]
  rw [applySlotCount_modify_same (populate_apply idx r) _ slot (fun s => rfl)]
  exact applySlotCount_modify_new _ _ slot s0 h0 (by rw [hfree]; decide) rfl

/-- The node-count write of the epilogue keeps the number of APPLY slots. -/
theorem applySlotCount_epilogue (bws n : Nat) (w : World) :
    applySlotCount (launch_epilogue bws n w).slots = applySlotCount w.slots := by
  rw [launch_epilogue_slots]
  exact applySlotCount_modify_same _ _ bws (fun s => rfl)

/-- First pass of the loop, for distinct names that fit and have no slot yet: a
loop that ends normally issues one spawn request and creates one APPLY slot per
row. -/
theorem launch_loop_first_pass_short (pick : List BdrWorker → Option Nat)
    (hpick : PicksFree pick) (idx : Nat) (dbname : CString)
    (register : Nat → BackgroundWorker → Option Nat) (rows : List CString) (i : Nat)
    (w w2 : World) (hs hs2 : List Nat) (hnodup : rows.Nodup)
    (hshort : ∀ r ∈ rows, r.length < NAMEDATALEN)
    (hnone : ∀ r ∈ rows, ∀ s ∈ w.slots, ¬ isApplyFor idx r s)
    (hrun : launch_loop pick idx dbname register i rows w hs = (w2, Outcome.ok hs2)) :
    (spawnRequests w2.trace).length = (spawnRequests w.trace).length + rows.length
    ∧ applySlotCount w2.slots = applySlotCount w.slots + rows.length := by
  induction rows generalizing i w hs with
  | nil =>
    simp only [launch_loop, Prod.mk.injEq, Outcome.ok.injEq] at hrun
    rw [← hrun.1]
    exact ⟨rfl, rfl⟩
  | cons r rest ih =>
    have hf := (find_apply_loop_none idx r w.slots 0).2 (hnone r (List.mem_cons_self _ _))
    cases hp : pick w.slots with
    | none =>
      rw [launch_loop_full pick idx dbname register i r _ w hs hf hp] at hrun
      simp at hrun
    | some slot =>
      obtain ⟨s0, hs0, hfree⟩ := hpick w.slots slot hp
      rw [launch_loop_alloc pick idx dbname register i r _ w hs slot hf hp] at hrun
      cases hreg : register i (make_bgw w.BdrWorkerCtl.worker_generation slot r) with
      | none =>
        rw [hreg] at hrun
        simp at hrun
      | some h =>
        rw [hreg] at hrun
        simp only [] at hrun
        have hnd := List.nodup_cons.1 hnodup
        have hnone2 : ∀ r2 ∈ rest, ∀ s ∈ ((world_after_alloc idx r slot w).log
            (Event.RegisterDynamicBackgroundWorker
              (make_bgw w.BdrWorkerCtl.worker_generation slot r) true)).slots,
            ¬ isApplyFor idx r2 s := by
          intro r2 hr2 s hs1 hP
          rw [log_slots] at hs1
          obtain ⟨j, hj⟩ := List.mem_iff_getElem?.1 hs1
          rw [world_after_alloc_getElem idx r slot w s0 hs0 j] at hj
          by_cases hjs : j = slot
          · rw [if_pos hjs] at hj
            injection hj with hj
            rw [← hj] at hP
            have hname : r.take (NAMEDATALEN - 1) = r2 := hP.2.2
            rw [take_short_name r (hshort r (List.mem_cons_self _ _))] at hname
            rw [hname] at hnd
            exact hnd.1 hr2
          · rw [if_neg hjs] at hj
            exact hnone r2 (List.mem_cons_of_mem _ hr2) s (List.getElem?_mem hj) hP
        obtain ⟨h1, h2⟩ := ih (i + 1) _ (h :: hs) hnd.2
          (fun r2 hr2 => hshort r2 (List.mem_cons_of_mem _ hr2)) hnone2 hrun
        rw [spawnRequests_alloc] at h1
        rw [log_slots, applySlotCount_alloc idx r slot w s0 hs0 hfree] at h2
        simp only [List.length_append, List.length_cons, List.length_nil] at h1 ⊢
        constructor <;> omega

/-- First pass, for distinct names that fit and have no slot yet: a pass that ends
normally issues one spawn request per row, returns one handle per row and
creates one APPLY slot per row. -/
theorem launch_first_pass_short (pick : List BdrWorker → Option Nat) (hpick : PicksFree pick)
    (idx bws : Nat) (dbname : CString) (env : LaunchEnv) (w w1 : World) (hs : List Nat)
    (hnodup : env.rows.Nodup) (hshort : ∀ r ∈ env.rows, r.length < NAMEDATALEN)
    (hnone : ∀ r ∈ env.rows, ∀ s ∈ w.slots, ¬ isApplyFor idx r s)
    (hrun : bdr_launch_apply_workers pick idx bws dbname env w = (w1, Outcome.ok hs)) :
    (spawnRequests w1.trace).length = (spawnRequests w.trace).length + env.rows.length
    ∧ hs.length = env.rows.length
    ∧ applySlotCount w1.slots = applySlotCount w.slots + env.rows.length := by
  obtain ⟨w1l, hloop, hw1⟩ := launch_ok_inv pick idx bws dbname env w w1 hs hrun
  obtain ⟨h1, h2⟩ := launch_loop_first_pass_short pick hpick idx dbname env.register env.rows 0
    (launch_prologue w) w1l [] hs hnodup hshort hnone hloop
  have htot := (launch_requests_total pick idx bws dbname env w w1 hs hrun).2.2
  rw [spawnRequests_prologue] at h1
  have hreq : (spawnRequests w1.trace).length
      = (spawnRequests w.trace).length + env.rows.length := by
    rw [hw1, spawnRequests_epilogue, h1]
  refine ⟨hreq, by omega, ?_⟩
  rw [hw1, applySlotCount_epilogue, h2]
  rfl

/-! ### The flag after a rollback -/

/-- A transaction that calls `bdr_start_perdb_worker` at least once and ends with
an event other than commit leaves the flag set, whatever the backend state it
started from with the flag clear. -/
theorem flag_survives_abort (s : Backend) (k : Nat) (event : XactEvent)
    (h0 : s.xacthook_connection_added = false) (hk : 0 < k)
    (he : event ≠ XactEvent.XACT_EVENT_COMMIT) :
    (CallXactCallbacks event (start_perdb_worker_times k s)).xacthook_connection_added
      = true := by
  unfold CallXactCallbacks
  rw [call_callbacks_not_commit _ _ _ he]
  obtain ⟨n, rfl⟩ : ∃ n, k = n + 1 := ⟨k - 1, by omega⟩
  have hstart : (bdr_start_perdb_worker s).xacthook_connection_added = true := by
    simp [bdr_start_perdb_worker, h0]
  have hkeep : ∀ (m : Nat) (t : Backend), t.xacthook_connection_added = true →
      (start_perdb_worker_times m t).xacthook_connection_added = true := by
    intro m
    induction m with
    | zero => intro t ht; exact ht
    | succ m ih =>
      intro t ht
      have hsame : bdr_start_perdb_worker t = t := by simp [bdr_start_perdb_worker, ht]
      simp only [start_perdb_worker_times]
      rw [hsame]
      exact ih t ht
  simp only [start_perdb_worker_times]
  exact hkeep n _ hstart

/-- C11, evaluated: a backend of the demo registry, flag clear; a first
transaction calls `bdr_start_perdb_worker` once and is rolled back (the callback
receives `XACT_EVENT_ABORT`): the flag is still set afterwards and no latch was
set. A later transaction calls nothing and commits: the callback sets latch 7,
the latch of the per-database worker. -/
theorem flag_still_set_after_abort :
    demo_backend_fresh.xacthook_connection_added = false
    ∧ demo_backend_after_abort.xacthook_connection_added = true
    ∧ setLatchCalls demo_backend_after_abort.w.trace = []
    ∧ setLatchCalls demo_backend_after_later_commit.w.trace = [7] := by
  refine ⟨rfl, ?_, ?_, ?_⟩ <;> decide

/-! ### The assertion on `perdb_worker_idx` -/

/-- C19: the condition of `Assert(perdb_worker_idx != -1)` is true for every value
of the `uint16` variable, the unbound initial value `(uint16)(-1) = 65535`
included: the promoted operand is never negative. The assertion therefore holds
in every run and tells a bound worker from an unbound one in none. -/
theorem assert_perdb_worker_idx_always (perdb_worker_idx : Nat) :
    assert_perdb_worker_idx perdb_worker_idx = true
    ∧ perdb_worker_idx_initial = 65535
    ∧ assert_perdb_worker_idx perdb_worker_idx_initial = true := by
  have h : ∀ n : Nat, assert_perdb_worker_idx n = true := by
    intro n
    unfold assert_perdb_worker_idx
    simp only [decide_eq_true_eq]
    omega
  exact ⟨h _, by decide, h _⟩

/-! ### Lock tracking -/

theorem lockAfter_append (held : Bool) (t u : List Event) :
    lockAfter held (t ++ u) = lockAfter (lockAfter held t) u := by
  simp [lockAfter, List.foldl_append]

theorem unlockedAccesses_append (held : Bool) (t u : List Event) :
    unlockedAccesses held (t ++ u)
      = unlockedAccesses held t ++ unlockedAccesses (lockAfter held t) u := by
  induction t generalizing held with
  | nil => rfl
  | cons e t ih =>
    have hstep : lockAfter held (e :: t) = lockAfter (lockStep held e) t := rfl
    rw [List.cons_append, unlockedAccesses, unlockedAccesses, ih, hstep, List.append_assoc]

@[simp] theorem held_log (w : World) (e : Event) : (w.log e).held = lockStep w.held e := by
  simp [World.held, lockAfter, List.foldl_append]

@[simp] theorem held_writeSlot (w : World) (i : Nat) (f : BdrWorker → BdrWorker) :
    (w.writeSlot i f).held = w.held := by
  simp [World.held, lockAfter, List.foldl_append, lockStep]

@[simp] theorem unlocked_log (w : World) (e : Event) :
    (w.log e).unlocked = w.unlocked ++ (if isSlotAccess e && !w.held then [e] else []) := by
  simp [World.unlocked, World.held, unlockedAccesses_append, unlockedAccesses]

@[simp] theorem unlocked_writeSlot (w : World) (i : Nat) (f : BdrWorker → BdrWorker) :
    (w.writeSlot i f).unlocked
      = w.unlocked ++ (if !w.held then [Event.SlotWrite i] else []) := by
  simp [World.unlocked, World.held, unlockedAccesses_append, unlockedAccesses, isSlotAccess]

/-- Skipping a row is done under the lock and releases it. -/
theorem world_after_skip_lock (dbname r : CString) (w : World) (h : w.held = false) :
    (world_after_skip dbname r w).held = false
    ∧ (world_after_skip dbname r w).unlocked = w.unlocked := by
  simp [world_after_skip, lockStep, isSlotAccess, h]

/-- Allocating and populating a slot is done under the lock and releases it. -/
theorem world_after_alloc_lock (idx : Nat) (r : CString) (slot : Nat) (w : World)
    (h : w.held = false) :
    (world_after_alloc idx r slot w).held = false
    ∧ (world_after_alloc idx r slot w).unlocked = w.unlocked := by
  simp [world_after_alloc, lockStep, isSlotAccess, h]

/-- Locking of the loop: started without the lock, the loop makes no slot access
without the lock, and it ends without the lock unless it ends with the allocator's
error (which is raised inside the critical section). -/
theorem launch_loop_lock (pick : List BdrWorker → Option Nat) (idx : Nat) (dbname : CString)
    (register : Nat → BackgroundWorker → Option Nat) (rows : List CString) (i : Nat)
    (w : World) (hs : List Nat) (h : w.held = false) :
    (launch_loop pick idx dbname register i rows w hs).1.unlocked = w.unlocked
    ∧ ((launch_loop pick idx dbname register i rows w hs).1.held = false
      ∨ (launch_loop pick idx dbname register i rows w hs).2
          = Outcome.error "No space in shmem for new worker") := by
  induction rows generalizing i w hs with
  | nil => exact ⟨rfl, Or.inl h⟩
  | cons r rest ih =>
    cases hf : find_apply_loop idx r w.slots 0 with
    | some k =>
      rw [launch_loop_skip pick idx dbname register i r _ w hs k hf]
      obtain ⟨h1, h2⟩ := world_after_skip_lock dbname r w h
      have h3 := ih (i + 1) (world_after_skip dbname r w) hs h1
      rw [h2] at h3
      exact h3
    | none =>
      cases hp : pick w.slots with
      | none =>
        rw [launch_loop_full pick idx dbname register i r _ w hs hf hp]
        refine ⟨?_, Or.inr rfl⟩
        simp [lockStep, isSlotAccess, h]
      | some slot =>
        obtain ⟨h1, h2⟩ := world_after_alloc_lock idx r slot w h
        rw [launch_loop_alloc pick idx dbname register i r _ w hs slot hf hp]
        cases hreg : register i (make_bgw w.BdrWorkerCtl.worker_generation slot r) with
        | none =>
          refine ⟨?_, Or.inl ?_⟩
          · simp [isSlotAccess, h1, h2]
          · simp [lockStep, h1]
        | some hd =>
          simp only []
          have h3 := ih (i + 1) ((world_after_alloc idx r slot w).log
            (Event.RegisterDynamicBackgroundWorker
              (make_bgw w.BdrWorkerCtl.worker_generation slot r) true)) (hd :: hs)
            (by simp [lockStep, h1])
          rw [unlocked_log, h2] at h3
          simpa [isSlotAccess] using h3

/-- A loop that ends with the spawn error ran normally over the rows before some
row `k`, found no slot for row `k`, allocated and populated one, released the
lock, and had its spawn request for row `k` refused. -/
theorem launch_loop_register_failed (pick : List BdrWorker → Option Nat) (idx : Nat)
    (dbname : CString) (register : Nat → BackgroundWorker → Option Nat) (rows : List CString)
    (i : Nat) (w w2 : World) (hs : List Nat)
    (hrun : launch_loop pick idx dbname register i rows w hs
      = (w2, Outcome.error "bdr: Failed to register background worker")) :
    ∃ k r slot w1 hs1, rows[k]? = some r
      ∧ launch_loop pick idx dbname register i (rows.take k) w hs = (w1, Outcome.ok hs1)
      ∧ (∀ s ∈ w1.slots, ¬ isApplyFor idx r s)
      ∧ pick w1.slots = some slot
      ∧ register (i + k) (make_bgw w1.BdrWorkerCtl.worker_generation slot r) = none
      ∧ w2 = ((world_after_alloc idx r slot w1).log
          (Event.RegisterDynamicBackgroundWorker
            (make_bgw w1.BdrWorkerCtl.worker_generation slot r) false)).log
          (Event.ereport_ERROR "bdr: Failed to register background worker") := by
  induction rows generalizing i w hs with
  | nil => simp [launch_loop] at hrun
  | cons r rest ih =>
    cases hf : find_apply_loop idx r w.slots 0 with
    | some j =>
      rw [launch_loop_skip pick idx dbname register i r _ w hs j hf] at hrun
      obtain ⟨k, r2, slot, w1, hs1, hk, hpre, hno, hp, hreg, hw2⟩ := ih (i + 1) _ hs hrun
      refine ⟨k + 1, r2, slot, w1, hs1, by simpa using hk, ?_, hno, hp, ?_, hw2⟩
      · rw [List.take_succ_cons, launch_loop_skip pick idx dbname register i r _ w hs j hf]
        exact hpre
      · rw [show i + (k + 1) = i + 1 + k by omega]
        exact hreg
    | none =>
      cases hp : pick w.slots with
      | none =>
        rw [launch_loop_full pick idx dbname register i r _ w hs hf hp] at hrun
        simp only [Prod.mk.injEq, Outcome.error.injEq] at hrun
        exact absurd hrun.2 (by decide)
      | some slot =>
        rw [launch_loop_alloc pick idx dbname register i r _ w hs slot hf hp] at hrun
        cases hreg : register i (make_bgw w.BdrWorkerCtl.worker_generation slot r) with
        | none =>
          rw [hreg] at hrun
          simp only [Prod.mk.injEq] at hrun
          exact ⟨0, r, slot, w, hs, by simp, by simp [launch_loop],
            (find_apply_loop_none idx r w.slots 0).1 hf, hp, by simpa using hreg,
            hrun.1.symm⟩
        | some hd =>
          rw [hreg] at hrun
          simp only [] at hrun
          obtain ⟨k, r2, slot2, w1, hs1, hk, hpre, hno, hp2, hreg2, hw2⟩ :=
            ih (i + 1) _ (hd :: hs) hrun
          refine ⟨k + 1, r2, slot2, w1, hs1, by simpa using hk, ?_, hno, hp2, ?_, hw2⟩
          · rw [List.take_succ_cons,
              launch_loop_alloc pick idx dbname register i r _ w hs slot hf hp, hreg]
            exact hpre
          · rw [show i + (k + 1) = i + 1 + k by omega]
            exact hreg2

/-- A pass that ends with the spawn error got its rows from the query and ended
in its loop. -/
theorem launch_register_failed_inv (pick : List BdrWorker → Option Nat) (idx bws : Nat)
    (dbname : CString) (env : LaunchEnv) (w w2 : World)
    (hrun : bdr_launch_apply_workers pick idx bws dbname env w
      = (w2, Outcome.error "bdr: Failed to register background worker")) :
    launch_loop pick idx dbname env.register 0 env.rows (launch_prologue w) []
      = (w2, Outcome.error "bdr: Failed to register background worker") := by
  unfold bdr_launch_apply_workers at hrun
  simp only [] at hrun
  split at hrun
  · simp only [Prod.mk.injEq, Outcome.error.injEq] at hrun
    exact absurd hrun.2 (by decide)
  · split at hrun
    · simp only [Prod.mk.injEq, Outcome.error.injEq] at hrun
      exact absurd hrun.2 (by decide)
    · split at hrun
      · rename_i w1 msg heq
        simp only [Prod.mk.injEq, Outcome.error.injEq] at hrun
        rw [heq, hrun.1, hrun.2]
      · simp at hrun

/-! ### Spawn failure -/

/-- C14: if `RegisterDynamicBackgroundWorker` fails at some directory row `k`,
the pass (entered without the lock, by a worker whose `bdr_worker_slot` points to
a PERDB slot, with an allocator that hands out free entries only) ends with the
error, the lock released; the refused request for row `k` is the last spawn
request (none is issued for a later row); the slot allocated for row `k` keeps
its populated content and every APPLY slot present when row `k` was reached
(allocated earlier in the pass or before it) is unchanged; the PERDB slot, its
`nnodes` included, is unchanged; and neither `bdr_locks_set_nnodes` nor
`bdr_sequencer_set_nnodes` is called. -/
theorem spawn_failure_aborts_pass (pick : List BdrWorker → Option Nat)
    (hpick : PicksFree pick) (idx bws : Nat) (dbname : CString) (env : LaunchEnv)
    (w w2 : World) (sb : BdrWorker) (hheld : w.held = false)
    (hown : w.slots[bws]? = some sb ∧ sb.worker_type = BdrWorkerType.BDR_WORKER_PERDB)
    (hrun : bdr_launch_apply_workers pick idx bws dbname env w
      = (w2, Outcome.error "bdr: Failed to register background worker")) :
    w2.held = false
    ∧ (∃ k r slot s0, env.rows[k]? = some r
        ∧ env.register k (make_bgw w.BdrWorkerCtl.worker_generation slot r) = none
        ∧ spawnRequests w2.trace
            = spawnRequests (world_before_row pick idx dbname env w k).trace
              ++ [(make_bgw w.BdrWorkerCtl.worker_generation slot r, false)]
        ∧ (world_before_row pick idx dbname env w k).slots[slot]? = some s0
        ∧ s0.worker_type = BdrWorkerType.BDR_WORKER_EMPTY_SLOT
        ∧ w2.slots[slot]?
            = some (fresh_apply_slot w.BdrWorkerCtl.worker_generation idx r s0)
        ∧ (∀ (j : Nat) (s : BdrWorker),
            (world_before_row pick idx dbname env w k).slots[j]? = some s →
            s.worker_type = BdrWorkerType.BDR_WORKER_APPLY → w2.slots[j]? = some s))
    ∧ w2.slots[bws]? = some sb
    ∧ locksSetNnodesCalls w2.trace = locksSetNnodesCalls w.trace
    ∧ sequencerSetNnodesCalls w2.trace = sequencerSetNnodesCalls w.trace := by
  have hloop := launch_register_failed_inv pick idx bws dbname env w w2 hrun
  have hw2 : w2 = (launch_loop pick idx dbname env.register 0 env.rows
      (launch_prologue w) []).1 := by rw [hloop]
  have hheld0 : (launch_prologue w).held = false := by
    simp [launch_prologue, lockStep, hheld]
  refine ⟨?_, ?_, ?_, ?_⟩
  · rcases (launch_loop_lock pick idx dbname env.register env.rows 0 (launch_prologue w) []
      hheld0).2 with h | h
    · rw [hw2]; exact h
    · rw [hloop] at h
      simp only [Outcome.error.injEq] at h
      exact absurd h (by decide)
  · obtain ⟨k, r, slot, w1, hs1, hk, hpre, _, hp, hreg, hw2e⟩ :=
      launch_loop_register_failed pick idx dbname env.register env.rows 0
        (launch_prologue w) w2 [] hloop
    have hwb : world_before_row pick idx dbname env w k = w1 := by
      unfold world_before_row
      rw [hpre]
    have hgen : w1.BdrWorkerCtl.worker_generation = w.BdrWorkerCtl.worker_generation := by
      rw [← hwb]
      exact (launch_loop_generation pick idx dbname env.register (env.rows.take k) 0
        (launch_prologue w) []).1
    obtain ⟨s0, hs0, hempty⟩ := hpick w1.slots slot hp
    rw [hgen, Nat.zero_add] at hreg
    rw [hgen] at hw2e
    refine ⟨k, r, slot, s0, hk, hreg, ?_, by rw [hwb]; exact hs0, hempty, ?_, ?_⟩
    · rw [hw2e, hwb, log_trace, spawnRequests_append, spawnRequests_alloc,
        List.append_assoc]
      rfl
    · rw [hw2e]
      simp only [log_slots]
      rw [world_after_alloc_getElem idx r slot w1 s0 hs0 slot, if_pos rfl, hgen]
    · intro j s hj htype
      rw [hwb] at hj
      have hne : j ≠ slot := by
        intro hjs
        rw [hjs, hs0] at hj
        injection hj with hj
        rw [hj, htype] at hempty
        exact BdrWorkerType.noConfusion hempty
      rw [hw2e]
      simp only [log_slots]
      rw [world_after_alloc_getElem idx r slot w1 s0 hs0 j, if_neg hne]
      exact hj
  · rw [hw2]
    exact launch_loop_frame pick hpick idx dbname env.register env.rows 0
      (launch_prologue w) [] bws sb hown.1 (by rw [hown.2]; decide)
  · obtain ⟨t, ht, hall⟩ := launch_loop_trace pick idx dbname env.register env.rows 0
      (launch_prologue w) []
    rw [← hw2] at ht
    obtain ⟨hlocks, hseq⟩ := loop_events_no_nnodes t hall
    constructor
    · rw [ht, launch_prologue_trace]
      simp only [locksSetNnodesCalls_append, hlocks]
      simp [locksSetNnodesCalls]
    · rw [ht, launch_prologue_trace]
      simp only [sequencerSetNnodesCalls_append, hseq]
      simp [sequencerSetNnodesCalls]

/-- Witness of C14: in the demo registry, the pass over `[[65], [66]]` whose
request for row 1 is refused ends with the error and the lock released, with two
spawn requests issued and slot 0 unchanged. -/
theorem spawn_failure_aborts_pass_witness :
    PicksFree first_free
    ∧ demo_world.held = false
    ∧ demo_world.slots[0]? = some (perdb_slot [100] 7)
    ∧ bdr_launch_apply_workers first_free 0 0 [100] (demo_fail_env [[65], [66]] 1) demo_world
        = (failed_pass.1, Outcome.error "bdr: Failed to register background worker")
    ∧ failed_pass.1.held = false
    ∧ failed_pass.1.slots[0]? = some (perdb_slot [100] 7)
    ∧ (spawnRequests failed_pass.1.trace).map (fun p => (p.1.bgw_name, p.2))
        = [([65], true), ([66], false)] :=
  have h := spawn_failure_aborts_pass first_free first_free_picks_free 0 0 [100]
    (demo_fail_env [[65], [66]] 1) demo_world failed_pass.1 (perdb_slot [100] 7) rfl
    ⟨rfl, rfl⟩ rfl
  ⟨first_free_picks_free, rfl, rfl, rfl, h.1, h.2.2.1, by decide⟩

/-- C13, evaluated: in the demo registry the pass over `[[65], [66]]` ends with the
spawn error because the request for row `[66]` is refused; the slot allocated for
`[66]` (slot 2) stays. The next pass over the same directory, with a spawner that
accepts everything, finds that slot, skips the row and ends normally with no
handle and no new spawn request: the failed row is not retried. -/
theorem failed_row_not_retried :
    failed_pass.2 = Outcome.error "bdr: Failed to register background worker"
    ∧ (spawnRequests failed_pass.1.trace).map (fun p => (p.1.bgw_name, p.2))
        = [([65], true), ([66], false)]
    ∧ (failed_pass.1.slots[2]?).map
        (fun s => (s.worker_type, s.apply_worker.perdb_worker_idx,
          s.apply_worker.conn_local_name))
        = some (BdrWorkerType.BDR_WORKER_APPLY, 0, [66])
    ∧ retry_pass.2 = Outcome.ok []
    ∧ (spawnRequests retry_pass.1.trace).map (fun p => (p.1.bgw_name, p.2))
        = [([65], true), ([66], false)] := by
  refine ⟨?_, ?_, ?_, ?_, ?_⟩ <;> decide

/-- After a pass that ended with the spawn error for a row whose name is shorter
than `NAMEDATALEN` bytes, the row has an APPLY slot of the worker; so while that
slot stays, the lookup of a later pass finds it and the row is skipped. -/
theorem failed_row_has_slot (pick : List BdrWorker → Option Nat) (hpick : PicksFree pick)
    (idx bws : Nat) (dbname : CString) (env : LaunchEnv) (w w2 : World)
    (hrun : bdr_launch_apply_workers pick idx bws dbname env w
      = (w2, Outcome.error "bdr: Failed to register background worker")) :
    ∃ k r, env.rows[k]? = some r
      ∧ (∃ slot, env.register k (make_bgw w.BdrWorkerCtl.worker_generation slot r) = none)
      ∧ (r.length < NAMEDATALEN → ∃ s ∈ w2.slots, isApplyFor idx r s) := by
  have hloop := launch_register_failed_inv pick idx bws dbname env w w2 hrun
  obtain ⟨k, r, slot, w1, hs1, hk, hpre, _, hp, hreg, hw2e⟩ :=
    launch_loop_register_failed pick idx dbname env.register env.rows 0
      (launch_prologue w) w2 [] hloop
  have hgen : w1.BdrWorkerCtl.worker_generation = w.BdrWorkerCtl.worker_generation := by
    have h := (launch_loop_generation pick idx dbname env.register (env.rows.take k) 0
      (launch_prologue w) []).1
    rw [hpre] at h
    exact h
  obtain ⟨s0, hs0, _⟩ := hpick w1.slots slot hp
  rw [hgen, Nat.zero_add] at hreg
  refine ⟨k, r, hk, ⟨slot, hreg⟩, ?_⟩
  intro hshort
  refine ⟨fresh_apply_slot w1.BdrWorkerCtl.worker_generation idx r s0, ?_, ?_⟩
  · apply List.getElem?_mem (n := slot)
    rw [hw2e]
    simp only [log_slots]
    rw [world_after_alloc_getElem idx r slot w1 s0 hs0 slot, if_pos rfl]
  · have h := fresh_apply_slot_isApplyFor w1.BdrWorkerCtl.worker_generation idx r s0
    rw [take_short_name r hshort] at h
    exact h

/-! ### Population of a new slot -/

/-- C18: whenever the loop body of `bdr_launch_apply_workers` processes a row `n`
that has no matching slot and the allocator hands out entry `slot`, the body is:
allocate and populate under the lock, release the lock, then issue the spawn
request. When the lock is released the slot is an APPLY slot whose
`conn_local_name` is `n` cut to at most `NAMEDATALEN - 1` bytes, whose
`perdb_worker_idx` is the caller's, whose `replay_stop_lsn` is
`InvalidXLogRecPtr` and whose `forward_changesets` is false; both writes precede
the release in the trace, and the request, issued after it, carries the token of
that slot (which unpacks to the live generation and `slot`). -/
theorem new_slot_populated_before_spawn (pick : List BdrWorker → Option Nat) (idx : Nat)
    (dbname : CString) (register : Nat → BackgroundWorker → Option Nat) (i : Nat)
    (n : CString) (rest : List CString) (w : World) (hs : List Nat) (slot : Nat)
    (s0 : BdrWorker) (hno : ∀ s ∈ w.slots, ¬ isApplyFor idx n s)
    (hp : pick w.slots = some slot) (h0 : w.slots[slot]? = some s0) :
    launch_loop pick idx dbname register i (n :: rest) w hs
      = (match register i (make_bgw w.BdrWorkerCtl.worker_generation slot n) with
        | none =>
          (((world_after_alloc idx n slot w).log
              (Event.RegisterDynamicBackgroundWorker
                (make_bgw w.BdrWorkerCtl.worker_generation slot n) false)).log
              (Event.ereport_ERROR "bdr: Failed to register background worker"),
            Outcome.error "bdr: Failed to register background worker")
        | some h =>
          launch_loop pick idx dbname register (i + 1) rest
            ((world_after_alloc idx n slot w).log
              (Event.RegisterDynamicBackgroundWorker
                (make_bgw w.BdrWorkerCtl.worker_generation slot n) true))
            (h :: hs))
    ∧ (world_after_alloc idx n slot w).trace
        = w.trace ++ [Event.LWLockAcquire LWLockMode.LW_EXCLUSIVE, Event.SlotScan,
            Event.SlotScan, Event.SlotWrite slot, Event.SlotWrite slot, Event.LWLockRelease]
    ∧ (∃ s, (world_after_alloc idx n slot w).slots[slot]? = some s
        ∧ s.worker_type = BdrWorkerType.BDR_WORKER_APPLY
        ∧ s.apply_worker.conn_local_name = n.take (NAMEDATALEN - 1)
        ∧ s.apply_worker.conn_local_name.length ≤ NAMEDATALEN - 1
        ∧ s.apply_worker.perdb_worker_idx = idx
        ∧ s.apply_worker.replay_stop_lsn = InvalidXLogRecPtr
        ∧ s.apply_worker.forward_changesets = false)
    ∧ (make_bgw w.BdrWorkerCtl.worker_generation slot n).bgw_main_arg
        = make_main_arg w.BdrWorkerCtl.worker_generation slot
    ∧ (w.BdrWorkerCtl.worker_generation < 2 ^ 16 → slot ≤ 65535 →
        arg_idx (main_worker_arg
          (make_bgw w.BdrWorkerCtl.worker_generation slot n).bgw_main_arg) = slot
        ∧ arg_generation (main_worker_arg
          (make_bgw w.BdrWorkerCtl.worker_generation slot n).bgw_main_arg)
            = w.BdrWorkerCtl.worker_generation) := by
  have hf := (find_apply_loop_none idx n w.slots 0).2 hno
  refine ⟨launch_loop_alloc pick idx dbname register i n rest w hs slot hf hp,
    world_after_alloc_trace idx n slot w, ?_, rfl, ?_⟩
  · refine ⟨fresh_apply_slot w.BdrWorkerCtl.worker_generation idx n s0, ?_, rfl, rfl, ?_,
      rfl, rfl, rfl⟩
    · rw [world_after_alloc_getElem idx n slot w s0 h0 slot, if_pos rfl]
    · show (n.take (NAMEDATALEN - 1)).length ≤ NAMEDATALEN - 1
      rw [List.length_take]
      exact Nat.min_le_left _ _
  · intro hg hslot
    have hs1 : slot < 2 ^ 16 := by omega
    show arg_idx (main_worker_arg (make_main_arg w.BdrWorkerCtl.worker_generation slot)) = slot
      ∧ arg_generation (main_worker_arg (make_main_arg w.BdrWorkerCtl.worker_generation slot))
        = w.BdrWorkerCtl.worker_generation
    rw [main_worker_arg_make _ slot hg hs1]
    unfold arg_generation arg_idx to_uint16
    constructor
    · have h : (0x0000FFFF : Nat) = 2 ^ 16 - 1 := by norm_num
      rw [h, Nat.and_pow_two_sub_one_eq_mod]
      omega
    · rw [Nat.shiftRight_eq_div_pow]
      omega

/-- Witness of C18: in the demo registry row `[65]` has no slot and the allocator
hands out slot 1; the request carries the token 196609 of generation 3 and
slot 1. -/
theorem new_slot_populated_before_spawn_witness :
    (∀ s ∈ demo_world.slots, ¬ isApplyFor 0 [65] s)
    ∧ first_free demo_world.slots = some 1
    ∧ demo_world.slots[1]? = some empty_slot
    ∧ (make_bgw demo_world.BdrWorkerCtl.worker_generation 1 [65]).bgw_main_arg
        = make_main_arg demo_world.BdrWorkerCtl.worker_generation 1
    ∧ (∃ s, (world_after_alloc 0 [65] 1 demo_world).slots[1]? = some s
        ∧ s.worker_type = BdrWorkerType.BDR_WORKER_APPLY
        ∧ s.apply_worker.conn_local_name = ([65] : CString).take (NAMEDATALEN - 1)
        ∧ s.apply_worker.conn_local_name.length ≤ NAMEDATALEN - 1
        ∧ s.apply_worker.perdb_worker_idx = 0
        ∧ s.apply_worker.replay_stop_lsn = InvalidXLogRecPtr
        ∧ s.apply_worker.forward_changesets = false) :=
  have h := new_slot_populated_before_spawn first_free 0 [100]
    (demo_launch_env [[65], [66]]).register 0 [65] [[66]] demo_world [] 1 empty_slot
    (by decide) (by decide) rfl
  ⟨by decide, by decide, rfl, h.2.2.2.1, h.2.2.1⟩

/-! ### One iteration of the main loop -/

@[simp] theorem passesStarted_append (t u : List Event) :
    passesStarted (t ++ u) = passesStarted t + passesStarted u := by
  simp [passesStarted, List.countP_append]

@[simp] theorem passesStarted_log_other (w : World) (e : Event)
    (h : e ≠ Event.call "StartTransactionCommand") :
    passesStarted (w.log e).trace = passesStarted w.trace := by
  rw [log_trace, passesStarted_append]
  simp [passesStarted, h]

/-- Loop-body actions start no pass. -/
theorem loop_events_no_pass (t : List Event) (h : ∀ e ∈ t, isLoopBodyEvent e = true) :
    passesStarted t = 0 := by
  induction t with
  | nil => rfl
  | cons e t ih =>
    have he := h e (List.mem_cons_self _ _)
    have ht := ih (fun x hx => h x (List.mem_cons_of_mem _ hx))
    have hne : e ≠ Event.call "StartTransactionCommand" := by
      intro heq
      rw [heq] at he
      simp [isLoopBodyEvent] at he
    show List.countP _ (e :: t) = 0
    rw [List.countP_cons]
    unfold passesStarted at ht
    rw [ht]
    simp [hne]

/-- Every call of `bdr_launch_apply_workers` starts exactly one pass, however it
ends. -/
theorem launch_starts_one_pass (pick : List BdrWorker → Option Nat) (idx bws : Nat)
    (dbname : CString) (env : LaunchEnv) (w : World) :
    passesStarted (bdr_launch_apply_workers pick idx bws dbname env w).1.trace
      = passesStarted w.trace + 1 := by
  have hpro : passesStarted (launch_prologue w).trace = passesStarted w.trace + 1 := by
    rw [launch_prologue_trace, passesStarted_append]
    rfl
  obtain ⟨t, ht, hall⟩ := launch_loop_trace pick idx dbname env.register env.rows 0
    (launch_prologue w) []
  have hloop : passesStarted (launch_loop pick idx dbname env.register 0 env.rows
      (launch_prologue w) []).1.trace = passesStarted w.trace + 1 := by
    rw [ht, passesStarted_append, loop_events_no_pass t hall, hpro]
  unfold bdr_launch_apply_workers
  simp only []
  split
  · rw [passesStarted_log_other _ _ (by simp), hpro]
  · split
    · rw [passesStarted_log_other _ _ (by simp), hpro]
    · split
      · rename_i w2 msg heq
        rw [heq] at hloop
        exact hloop
      · rename_i w2 hs2 heq
        rw [heq] at hloop
        rw [launch_epilogue_trace, passesStarted_append, hloop]
        rfl

/-- One iteration of the main loop, in terms of the worlds it goes through. -/
theorem perdb_main_loop_cons (pick : List BdrWorker → Option Nat) (b : Bool) (latch idx : Nat)
    (it : LoopEnv) (rest : List LoopEnv) (w : World) (hterm : it.got_SIGTERM = false) :
    perdb_main_loop pick b latch idx (it :: rest) w =
      if iteration_waits b it then
        if it.rc &&& WL_POSTMASTER_DEATH ≠ 0 then
          ((iteration_waited b latch it w).log (Event.proc_exit 1), some (Exit.exited 1))
        else if it.rc &&& WL_LATCH_SET ≠ 0 then
          match bdr_launch_apply_workers pick idx idx
              (slot_dbname (iteration_waited b latch it w) idx) it.launch
              ((iteration_waited b latch it w).log (Event.SlotRead idx)) with
          | (w5, Outcome.error msg) => (w5, some (Exit.error msg))
          | (w5, Outcome.ok _) => perdb_main_loop pick b latch idx rest w5
        else perdb_main_loop pick b latch idx rest (iteration_waited b latch it w)
      else perdb_main_loop pick b latch idx rest (iteration_prewait b it w) := by
  rw [perdb_main_loop]
  simp only [hterm, Bool.false_eq_true, if_false]
  rfl

/-- The steps of an iteration before the launch pass touch no shared memory,
issue no spawn request and start no pass. -/
theorem iteration_prewait_same (b : Bool) (it : LoopEnv) (w : World) :
    (iteration_prewait b it w).BdrWorkerCtl = w.BdrWorkerCtl
    ∧ spawnRequests (iteration_prewait b it w).trace = spawnRequests w.trace
    ∧ passesStarted (iteration_prewait b it w).trace = passesStarted w.trace := by
  unfold iteration_prewait
  cases b <;> cases it.got_SIGHUP <;>
    simp [spawnRequests, passesStarted, List.countP_append, List.filterMap_append]

/-- Waiting on the latch and resetting it touch no shared memory, issue no spawn
request and start no pass. -/
theorem iteration_waited_same (b : Bool) (latch : Nat) (it : LoopEnv) (w : World) :
    (iteration_waited b latch it w).BdrWorkerCtl = w.BdrWorkerCtl
    ∧ spawnRequests (iteration_waited b latch it w).trace = spawnRequests w.trace
    ∧ passesStarted (iteration_waited b latch it w).trace = passesStarted w.trace := by
  obtain ⟨h1, h2, h3⟩ := iteration_prewait_same b it w
  unfold iteration_waited
  refine ⟨h1, ?_, ?_⟩
  · rw [log_trace, log_trace, spawnRequests_append, spawnRequests_append, h2]
    simp [spawnRequests]
  · rw [passesStarted_log_other _ _ (by simp), passesStarted_log_other _ _ (by simp), h3]

/-- C15: in one iteration of the main loop (shutdown flag clear) a launch pass is
run exactly when the iteration waits on its latch (in a `BUILDING_BDR` build:
neither `bdr_sequencer_start_elections` nor `bdr_sequencer_vote` reported work)
and the wait result has `WL_LATCH_SET` without `WL_POSTMASTER_DEATH`: the number
of passes started grows by one in that case and by zero otherwise. In particular
an iteration that waits and is woken by the 180000 ms timeout only runs no pass,
issues no spawn request, leaves shared memory unchanged and goes on with the next
iteration. -/
theorem reconciliation_iff_latch_set (pick : List BdrWorker → Option Nat) (b : Bool)
    (latch idx : Nat) (it : LoopEnv) (w : World) (hterm : it.got_SIGTERM = false) :
    passesStarted (perdb_main_loop pick b latch idx [it] w).1.trace
      = passesStarted w.trace + (if iteration_relaunches b it then 1 else 0)
    ∧ (iteration_waits b it = true
        ↔ (b = true → it.start_elections = false ∧ it.vote = false))
    ∧ (iteration_waits b it = true → it.rc = WL_TIMEOUT →
        ∀ rest, perdb_main_loop pick b latch idx (it :: rest) w
          = perdb_main_loop pick b latch idx rest (iteration_waited b latch it w))
    ∧ (iteration_waited b latch it w).BdrWorkerCtl = w.BdrWorkerCtl
    ∧ spawnRequests (iteration_waited b latch it w).trace = spawnRequests w.trace
    ∧ passesStarted (iteration_waited b latch it w).trace = passesStarted w.trace
    ∧ (iteration_waited b latch it w).trace
        = (iteration_prewait b it w).trace
          ++ [Event.WaitLatch latch 180000, Event.ResetLatch latch] := by
  obtain ⟨hw1, hw2, hw3⟩ := iteration_waited_same b latch it w
  obtain ⟨_, _, hp3⟩ := iteration_prewait_same b it w
  refine ⟨?_, ?_, ?_, hw1, hw2, hw3, ?_⟩
  · rw [perdb_main_loop_cons pick b latch idx it [] w hterm]
    unfold iteration_relaunches
    by_cases hwait : iteration_waits b it = true
    · rw [if_pos hwait]
      by_cases hpm : it.rc &&& WL_POSTMASTER_DEATH = 0
      · rw [if_neg (by simpa using hpm)]
        by_cases hl : it.rc &&& WL_LATCH_SET = 0
        · rw [if_neg (by simpa using hl)]
          simp [perdb_main_loop, hw3, hwait, hpm, hl]
        · rw [if_pos hl]
          have hcount := launch_starts_one_pass pick idx idx
            (slot_dbname (iteration_waited b latch it w) idx) it.launch
            ((iteration_waited b latch it w).log (Event.SlotRead idx))
          rw [passesStarted_log_other _ _ (by simp), hw3] at hcount
          have hif : (iteration_waits b it && decide (it.rc &&& WL_POSTMASTER_DEATH = 0)
              && decide (it.rc &&& WL_LATCH_SET ≠ 0)) = true := by
            simp [hwait, hpm, hl]
          rw [if_pos hif]
          cases hres : bdr_launch_apply_workers pick idx idx
              (slot_dbname (iteration_waited b latch it w) idx) it.launch
              ((iteration_waited b latch it w).log (Event.SlotRead idx)) with
          | mk w5 o =>
            rw [hres] at hcount
            cases o with
            | ok hs => simpa [perdb_main_loop] using hcount
            | error msg => simpa using hcount
      · rw [if_pos hpm]
        have hif : ¬ ((iteration_waits b it && decide (it.rc &&& WL_POSTMASTER_DEATH = 0)
            && decide (it.rc &&& WL_LATCH_SET ≠ 0)) = true) := by
          simp [hpm]
        rw [if_neg hif, passesStarted_log_other _ _ (by simp), hw3]
        rfl
    · rw [if_neg hwait]
      have hif : ¬ ((iteration_waits b it && decide (it.rc &&& WL_POSTMASTER_DEATH = 0)
          && decide (it.rc &&& WL_LATCH_SET ≠ 0)) = true) := by
        simp [hwait]
      rw [if_neg hif]
      simp [perdb_main_loop, hp3]
  · unfold iteration_waits
    cases b <;> simp
  · intro hwait hrc rest
    rw [perdb_main_loop_cons pick b latch idx it rest w hterm, if_pos hwait, hrc]
    have h1 : ¬ (WL_TIMEOUT &&& WL_POSTMASTER_DEATH ≠ 0) := by decide
    have h2 : ¬ (WL_TIMEOUT &&& WL_LATCH_SET ≠ 0) := by decide
    rw [if_neg h1, if_neg h2]
  · simp [iteration_waited]

/-- Witness of C15: the worker of slot 0 of the demo registry, woken by the
timeout only: no pass is started and the loop is back at its test. -/
theorem reconciliation_iff_latch_set_witness :
    demo_timeout_iteration.got_SIGTERM = false
    ∧ passesStarted (perdb_main_loop first_free true 7 0 [demo_timeout_iteration]
        demo_world).1.trace = passesStarted demo_world.trace + 0
    ∧ (perdb_main_loop first_free true 7 0 [demo_timeout_iteration] demo_world).2
        = some Exit.running :=
  ⟨rfl, (reconciliation_iff_latch_set first_free true 7 0 demo_timeout_iteration demo_world
    rfl).1, by decide⟩

/-! ### The run of the worker -/

/-- A run with a current-generation token, in terms of the worlds it goes
through. -/
theorem main_current (pick : List BdrWorker → Option Nat) (env : MainEnv) (main_arg : Nat)
    (w : World)
    (hcur : arg_generation (main_worker_arg main_arg) = w.BdrWorkerCtl.worker_generation) :
    bdr_perdb_worker_main pick env main_arg w =
      match bdr_launch_apply_workers pick (arg_idx (main_worker_arg main_arg))
          (arg_idx (main_worker_arg main_arg))
          (slot_dbname (main_startup (arg_idx (main_worker_arg main_arg)) w)
            (arg_idx (main_worker_arg main_arg))) env.initial
          (main_startup (arg_idx (main_worker_arg main_arg)) w) with
      | (w4, Outcome.error msg) =>
        { w := w4, perdb_worker_idx := arg_idx (main_worker_arg main_arg),
          bdr_worker_slot := some (arg_idx (main_worker_arg main_arg)),
          exit := Exit.error msg }
      | (w4, Outcome.ok _) =>
        match perdb_main_loop pick env.BUILDING_BDR env.MyProcLatch
            (arg_idx (main_worker_arg main_arg)) env.iterations
            (main_publish env (arg_idx (main_worker_arg main_arg)) w4) with
        | (w10, some e) =>
          { w := w10, perdb_worker_idx := arg_idx (main_worker_arg main_arg),
            bdr_worker_slot := some (arg_idx (main_worker_arg main_arg)), exit := e }
        | (w10, none) =>
          { w := main_shutdown (arg_idx (main_worker_arg main_arg)) w10,
            perdb_worker_idx := arg_idx (main_worker_arg main_arg),
            bdr_worker_slot := some (arg_idx (main_worker_arg main_arg)),
            exit := Exit.exited 0 } := by
  unfold bdr_perdb_worker_main
  simp only [hcur, ne_eq, not_true_eq_false, if_false]
  rfl

/-! ### Locking discipline -/

/-- The commit hook makes every slot access under the lock and releases it. -/
theorem callback_lock (event : XactEvent) (s : Backend) (h : s.w.held = false) :
    (bdr_perdb_xact_callback event s).w.held = false
    ∧ (bdr_perdb_xact_callback event s).w.unlocked = s.w.unlocked := by
  by_cases he : event = XactEvent.XACT_EVENT_COMMIT
  · subst he
    by_cases hflag : s.xacthook_connection_added = true
    · cases hf : find_perdb_loop s.database_name s.w.slots 0 with
      | none =>
        rw [callback_commit_missing s hflag hf]
        simp [lockStep, isSlotAccess, h]
      | some i =>
        rw [callback_commit_found s i hflag hf]
        split <;> simp [lockStep, isSlotAccess, h]
    · have hclear : s.xacthook_connection_added = false := by simpa using hflag
      rw [callback_flag_clear _ s hclear]
      exact ⟨h, rfl⟩
  · rw [callback_not_commit _ s he]
    exact ⟨h, rfl⟩

/-- The prologue touches neither the lock nor the slots. -/
theorem launch_prologue_lock (w : World) :
    (launch_prologue w).held = w.held ∧ (launch_prologue w).unlocked = w.unlocked := by
  simp [launch_prologue, lockStep, isSlotAccess]

/-- The epilogue, entered without the lock, writes the node count without the
lock. -/
theorem launch_epilogue_lock (bws n : Nat) (w : World) (h : w.held = false) :
    (launch_epilogue bws n w).held = false
    ∧ (launch_epilogue bws n w).unlocked = w.unlocked ++ [Event.SlotWrite bws] := by
  simp [launch_epilogue, lockStep, isSlotAccess, h]

/-- Locking of a pass entered without the lock: the only slot access made without
the lock is the node-count write of a pass that ends normally (line 353), and
such a pass ends without the lock. -/
theorem launch_lock (pick : List BdrWorker → Option Nat) (idx bws : Nat) (dbname : CString)
    (env : LaunchEnv) (w : World) (h : w.held = false) :
    (bdr_launch_apply_workers pick idx bws dbname env w).1.unlocked
      = w.unlocked ++ (match (bdr_launch_apply_workers pick idx bws dbname env w).2 with
          | Outcome.ok _ => [Event.SlotWrite bws]
          | Outcome.error _ => [])
    ∧ (∀ hs, (bdr_launch_apply_workers pick idx bws dbname env w).2 = Outcome.ok hs →
        (bdr_launch_apply_workers pick idx bws dbname env w).1.held = false) := by
  obtain ⟨hp1, hp2⟩ := launch_prologue_lock w
  rw [h] at hp1
  obtain ⟨hl1, hl2⟩ := launch_loop_lock pick idx dbname env.register env.rows 0
    (launch_prologue w) [] hp1
  rw [hp2] at hl1
  unfold bdr_launch_apply_workers
  simp only []
  split
  · simp [isSlotAccess, hp2]
  · split
    · simp [isSlotAccess, hp2]
    · split
      · rename_i w2 msg heq
        rw [heq] at hl1
        simp [hl1]
      · rename_i w2 hs2 heq
        rw [heq] at hl1 hl2
        have hheld : w2.held = false := by
          rcases hl2 with h2 | h2
          · exact h2
          · simp at h2
        obtain ⟨he1, he2⟩ := launch_epilogue_lock bws env.rows.length w2 hheld
        simp [he1, he2, hl1]

/-- The steps of an iteration up to the latch reset touch neither the lock nor the
slots. -/
theorem iteration_waited_lock (b : Bool) (latch : Nat) (it : LoopEnv) (w : World) :
    (iteration_prewait b it w).held = w.held
    ∧ (iteration_prewait b it w).unlocked = w.unlocked
    ∧ (iteration_waited b latch it w).held = w.held
    ∧ (iteration_waited b latch it w).unlocked = w.unlocked := by
  unfold iteration_waited iteration_prewait
  cases b <;> cases it.got_SIGHUP <;> simp [lockStep, isSlotAccess]

/-- Locking of the main loop entered without the lock: every slot access made
without the lock is a read or write of the worker's own slot, and the loop is
left through its test without the lock. -/
theorem main_loop_lock (pick : List BdrWorker → Option Nat) (b : Bool) (latch idx : Nat)
    (its : List LoopEnv) (w : World) (h : w.held = false) :
    ∃ extra, (perdb_main_loop pick b latch idx its w).1.unlocked = w.unlocked ++ extra
      ∧ (∀ e ∈ extra, ownSlotAccess idx e)
      ∧ ((perdb_main_loop pick b latch idx its w).2 = none →
          (perdb_main_loop pick b latch idx its w).1.held = false) := by
  induction its generalizing w with
  | nil => exact ⟨[], by simp [perdb_main_loop], by simp, by simp [perdb_main_loop]⟩
  | cons it rest ih =>
    by_cases hterm : it.got_SIGTERM = true
    · refine ⟨[], ?_, by simp, ?_⟩
      · simp [perdb_main_loop, hterm]
      · intro _
        simp [perdb_main_loop, hterm, h]
    · have hterm2 : it.got_SIGTERM = false := by simpa using hterm
      obtain ⟨hq1, hq2, hq3, hq4⟩ := iteration_waited_lock b latch it w
      rw [h] at hq1 hq3
      rw [perdb_main_loop_cons pick b latch idx it rest w hterm2]
      by_cases hwait : iteration_waits b it = true
      · rw [if_pos hwait]
        by_cases hpm : it.rc &&& WL_POSTMASTER_DEATH ≠ 0
        · rw [if_pos hpm]
          exact ⟨[], by simp [isSlotAccess, hq4], by simp, by simp⟩
        · rw [if_neg hpm]
          by_cases hl : it.rc &&& WL_LATCH_SET ≠ 0
          · rw [if_pos hl]
            have hheld : ((iteration_waited b latch it w).log (Event.SlotRead idx)).held
                = false := by simp [lockStep, hq3]
            have hunl : ((iteration_waited b latch it w).log (Event.SlotRead idx)).unlocked
                = w.unlocked ++ [Event.SlotRead idx] := by simp [isSlotAccess, hq3, hq4]
            obtain ⟨hl1, hl2⟩ := launch_lock pick idx idx
              (slot_dbname (iteration_waited b latch it w) idx) it.launch
              ((iteration_waited b latch it w).log (Event.SlotRead idx)) hheld
            rw [hunl] at hl1
            cases hres : bdr_launch_apply_workers pick idx idx
                (slot_dbname (iteration_waited b latch it w) idx) it.launch
                ((iteration_waited b latch it w).log (Event.SlotRead idx)) with
            | mk w5 o =>
              rw [hres] at hl1 hl2
              cases o with
              | error msg =>
                refine ⟨[Event.SlotRead idx], by simpa using hl1, ?_, by simp⟩
                intro e he
                simp only [List.mem_singleton] at he
                exact Or.inl he
              | ok hs =>
                simp only [] at hl1 ⊢
                obtain ⟨extra, hx1, hx2, hx3⟩ := ih w5 (hl2 hs rfl)
                refine ⟨[Event.SlotRead idx, Event.SlotWrite idx] ++ extra, ?_, ?_, hx3⟩
                · rw [hx1, hl1]
                  simp
                · intro e he
                  rcases List.mem_append.1 he with h1 | h1
                  · simp only [List.mem_cons, List.mem_singleton, List.not_mem_nil,
                      or_false] at h1
                    exact h1
                  · exact hx2 e h1
          · rw [if_neg hl]
            obtain ⟨extra, hx1, hx2, hx3⟩ := ih (iteration_waited b latch it w) hq3
            exact ⟨extra, by rw [hx1, hq4], hx2, hx3⟩
      · rw [if_neg hwait]
        obtain ⟨extra, hx1, hx2, hx3⟩ := ih (iteration_prewait b it w) hq1
        exact ⟨extra, by rw [hx1, hq2], hx2, hx3⟩

/-- Locking of the start-up steps: entered without the lock, they read and write
the worker's own slot without the lock. -/
theorem main_startup_lock (idx : Nat) (w : World) (h : w.held = false) :
    (main_startup idx w).held = false
    ∧ (main_startup idx w).unlocked
        = w.unlocked ++ [Event.SlotRead idx, Event.SlotWrite idx, Event.SlotRead idx] := by
  simp [main_startup, lockStep, isSlotAccess, h]

/-- Locking of the publication steps: the two writes are made under the lock; in
a `BUILDING_BDR` build the slot is read without the lock before. -/
theorem main_publish_lock (env : MainEnv) (idx : Nat) (w : World) (h : w.held = false) :
    (main_publish env idx w).held = false
    ∧ (main_publish env idx w).unlocked
        = w.unlocked ++ (if env.BUILDING_BDR then [Event.SlotRead idx] else []) := by
  unfold main_publish
  cases env.BUILDING_BDR <;> simp [lockStep, isSlotAccess, h]

/-- Locking of the exit steps: the write is made without the lock. -/
theorem main_shutdown_lock (idx : Nat) (w : World) (h : w.held = false) :
    (main_shutdown idx w).unlocked = w.unlocked ++ [Event.SlotWrite idx] := by
  simp [main_shutdown, lockStep, isSlotAccess, h]

/-- Locking of a run of the worker with a current-generation token, entered
without the lock: every slot access made without the lock is a read or write of
the worker's own slot. -/
theorem main_lock (pick : List BdrWorker → Option Nat) (env : MainEnv) (main_arg : Nat)
    (w : World) (h : w.held = false)
    (hcur : arg_generation (main_worker_arg main_arg) = w.BdrWorkerCtl.worker_generation) :
    ∃ extra, (bdr_perdb_worker_main pick env main_arg w).w.unlocked = w.unlocked ++ extra
      ∧ ∀ e ∈ extra, ownSlotAccess (arg_idx (main_worker_arg main_arg)) e := by
  rw [main_current pick env main_arg w hcur]
  obtain ⟨hs1, hs2⟩ := main_startup_lock (arg_idx (main_worker_arg main_arg)) w h
  obtain ⟨hl1, hl2⟩ := launch_lock pick (arg_idx (main_worker_arg main_arg))
    (arg_idx (main_worker_arg main_arg))
    (slot_dbname (main_startup (arg_idx (main_worker_arg main_arg)) w)
      (arg_idx (main_worker_arg main_arg))) env.initial
    (main_startup (arg_idx (main_worker_arg main_arg)) w) hs1
  rw [hs2] at hl1
  cases hres : bdr_launch_apply_workers pick (arg_idx (main_worker_arg main_arg))
      (arg_idx (main_worker_arg main_arg))
      (slot_dbname (main_startup (arg_idx (main_worker_arg main_arg)) w)
        (arg_idx (main_worker_arg main_arg))) env.initial
      (main_startup (arg_idx (main_worker_arg main_arg)) w) with
  | mk w4 o =>
    rw [hres] at hl1 hl2
    cases o with
    | error msg =>
      refine ⟨[Event.SlotRead _, Event.SlotWrite _, Event.SlotRead _], by simpa using hl1, ?_⟩
      intro e he
      simp only [List.mem_cons, List.mem_singleton, List.not_mem_nil, or_false] at he
      rcases he with h1 | h1 | h1
      · exact Or.inl h1
      · exact Or.inr h1
      · exact Or.inl h1
    | ok hs =>
      simp only [] at hl1 ⊢
      obtain ⟨hp1, hp2⟩ := main_publish_lock env (arg_idx (main_worker_arg main_arg)) w4
        (hl2 hs rfl)
      obtain ⟨extra, hx1, hx2, hx3⟩ := main_loop_lock pick env.BUILDING_BDR env.MyProcLatch
        (arg_idx (main_worker_arg main_arg)) env.iterations
        (main_publish env (arg_idx (main_worker_arg main_arg)) w4) hp1
      rw [hp2, hl1] at hx1
      have hgood : ∀ e ∈ [Event.SlotRead (arg_idx (main_worker_arg main_arg)),
          Event.SlotWrite (arg_idx (main_worker_arg main_arg)),
          Event.SlotRead (arg_idx (main_worker_arg main_arg))]
          ++ [Event.SlotWrite (arg_idx (main_worker_arg main_arg))]
          ++ (if env.BUILDING_BDR then [Event.SlotRead (arg_idx (main_worker_arg main_arg))]
              else []) ++ extra,
          ownSlotAccess (arg_idx (main_worker_arg main_arg)) e := by
        intro e he
        rcases List.mem_append.1 he with h1 | h1
        · rcases List.mem_append.1 h1 with h2 | h2
          · simp only [List.append_assoc, List.cons_append, List.nil_append, List.mem_cons,
              List.mem_singleton, List.not_mem_nil, or_false] at h2
            rcases h2 with h3 | h3 | h3 | h3
            · exact Or.inl h3
            · exact Or.inr h3
            · exact Or.inl h3
            · exact Or.inr h3
          · split at h2
            · simp only [List.mem_singleton] at h2
              exact Or.inl h2
            · simp at h2
        · exact hx2 e h1
      cases hloop : perdb_main_loop pick env.BUILDING_BDR env.MyProcLatch
          (arg_idx (main_worker_arg main_arg)) env.iterations
          (main_publish env (arg_idx (main_worker_arg main_arg)) w4) with
      | mk w10 ex =>
        rw [hloop] at hx1 hx3
        cases ex with
        | some e =>
          refine ⟨_, ?_, hgood⟩
          simp only [hx1, List.append_assoc]
        | none =>
          simp only []
          rw [main_shutdown_lock _ w10 (hx3 rfl), hx1]
          refine ⟨[Event.SlotRead (arg_idx (main_worker_arg main_arg)),
            Event.SlotWrite (arg_idx (main_worker_arg main_arg)),
            Event.SlotRead (arg_idx (main_worker_arg main_arg))]
            ++ [Event.SlotWrite (arg_idx (main_worker_arg main_arg))]
            ++ (if env.BUILDING_BDR then [Event.SlotRead (arg_idx (main_worker_arg main_arg))]
                else []) ++ extra
            ++ [Event.SlotWrite (arg_idx (main_worker_arg main_arg))], ?_, ?_⟩
          · simp only [List.append_assoc]
          · intro e he
            rcases List.mem_append.1 he with h1 | h1
            · exact hgood e h1
            · simp only [List.mem_singleton] at h1
              exact Or.inr h1

/-! ### The worker's own slot -/

/-- A write of the `perdb_worker` member of entry `idx` that keeps `proclatch` and
`database_oid`. -/
theorem ownSlot_writeSlot (w : World) (idx latch oid : Nat) (f : BdrWorker → BdrWorker)
    (hf : ∀ s, (f s).worker_type = s.worker_type
      ∧ (f s).perdb_worker.proclatch = s.perdb_worker.proclatch
      ∧ (f s).perdb_worker.database_oid = s.perdb_worker.database_oid)
    (h : OwnSlot w idx latch oid) : OwnSlot (w.writeSlot idx f) idx latch oid := by
  obtain ⟨s, hs, ht, hl, ho⟩ := h
  refine ⟨f s, ?_, ?_, ?_, ?_⟩
  · rw [writeSlot_slots, modify_getElem_some f _ idx idx s hs, if_pos rfl]
  · rw [(hf s).1, ht]
  · rw [(hf s).2.1, hl]
  · rw [(hf s).2.2, ho]

/-- Logging an action keeps the slots. -/
theorem ownSlot_log (w : World) (idx latch oid : Nat) (e : Event)
    (h : OwnSlot w idx latch oid) : OwnSlot (w.log e) idx latch oid := h

/-- A pass keeps the worker's own slot but for `nnodes`, however it ends. -/
theorem launch_own_slot (pick : List BdrWorker → Option Nat) (hpick : PicksFree pick)
    (pidx idx : Nat) (dbname : CString) (env : LaunchEnv) (w : World) (latch oid : Nat)
    (h : OwnSlot w idx latch oid) :
    OwnSlot (bdr_launch_apply_workers pick pidx idx dbname env w).1 idx latch oid := by
  obtain ⟨s, hs, ht, hl, ho⟩ := h
  have hfr := launch_loop_frame pick hpick pidx dbname env.register env.rows 0
    (launch_prologue w) [] idx s hs (by rw [ht]; decide)
  unfold bdr_launch_apply_workers
  simp only []
  split
  · exact ⟨s, hs, ht, hl, ho⟩
  · split
    · exact ⟨s, hs, ht, hl, ho⟩
    · split
      · rename_i w2 msg heq
        rw [heq] at hfr
        exact ⟨s, hfr, ht, hl, ho⟩
      · rename_i w2 hs2 heq
        rw [heq] at hfr
        have hget := modify_getElem_some (fun t : BdrWorker =>
          { t with perdb_worker := { t.perdb_worker with nnodes := env.rows.length } })
          w2.slots idx idx s hfr
        rw [if_pos rfl] at hget
        exact ⟨_, hget, ht, hl, ho⟩

/-- The main loop keeps `proclatch` and `database_oid` of the worker's own slot. -/
theorem main_loop_own_slot (pick : List BdrWorker → Option Nat) (hpick : PicksFree pick)
    (b : Bool) (procLatch idx : Nat) (its : List LoopEnv) (w : World) (latch oid : Nat)
    (h : OwnSlot w idx latch oid) :
    OwnSlot (perdb_main_loop pick b procLatch idx its w).1 idx latch oid := by
  induction its generalizing w with
  | nil => simpa [perdb_main_loop] using h
  | cons it rest ih =>
    by_cases hterm : it.got_SIGTERM = true
    · simpa [perdb_main_loop, hterm] using h
    · have hterm2 : it.got_SIGTERM = false := by simpa using hterm
      have hpre : OwnSlot (iteration_prewait b it w) idx latch oid := by
        obtain ⟨s, hs, hrest⟩ := h
        refine ⟨s, ?_, hrest⟩
        show (iteration_prewait b it w).BdrWorkerCtl.slots[idx]? = some s
        rw [(iteration_prewait_same b it w).1]
        exact hs
      have hwaited : OwnSlot (iteration_waited b procLatch it w) idx latch oid := hpre
      rw [perdb_main_loop_cons pick b procLatch idx it rest w hterm2]
      split
      · split
        · exact hwaited
        · split
          · have hl := launch_own_slot pick hpick idx idx
              (slot_dbname (iteration_waited b procLatch it w) idx) it.launch
              ((iteration_waited b procLatch it w).log (Event.SlotRead idx)) latch oid hwaited
            split
            · rename_i w5 msg heq
              rw [heq] at hl
              exact hl
            · rename_i w5 hs5 heq
              rw [heq] at hl
              exact ih w5 hl
          · exact ih _ hwaited
      · exact ih _ hpre

/-- The main loop never ends the process with status 0: it is left through its
test, or the process ends with status 1, with an error, or is still running. -/
theorem main_loop_not_exit_zero (pick : List BdrWorker → Option Nat) (b : Bool)
    (procLatch idx : Nat) (its : List LoopEnv) (w : World) :
    (perdb_main_loop pick b procLatch idx its w).2 ≠ some (Exit.exited 0) := by
  induction its generalizing w with
  | nil => simp [perdb_main_loop]
  | cons it rest ih =>
    by_cases hterm : it.got_SIGTERM = true
    · simp [perdb_main_loop, hterm]
    · have hterm2 : it.got_SIGTERM = false := by simpa using hterm
      rw [perdb_main_loop_cons pick b procLatch idx it rest w hterm2]
      split
      · split
        · simp
        · split
          · split
            · simp
            · exact ih _
          · exact ih _
      · exact ih _

/-- The start-up steps keep `proclatch` and `database_oid` of the worker's own
slot: the initial pass runs with the values the slot had at entry. -/
theorem main_startup_own_slot (idx : Nat) (w : World) (latch oid : Nat)
    (h : OwnSlot w idx latch oid) : OwnSlot (main_startup idx w) idx latch oid := by
  obtain ⟨s, hs, ht, hl, ho⟩ := h
  have h1 := modify_getElem_some (fun t : BdrWorker =>
      { t with perdb_worker := { t.perdb_worker with nnodes := 0 } })
      w.slots idx idx s hs
  rw [if_pos rfl] at h1
  exact ⟨_, h1, ht, hl, ho⟩

/-- The publication steps store the process latch and the database id in the
worker's own slot. -/
theorem main_publish_own_slot (env : MainEnv) (idx : Nat) (w : World) (latch oid : Nat)
    (h : OwnSlot w idx latch oid) :
    OwnSlot (main_publish env idx w) idx env.MyProcLatch env.MyDatabaseId := by
  obtain ⟨s, hs, ht, _, _⟩ := h
  have hslots : (main_publish env idx w).slots
      = (w.slots.modify (fun t : BdrWorker =>
          { t with perdb_worker := { t.perdb_worker with proclatch := env.MyProcLatch } })
          idx).modify (fun t : BdrWorker =>
          { t with perdb_worker := { t.perdb_worker with database_oid := env.MyDatabaseId } })
          idx := by
    unfold main_publish
    cases env.BUILDING_BDR <;> rfl
  have h1 := modify_getElem_some (fun t : BdrWorker =>
      { t with perdb_worker := { t.perdb_worker with proclatch := env.MyProcLatch } })
      w.slots idx idx s hs
  rw [if_pos rfl] at h1
  have h2 := modify_getElem_some (fun t : BdrWorker =>
      { t with perdb_worker := { t.perdb_worker with database_oid := env.MyDatabaseId } })
      _ idx idx _ h1
  rw [if_pos rfl, ← hslots] at h2
  exact ⟨_, h2, ht, rfl, rfl⟩

/-- The exit steps set `database_oid` of the worker's own slot to `InvalidOid` and
keep its `proclatch`. -/
theorem main_shutdown_own_slot (idx : Nat) (w : World) (latch oid : Nat)
    (h : OwnSlot w idx latch oid) : OwnSlot (main_shutdown idx w) idx latch InvalidOid := by
  obtain ⟨s, hs, ht, hl, _⟩ := h
  have h1 := modify_getElem_some (fun t : BdrWorker =>
      { t with perdb_worker := { t.perdb_worker with database_oid := InvalidOid } })
      w.slots idx idx s hs
  rw [if_pos rfl] at h1
  exact ⟨_, h1, ht, hl, rfl⟩

/-- C12, as amended: when `bdr_perdb_worker_main` (current-generation token, own
slot a PERDB slot, allocator handing out free entries only) ends with
`proc_exit(0)`, that is when it left its main loop because `got_SIGTERM` was set,
it has set `database_oid` of its slot to `InvalidOid` as its last slot access and
then exited; the slot's `proclatch` still holds the address of the process latch
published at start-up. -/
theorem shutdown_resets_database_oid (pick : List BdrWorker → Option Nat)
    (hpick : PicksFree pick) (env : MainEnv) (main_arg : Nat) (w : World) (s : BdrWorker)
    (hcur : arg_generation (main_worker_arg main_arg) = w.BdrWorkerCtl.worker_generation)
    (hslot : w.slots[arg_idx (main_worker_arg main_arg)]? = some s
      ∧ s.worker_type = BdrWorkerType.BDR_WORKER_PERDB)
    (hexit : (bdr_perdb_worker_main pick env main_arg w).exit = Exit.exited 0) :
    OwnSlot (bdr_perdb_worker_main pick env main_arg w).w (arg_idx (main_worker_arg main_arg))
      env.MyProcLatch InvalidOid
    ∧ ∃ w10, (bdr_perdb_worker_main pick env main_arg w).w
          = main_shutdown (arg_idx (main_worker_arg main_arg)) w10
        ∧ OwnSlot w10 (arg_idx (main_worker_arg main_arg)) env.MyProcLatch env.MyDatabaseId
        ∧ (bdr_perdb_worker_main pick env main_arg w).w.trace
            = w10.trace ++ [Event.SlotWrite (arg_idx (main_worker_arg main_arg)),
                Event.proc_exit 0] := by
  have hown : OwnSlot w (arg_idx (main_worker_arg main_arg)) s.perdb_worker.proclatch
      s.perdb_worker.database_oid := ⟨s, hslot.1, hslot.2, rfl, rfl⟩
  have hstart := main_startup_own_slot _ w _ _ hown
  have hlaunch := launch_own_slot pick hpick (arg_idx (main_worker_arg main_arg))
    (arg_idx (main_worker_arg main_arg))
    (slot_dbname (main_startup (arg_idx (main_worker_arg main_arg)) w)
      (arg_idx (main_worker_arg main_arg))) env.initial
    (main_startup (arg_idx (main_worker_arg main_arg)) w) _ _ hstart
  rw [main_current pick env main_arg w hcur] at hexit ⊢
  cases hres : bdr_launch_apply_workers pick (arg_idx (main_worker_arg main_arg))
      (arg_idx (main_worker_arg main_arg))
      (slot_dbname (main_startup (arg_idx (main_worker_arg main_arg)) w)
        (arg_idx (main_worker_arg main_arg))) env.initial
      (main_startup (arg_idx (main_worker_arg main_arg)) w) with
  | mk w4 o =>
    rw [hres] at hexit hlaunch
    cases o with
    | error msg => simp at hexit
    | ok hs =>
      simp only [] at hexit ⊢
      have hpub := main_publish_own_slot env (arg_idx (main_worker_arg main_arg)) w4 _ _ hlaunch
      have hloop := main_loop_own_slot pick hpick env.BUILDING_BDR env.MyProcLatch
        (arg_idx (main_worker_arg main_arg)) env.iterations _ _ _ hpub
      have hne := main_loop_not_exit_zero pick env.BUILDING_BDR env.MyProcLatch
        (arg_idx (main_worker_arg main_arg)) env.iterations
        (main_publish env (arg_idx (main_worker_arg main_arg)) w4)
      cases hl : perdb_main_loop pick env.BUILDING_BDR env.MyProcLatch
          (arg_idx (main_worker_arg main_arg)) env.iterations
          (main_publish env (arg_idx (main_worker_arg main_arg)) w4) with
      | mk w10 ex =>
        rw [hl] at hexit hloop hne
        cases ex with
        | some e =>
          simp only [] at hexit
          rw [hexit] at hne
          exact absurd rfl hne
        | none =>
          simp only []
          exact ⟨main_shutdown_own_slot _ w10 _ _ hloop, w10, rfl, hloop,
            by simp [main_shutdown]⟩

/-- Witness of the amended C12: the demo run that is shut down at the first loop
test. -/
theorem shutdown_resets_database_oid_witness :
    PicksFree first_free
    ∧ arg_generation (main_worker_arg (make_main_arg 3 0))
        = demo_world.BdrWorkerCtl.worker_generation
    ∧ demo_world.slots[arg_idx (main_worker_arg (make_main_arg 3 0))]?
        = some (perdb_slot [100] 7)
    ∧ demo_shutdown_run.exit = Exit.exited 0
    ∧ OwnSlot demo_shutdown_run.w (arg_idx (main_worker_arg (make_main_arg 3 0))) 7
        InvalidOid :=
  ⟨first_free_picks_free, by decide, by decide, by decide,
    (shutdown_resets_database_oid first_free first_free_picks_free demo_shutdown_env
      (make_main_arg 3 0) demo_world (perdb_slot [100] 7) (by decide) ⟨by decide, rfl⟩
      (by decide)).1⟩

/-- C12, refuted as stated: in the demo run that is shut down at the first loop
test the worker exits with status 0 and its slot still holds `proclatch = 7`, not
`NULL`; the last slot access made without the lock is the write of
`database_oid`, and the trace ends with the lock release of the publication, that
write and the exit. -/
theorem shutdown_keeps_proclatch :
    demo_shutdown_run.exit = Exit.exited 0
    ∧ (demo_shutdown_run.w.slots[0]?).map
        (fun s => (s.perdb_worker.proclatch, s.perdb_worker.database_oid))
        = some (7, InvalidOid)
    ∧ (7 : Nat) ≠ NULL
    ∧ demo_shutdown_run.w.unlocked.getLast? = some (Event.SlotWrite 0)
    ∧ demo_shutdown_run.w.trace.drop (demo_shutdown_run.w.trace.length - 3)
        = [Event.LWLockRelease, Event.SlotWrite 0, Event.proc_exit 0] := by
  refine ⟨?_, ?_, ?_, ?_, ?_⟩ <;> decide

/-- C16, as amended: entered without the lock, (a) `bdr_perdb_xact_callback` makes
every slot access under the lock and releases it; (b) `bdr_launch_apply_workers`
makes every slot scan and every access to an apply-worker slot under the lock,
the only access it makes without the lock being the `nnodes` write of a pass that
ends normally (line 353), into the slot `bdr_worker_slot` points to; (c) in a run
of `bdr_perdb_worker_main` with a current-generation token every access made
without the lock is a read or a write of the worker's own slot, so every scan and
every access to another slot is made under the lock; (d) the publication of
`proclatch` and `database_oid` (lines 462-465) is made under the lock. -/
theorem locking_discipline_own_slot (pick : List BdrWorker → Option Nat) :
    (∀ (event : XactEvent) (s : Backend), s.w.held = false →
      (bdr_perdb_xact_callback event s).w.held = false
      ∧ (bdr_perdb_xact_callback event s).w.unlocked = s.w.unlocked)
    ∧ (∀ (idx bws : Nat) (dbname : CString) (env : LaunchEnv) (w : World), w.held = false →
      (bdr_launch_apply_workers pick idx bws dbname env w).1.unlocked
        = w.unlocked ++ (match (bdr_launch_apply_workers pick idx bws dbname env w).2 with
            | Outcome.ok _ => [Event.SlotWrite bws]
            | Outcome.error _ => [])
      ∧ (∀ hs, (bdr_launch_apply_workers pick idx bws dbname env w).2 = Outcome.ok hs →
          (bdr_launch_apply_workers pick idx bws dbname env w).1.held = false))
    ∧ (∀ (env : MainEnv) (main_arg : Nat) (w : World), w.held = false →
      arg_generation (main_worker_arg main_arg) = w.BdrWorkerCtl.worker_generation →
      ∃ extra, (bdr_perdb_worker_main pick env main_arg w).w.unlocked = w.unlocked ++ extra
        ∧ ∀ e ∈ extra, ownSlotAccess (arg_idx (main_worker_arg main_arg)) e)
    ∧ (∀ (env : MainEnv) (idx : Nat) (w : World), w.held = false →
      (main_publish env idx w).held = false
      ∧ (main_publish env idx w).unlocked
          = w.unlocked ++ (if env.BUILDING_BDR then [Event.SlotRead idx] else [])) :=
  ⟨fun event s h => callback_lock event s h,
    fun idx bws dbname env w h => launch_lock pick idx bws dbname env w h,
    fun env main_arg w h hcur => main_lock pick env main_arg w h hcur,
    fun env idx w h => main_publish_lock env idx w h⟩

/-- Witness of the amended C16: the commit hook in the demo backend, entered
without the lock, makes no access without the lock. -/
theorem locking_discipline_own_slot_witness :
    demo_backend_flagged.w.held = false
    ∧ (bdr_perdb_xact_callback XactEvent.XACT_EVENT_COMMIT demo_backend_flagged).w.held
        = false
    ∧ (bdr_perdb_xact_callback XactEvent.XACT_EVENT_COMMIT demo_backend_flagged).w.unlocked
        = demo_backend_flagged.w.unlocked :=
  ⟨rfl, ((locking_discipline_own_slot first_free).1 XactEvent.XACT_EVENT_COMMIT
      demo_backend_flagged rfl).1,
    ((locking_discipline_own_slot first_free).1 XactEvent.XACT_EVENT_COMMIT
      demo_backend_flagged rfl).2⟩

/-- C16, refuted as stated: the first pass over `[[65], [66]]` in the demo
registry, entered without the lock, writes slot 0 (the `nnodes` write of line
353) while the process does not hold the lock; and the demo run of the worker
reads and writes slot 0 without the lock six times. -/
theorem nnodes_written_without_lock :
    demo_world.held = false
    ∧ demo_pass1.2 = Outcome.ok [1, 0]
    ∧ demo_pass1.1.unlocked = [Event.SlotWrite 0]
    ∧ demo_shutdown_run.w.unlocked
        = [Event.SlotRead 0, Event.SlotWrite 0, Event.SlotRead 0, Event.SlotWrite 0,
           Event.SlotRead 0, Event.SlotWrite 0] := by
  refine ⟨?_, ?_, ?_, ?_⟩ <;> decide

/-! ### Start-up order -/

/-- C17, evaluated: in `unstarted_world` the worker's slot has `proclatch = NULL`.
The worker runs its initial launch pass first: when the pass starts the slot
still has `proclatch = NULL`, and the pass sees the directory `[[65]]`. A session
that added a connection commits right after that pass: its commit hook finds the
PERDB slot with `proclatch = NULL` and sets no latch. The worker then publishes
its latch and waits; woken by the timeout only, it starts no further pass: the
number of passes started stays 1, so no pass starts after that commit. -/
theorem publication_after_initial_pass :
    (bdr_perdb_worker_main first_free race_env (make_main_arg 3 0) unstarted_world).w
      = (perdb_main_loop first_free true 7 0 race_env.iterations
          (main_publish race_env 0 race_after_initial_pass)).1
    ∧ ((main_startup 0 unstarted_world).slots[0]?).map
        (fun s => s.perdb_worker.proclatch) = some NULL
    ∧ passesStarted (main_startup 0 unstarted_world).trace = 0
    ∧ passesStarted race_after_initial_pass.trace = 1
    ∧ (race_after_initial_pass.slots[0]?).map (fun s => s.perdb_worker.proclatch)
        = some NULL
    ∧ setLatchCalls race_after_commit.trace = []
    ∧ race_after_loop.2 = some Exit.running
    ∧ passesStarted race_after_loop.1.trace = 1
    ∧ (race_after_loop.1.slots[0]?).map (fun s => s.perdb_worker.proclatch) = some 7 := by
  refine ⟨?_, ?_, ?_, ?_, ?_, ?_, ?_, ?_, ?_⟩ <;> decide

/-- C4, evaluated: in `wide_world` (no APPLY slot, five free entries, spawner
always succeeding) the pass over `{A, B}` with `A = long_name` (64 bytes) and
`B = [66]` issues two spawn requests and allocates slots 1 and 2. The pass over
`{A, B, C}` with `C = [67]` that follows issues two further spawn requests, one
for `A` again and one for `C`, returns two handles and allocates slots 3 and 4:
it spawns 2 workers, not 1, because the lookup of the 64-byte `A` does not find
the slot that holds its 63-byte cut. The slots of `A` and `B` are unchanged. -/
theorem long_name_incremental_spawns_twice :
    grow_pass1.2 = Outcome.ok [1, 0]
    ∧ (spawnRequests grow_pass1.1.trace).map (fun p => (p.1.bgw_name, p.2))
        = [(long_name, true), ([66], true)]
    ∧ grow_pass2.2 = Outcome.ok [2, 0]
    ∧ (spawnRequests grow_pass2.1.trace).map (fun p => (p.1.bgw_name, p.2))
        = [(long_name, true), ([66], true), (long_name, true), ([67], true)]
    ∧ (grow_pass2.1.slots.map (fun s => s.worker_type))
        = [BdrWorkerType.BDR_WORKER_PERDB, BdrWorkerType.BDR_WORKER_APPLY,
           BdrWorkerType.BDR_WORKER_APPLY, BdrWorkerType.BDR_WORKER_APPLY,
           BdrWorkerType.BDR_WORKER_APPLY, BdrWorkerType.BDR_WORKER_EMPTY_SLOT]
    ∧ (grow_pass2.1.slots.map (fun s => s.apply_worker.conn_local_name)).take 5
        = [[], cut_name, [66], cut_name, [67]]
    ∧ grow_pass2.1.slots[1]? = grow_pass1.1.slots[1]?
    ∧ grow_pass2.1.slots[2]? = grow_pass1.1.slots[2]? := by
  refine ⟨?_, ?_, ?_, ?_, ?_, ?_, ?_, ?_⟩ <;> decide

end BdrPerdb
